import Mathlib

/-!
Verification of the mcp-server-caldav repository.

This file shallowly embeds the TypeScript source of the repository:

* `src/packages/core/src/filters.ts` — the iCalendar document engine
  (`CalDavFilters.parseICalendarData`, `parseProperty`, `unescapeValue`,
  `escapeValue`, `filterByTimeRange`, `filterByJmesExpression`,
  `componentsToICalendar`, …);
* the URI template registry and matcher (`templates.ts` / `uri.ts`,
  present as `src/unnamed/part_002` and `src/unnamed/part_000`);
* the report builder `src/packages/core/src/report.ts`;
* the request orchestrator (`handler.ts`, present as `src/unnamed/part_001`).

JavaScript strings are modelled as `List Char` (`Str`).  JS runtime
conventions that the source relies on are modelled explicitly:

* string truthiness (`if (s)`) is `s ≠ []`;
* number truthiness (`if (n)`) is `n ≠ 0` and `n ≠ NaN`; a JS number that
  may be `NaN` is modelled as `Option Int` (with `none` for `NaN`, which is
  adequate because the source only produces numbers via `Number.parseInt`);
* `Date` values are modelled as `Option Int` — milliseconds since the epoch,
  `none` standing for `Invalid Date` (whose comparisons are all false);
  `new Date(string)` is modelled by `jsDateParse`, which implements the
  ECMAScript date-time string format with the host clock in UTC (so a
  date-time without a `Z` offset denotes the same instant as with one);
  other, implementation-defined date formats parse to `Invalid Date`;
* `String.prototype.trim` is modelled over the ASCII whitespace characters
  (space, tab, LF, CR, FF, VT), which is the alphabet the repository's
  documents use.
-/

/-- JS strings are modelled as lists of characters. -/
abbrev Str := List Char

namespace CalDav

/-! ## Generic JS string helpers -/

/-- Whitespace for `String.prototype.trim` (ASCII subset, see header note). -/
def isJsWS (c : Char) : Bool :=
  c = ' ' || c = '\t' || c = '\n' || c = '\r' || c = '\x0c' || c = '\x0b'

/-- The two characters the folding regexp class `[ \t]` accepts. -/
def isSpaceTab (c : Char) : Bool :=
  c = ' ' || c = '\t'

/-- Model of `s.trim()`: drop leading and trailing whitespace. -/
def jsTrim (s : Str) : Str :=
  ((s.dropWhile isJsWS).reverse.dropWhile isJsWS).reverse

/-- Model of `s.split(sep)` for a single-character separator. -/
def splitChar (sep : Char) : Str → List Str
  | [] => [[]]
  | c :: rest =>
    if c = sep then
      [] :: splitChar sep rest
    else
      match splitChar sep rest with
      | [] => [[c]]
      | p :: ps => (c :: p) :: ps

/-- Model of `array.join(sep)` for string arrays. -/
def joinSep (sep : Str) : List Str → Str
  | [] => []
  | [s] => s
  | s :: rest => s ++ sep ++ joinSep sep rest

/-- Model of `s.startsWith(p)`. -/
def strStartsWith (p s : Str) : Bool :=
  p.isPrefixOf s

/-- Model of `s.endsWith(p)`. -/
def strEndsWith (p s : Str) : Bool :=
  p.reverse.isPrefixOf s.reverse

/-- Model of `s.includes(p)` (contiguous substring test). -/
def strIncludes (p : Str) : Str → Bool
  | [] => p.isPrefixOf []
  | c :: rest => p.isPrefixOf (c :: rest) || strIncludes p rest

/-- ASCII uppercasing of one character (`a`–`z` loses 32). -/
def upperChar (c : Char) : Char :=
  if 97 ≤ c.toNat && c.toNat ≤ 122 then Char.ofNat (c.toNat - 32) else c

/-- Model of `s.toUpperCase()` (ASCII; the source only feeds it ASCII). -/
def jsToUpper (s : Str) : Str :=
  s.map upperChar

/-- Model of `s.toLowerCase()` (ASCII). -/
def jsToLower (s : Str) : Str :=
  s.map Char.toLower

/-- Truthiness of an optional JS string: present and non-empty. -/
def strTruthy : Option Str → Bool
  | some (_ :: _) => true
  | _ => false

/-- Model of `Number.parseInt(s, 10)`: skip leading whitespace, optional
sign, then a maximal run of decimal digits; `none` models `NaN`. -/
def parseIntJS (s : Str) : Option Int :=
  let t := s.dropWhile isJsWS
  let isNeg : Bool := t.head? = some '-'
  let hasSign : Bool := isNeg || t.head? = some '+'
  let core := if hasSign then t.tail else t
  let digits := core.takeWhile Char.isDigit
  if digits.isEmpty then none
  else
    let n : Nat := digits.foldl (fun a c => a * 10 + (c.toNat - '0'.toNat)) 0
    some (if isNeg then -(n : Int) else (n : Int))

/-- Decimal digit character for `n % 10`. -/
def digitCh (n : Nat) : Char :=
  Char.ofNat ('0'.toNat + n % 10)

/-- Decimal rendering of a natural number (fueled; fuel `n + 1` always
suffices since the argument shrinks by a factor of ten per step). -/
def natToStrF : Nat → Nat → Str
  | 0, _ => []
  | f + 1, n => if n < 10 then [digitCh n] else natToStrF f (n / 10) ++ [digitCh n]

/-- Decimal rendering of an integer, as JS template interpolation does. -/
def intToStr (n : Int) : Str :=
  if n < 0 then '-' :: natToStrF (n.natAbs + 1) n.natAbs
  else natToStrF (n.natAbs + 1) n.natAbs

/-- First occurrence of `:` splits a property line into name and value,
modelling `line.indexOf(':')` / `line.substring`. -/
def splitAtColon : Str → Option (Str × Str)
  | [] => none
  | c :: rest =>
    if c = ':' then some ([], rest)
    else (splitAtColon rest).map (fun p => (c :: p.1, p.2))

/-! ## The iCalendar text escaping of `filters.ts`

`unescapeValue` is four sequential global replaces
(`\n`→LF, `\,`→`,`, `\;`→`;`, `\\`→`\`); `escapeValue` is
`\`→`\\`, `;`→`\;`, `,`→`\,`, CR/LF/CRLF→`\n`.  Each global replace is a
left-to-right scan that never rescans replaced text, which is exactly
structural recursion over the character list. -/

/-- Pass 1 of `unescapeValue`: `replace(/\\n/g, '\n')`. -/
def repBSn : Str → Str
  | '\\' :: 'n' :: rest => '\n' :: repBSn rest
  | c :: rest => c :: repBSn rest
  | [] => []

/-- Pass 2 of `unescapeValue`: `replace(/\\,/g, ',')`. -/
def repBScomma : Str → Str
  | '\\' :: ',' :: rest => ',' :: repBScomma rest
  | c :: rest => c :: repBScomma rest
  | [] => []

/-- Pass 3 of `unescapeValue`: `replace(/\\;/g, ';')`. -/
def repBSsemi : Str → Str
  | '\\' :: ';' :: rest => ';' :: repBSsemi rest
  | c :: rest => c :: repBSsemi rest
  | [] => []

/-- Pass 4 of `unescapeValue`: `replace(/\\\\/g, '\\')`. -/
def repBSbs : Str → Str
  | '\\' :: '\\' :: rest => '\\' :: repBSbs rest
  | c :: rest => c :: repBSbs rest
  | [] => []

/-- Model of `CalDavFilters.unescapeValue`. -/
def unescapeValue (s : Str) : Str :=
  repBSbs (repBSsemi (repBScomma (repBSn s)))

/-- Pass 1 of `escapeValue`: `replace(/\\/g, '\\\\')`. -/
def escBS : Str → Str
  | '\\' :: rest => '\\' :: '\\' :: escBS rest
  | c :: rest => c :: escBS rest
  | [] => []

/-- Pass 2 of `escapeValue`: `replace(/;/g, '\\;')`. -/
def escSemi : Str → Str
  | ';' :: rest => '\\' :: ';' :: escSemi rest
  | c :: rest => c :: escSemi rest
  | [] => []

/-- Pass 3 of `escapeValue`: `replace(/,/g, '\\,')`. -/
def escComma : Str → Str
  | ',' :: rest => '\\' :: ',' :: escComma rest
  | c :: rest => c :: escComma rest
  | [] => []

/-- Pass 4 of `escapeValue`: `replace(/\r\n|\n|\r/g, '\\n')`. -/
def escNL : Str → Str
  | '\r' :: '\n' :: rest => '\\' :: 'n' :: escNL rest
  | '\n' :: rest => '\\' :: 'n' :: escNL rest
  | '\r' :: rest => '\\' :: 'n' :: escNL rest
  | c :: rest => c :: escNL rest
  | [] => []

/-- Model of `CalDavFilters.escapeValue`. -/
def escapeValue (s : Str) : Str :=
  escNL (escComma (escSemi (escBS s)))

/-- Model of `value.split(/(?<!\\),/)`: split on commas not immediately
preceded by a backslash.  The accumulator carries the current segment
reversed, so its head is the character immediately before the cursor. -/
def splitUnescCommaGo (acc : Str) : Str → List Str
  | [] => [acc.reverse]
  | c :: rest =>
    if c = ',' && acc.head? ≠ some '\\' then
      acc.reverse :: splitUnescCommaGo [] rest
    else
      splitUnescCommaGo (c :: acc) rest

/-- Split on commas not preceded by a backslash (CATEGORIES parsing). -/
def splitUnescComma (s : Str) : List Str :=
  splitUnescCommaGo [] s

/-! ## Line unfolding and splitting (`parseICalendarData` preamble) -/

/-- Model of `icalData.replace(/\r?\n[ \t]/g, '')`: remove a (CR)LF that is
immediately followed by a space or tab, together with that space/tab. -/
def unfoldData : Str → Str
  | '\r' :: '\n' :: c :: rest =>
    if isSpaceTab c then unfoldData rest
    else '\r' :: '\n' :: unfoldData (c :: rest)
  | '\n' :: c :: rest =>
    if isSpaceTab c then unfoldData rest
    else '\n' :: unfoldData (c :: rest)
  | c :: rest => c :: unfoldData rest
  | [] => []

/-- Model of `s.split(/\r?\n/)`. -/
def splitLinesGo (acc : Str) : Str → List Str
  | '\r' :: '\n' :: rest => acc.reverse :: splitLinesGo [] rest
  | '\n' :: rest => acc.reverse :: splitLinesGo [] rest
  | c :: rest => splitLinesGo (c :: acc) rest
  | [] => [acc.reverse]

/-- Split a document into logical lines on `\r?\n`. -/
def splitLines (s : Str) : List Str :=
  splitLinesGo [] s

/-! ## The component model (`CalendarComponent` of `filters.ts`)

The TS interface has typed optional fields plus an index signature for
arbitrary extension properties.  Following the spec's design note, this
becomes a fixed record for the known fields plus an explicit association
list for extension properties (keyed by the lowercased property name, which
for ASCII names can never collide with a known field, since an ASCII name
lowercasing to e.g. `uid` uppercases to `UID` and is captured by the typed
switch case first).  `priority` is `Option (Option Int)`: the outer layer
is key presence, the inner `none` models `NaN` from `Number.parseInt`. -/

structure CalendarComponent where
  uid : Option Str := none
  componentType : Option Str := none
  summary : Option Str := none
  dtstart : Option Str := none
  dtend : Option Str := none
  categories : Option (List Str) := none
  status : Option Str := none
  priority : Option (Option Int) := none
  description : Option Str := none
  location : Option Str := none
  extras : List (Str × Str) := []
  deriving Repr, DecidableEq

/-- Set an extension property, overwriting in place as a JS object does. -/
def setExtra (k v : Str) : List (Str × Str) → List (Str × Str)
  | [] => [(k, v)]
  | (k', v') :: rest =>
    if k' = k then (k, v) :: rest else (k', v') :: setExtra k v rest

/-- Look up an extension property. -/
def getExtra (k : Str) : List (Str × Str) → Option Str
  | [] => none
  | (k', v') :: rest => if k' = k then some v' else getExtra k rest

/-- Model of `parseParameters`: each `key=value` part (first `=` splits;
both pieces must be truthy) is recorded under the uppercased key. -/
def parseParameters (parts : List Str) : List (Str × Str) :=
  parts.foldl
    (fun acc p =>
      let kv := splitChar '=' p
      match kv.get? 0, kv.get? 1 with
      | some (k0 :: ks), some (v0 :: vs) => setExtra (jsToUpper (k0 :: ks)) (v0 :: vs) acc
      | _, _ => acc)
    []

/-- Model of `parseDateTime`: with a `TZID` parameter the raw value gets the
zone appended parenthetically, otherwise it passes through. -/
def parseDateTime (value : Str) (params : List (Str × Str)) : Str :=
  match getExtra "TZID".data params with
  | some tz =>
    if tz ≠ [] then value ++ (' ' :: '(' :: (tz ++ [')'])) else value
  | none => value

/-- Model of `CalDavFilters.parseProperty`: dispatch on the uppercased
property name before the first `:`, with `;`-separated parameters. -/
def parseProperty (line : Str) (c : CalendarComponent) : CalendarComponent :=
  match splitAtColon line with
  | none => c
  | some (propPart, value) =>
    let parts := splitChar ';' propPart
    let propName := parts.headI
    let params := parseParameters parts.tail
    let u := jsToUpper propName
    if u = "UID".data then { c with uid := some value }
    else if u = "SUMMARY".data then { c with summary := some (unescapeValue value) }
    else if u = "DTSTART".data then { c with dtstart := some (parseDateTime value params) }
    else if u = "DTEND".data then { c with dtend := some (parseDateTime value params) }
    else if u = "CATEGORIES".data then
      let cats := (splitUnescComma value).map (fun cat => unescapeValue (jsTrim cat))
      { c with categories := some cats }
    else if u = "STATUS".data then { c with status := some (jsToUpper value) }
    else if u = "PRIORITY".data then { c with priority := some (parseIntJS value) }
    else if u = "DESCRIPTION".data then { c with description := some (unescapeValue value) }
    else if u = "LOCATION".data then { c with location := some (unescapeValue value) }
    else { c with extras := setExtra (jsToLower propName) (unescapeValue value) c.extras }

/-- A trimmed line opens a component iff it starts with a recognised
`BEGIN:` marker. -/
def isBeginLine (t : Str) : Bool :=
  strStartsWith "BEGIN:VEVENT".data t || strStartsWith "BEGIN:VTODO".data t ||
    strStartsWith "BEGIN:VJOURNAL".data t

/-- A trimmed line closes a component iff it starts with a recognised
`END:` marker. -/
def isEndLine (t : Str) : Bool :=
  strStartsWith "END:VEVENT".data t || strStartsWith "END:VTODO".data t ||
    strStartsWith "END:VJOURNAL".data t

/-- Parser state: the accumulating component, the in-component flag, and
the components collected so far. -/
structure PState where
  cur : Option CalendarComponent
  inComp : Bool
  out : List CalendarComponent
  deriving Repr, DecidableEq

/-- One step of the `parseICalendarData` line loop. -/
def parseStep (s : PState) (line : Str) : PState :=
  let t := jsTrim line
  if t.isEmpty then s
  else if isBeginLine t then
    { cur := some { componentType := (splitChar ':' t).get? 1 }, inComp := true, out := s.out }
  else if isEndLine t then
    let pushed :=
      match s.cur with
      | some c => if strTruthy c.uid then s.out ++ [c] else s.out
      | none => s.out
    { cur := none, inComp := false, out := pushed }
  else if s.inComp then
    match s.cur with
    | some c => { s with cur := some (parseProperty t c) }
    | none => s
  else s

/-- Model of `CalDavFilters.parseICalendarData`. -/
def parseICalendarData (icalData : Str) : List CalendarComponent :=
  ((splitLines (unfoldData icalData)).foldl parseStep ⟨none, false, []⟩).out

/-! ## Serialization (`componentsToICalendar`) -/

/-- Keep only the characters `DTSTART`/`DTEND` emission keeps:
`replace(/[^0-9TZ]/g, '')`. -/
def filterDigitsTZ (s : Str) : Str :=
  s.filter (fun c => c.isDigit || c = 'T' || c = 'Z')

/-- Truthiness of the optional parsed `priority` number: the key is present
and the number is neither `0` nor `NaN`. -/
def priorityTruthy : Option (Option Int) → Bool
  | some (some n) => n ≠ 0
  | _ => false

/-- The component type used for the BEGIN/END markers: the stored type when
truthy, else the heuristic (event if a start exists, task if a status
exists, journal otherwise). -/
def effectiveCompType (c : CalendarComponent) : Str :=
  match c.componentType with
  | some (t0 :: ts) => t0 :: ts
  | _ =>
    if strTruthy c.dtstart then "VEVENT".data
    else if strTruthy c.status then "VTODO".data
    else "VJOURNAL".data

/-- The lines emitted for one component. -/
def componentLines (c : CalendarComponent) : List Str :=
  let ct := effectiveCompType c
  (("BEGIN:".data ++ ct) ::
    ((if strTruthy c.uid then [("UID:".data ++ c.uid.getD [])] else []) ++
     (if strTruthy c.summary then
        [("SUMMARY:".data ++ escapeValue (c.summary.getD []))] else []) ++
     (if strTruthy c.dtstart then
        [("DTSTART:".data ++ filterDigitsTZ (c.dtstart.getD []))] else []) ++
     (if strTruthy c.dtend then
        [("DTEND:".data ++ filterDigitsTZ (c.dtend.getD []))] else []) ++
     (if strTruthy c.description then
        [("DESCRIPTION:".data ++ escapeValue (c.description.getD []))] else []) ++
     (if strTruthy c.location then
        [("LOCATION:".data ++ escapeValue (c.location.getD []))] else []) ++
     (if strTruthy c.status then [("STATUS:".data ++ c.status.getD [])] else []) ++
     (if priorityTruthy c.priority then
        [("PRIORITY:".data ++ intToStr ((c.priority.getD none).getD 0))] else []) ++
     (if (c.categories.getD []).isEmpty then []
      else
        [("CATEGORIES:".data ++
           joinSep ",".data ((c.categories.getD []).map escapeValue))]))) ++
  [("END:".data ++ ct)]

/-- The full line list built by `componentsToICalendar`. -/
def componentsToICalendarLines (comps : List CalendarComponent) : List Str :=
  ("BEGIN:VCALENDAR".data :: "VERSION:2.0".data ::
    ["PRODID:-//MCP CalDAV Server//EN".data]) ++
  comps.flatMap componentLines ++ ["END:VCALENDAR".data]

/-- Model of `CalDavFilters.componentsToICalendar`: lines joined by CRLF. -/
def componentsToICalendar (comps : List CalendarComponent) : Str :=
  joinSep "\r\n".data (componentsToICalendarLines comps)

/-- A component's identifier field is present and non-empty. -/
def uidPopulated (c : CalendarComponent) : Prop :=
  ∃ u, c.uid = some u ∧ u ≠ []

instance : Inhabited CalendarComponent := ⟨{}⟩

/-- Concrete document for the C9 witness: a uid-less event followed by a
task with uid `t1`. -/
def c9doc : Str :=
  ("BEGIN:VEVENT\r\nSUMMARY:no uid\r\nEND:VEVENT\r\nBEGIN:VTODO\r\nUID:t1\r\nEND:VTODO").data

/-! ## Percent-encoding (`encodeURIComponent` / `decodeURIComponent`)

`encodeURIComponent` leaves the unreserved set `A-Z a-z 0-9 - _ . ! ~ * ' ( )`
and percent-encodes the UTF-8 bytes of every other character with uppercase
hex.  `decodeURIComponent` reverses this and throws `URIError` on a malformed
escape or an invalid UTF-8 byte sequence; the throwing behaviour is modelled
with `Except Unit`.  Lean `Char` is a Unicode scalar value, so JS strings
are modelled at the code-point level (lone surrogates, on which
`encodeURIComponent` itself throws, are outside the model). -/

/-- The apostrophe character (kept by `encodeURIComponent`). -/
def quoteChar : Char := Char.ofNat 39

/-- The double-quote character. -/
def dquoteChar : Char := Char.ofNat 34

/-- Left curly brace. -/
def braceL : Char := Char.ofNat 123

/-- Right curly brace. -/
def braceR : Char := Char.ofNat 125

/-- Characters `encodeURIComponent` leaves unencoded. -/
def isUnreservedURI (c : Char) : Bool :=
  c.isAlpha || c.isDigit || c = '-' || c = '_' || c = '.' || c = '!' ||
    c = '~' || c = '*' || c = quoteChar || c = '(' || c = ')'

/-- Uppercase hex digit for a value below 16. -/
def hexDigitChar (n : Nat) : Char :=
  if n < 10 then Char.ofNat ('0'.toNat + n) else Char.ofNat ('A'.toNat + n - 10)

/-- Value of a hex digit character (either case), `none` otherwise. -/
def hexCharVal (c : Char) : Option Nat :=
  let n := c.toNat
  if 48 ≤ n ∧ n ≤ 57 then some (n - 48)
  else if 65 ≤ n ∧ n ≤ 70 then some (n - 55)
  else if 97 ≤ n ∧ n ≤ 102 then some (n - 87)
  else none

/-- UTF-8 bytes of a scalar value. -/
def utf8Bytes (v : Nat) : List Nat :=
  if v < 0x80 then [v]
  else if v < 0x800 then [0xC0 + v / 64, 0x80 + v % 64]
  else if v < 0x10000 then [0xE0 + v / 4096, 0x80 + v / 64 % 64, 0x80 + v % 64]
  else [0xF0 + v / 262144, 0x80 + v / 4096 % 64, 0x80 + v / 64 % 64, 0x80 + v % 64]

/-- A `%HH` escape for one byte (uppercase hex, as `encodeURIComponent`). -/
def pctByte (b : Nat) : Str :=
  ['%', hexDigitChar (b / 16), hexDigitChar (b % 16)]

/-- Model of `encodeURIComponent`. -/
def encodeURIComponent (s : Str) : Str :=
  s.flatMap (fun c =>
    if isUnreservedURI c then [c] else (utf8Bytes c.toNat).flatMap pctByte)

/-- Read one `%HH` escape with valid hex digits: its byte value and the
remainder. -/
def readPct : Str → Option (Nat × Str)
  | '%' :: h1 :: h2 :: rest =>
    match hexCharVal h1, hexCharVal h2 with
    | some a, some b => some (a * 16 + b, rest)
    | _, _ => none
  | _ => none

/-- Given a decoded lead byte, read the UTF-8 continuation escapes that a
strict decoder accepts after it (with the overlong/surrogate range
restrictions on the second byte): the decoded scalar value and the
remainder, or `none` on any malformed/invalid sequence. -/
def decTail (b1 : Nat) (rest : Str) : Option (Nat × Str) :=
  if b1 < 0x80 then some (b1, rest)
  else if 0xC2 ≤ b1 ∧ b1 ≤ 0xDF then
    match readPct rest with
    | some (b2, rest2) =>
      if 0x80 ≤ b2 ∧ b2 ≤ 0xBF then some ((b1 - 0xC0) * 64 + (b2 - 0x80), rest2)
      else none
    | none => none
  else if 0xE0 ≤ b1 ∧ b1 ≤ 0xEF then
    match readPct rest with
    | some (b2, rest1) =>
      match readPct rest1 with
      | some (b3, rest2) =>
        let lo2 := if b1 = 0xE0 then 0xA0 else 0x80
        let hi2 := if b1 = 0xED then 0x9F else 0xBF
        if (lo2 ≤ b2 ∧ b2 ≤ hi2) ∧ (0x80 ≤ b3 ∧ b3 ≤ 0xBF) then
          some ((b1 - 0xE0) * 4096 + (b2 - 0x80) * 64 + (b3 - 0x80), rest2)
        else none
      | none => none
    | none => none
  else if 0xF0 ≤ b1 ∧ b1 ≤ 0xF4 then
    match readPct rest with
    | some (b2, rest1) =>
      match readPct rest1 with
      | some (b3, rest1') =>
        match readPct rest1' with
        | some (b4, rest2) =>
          let lo2 := if b1 = 0xF0 then 0x90 else 0x80
          let hi2 := if b1 = 0xF4 then 0x8F else 0xBF
          if (lo2 ≤ b2 ∧ b2 ≤ hi2) ∧ (0x80 ≤ b3 ∧ b3 ≤ 0xBF) ∧
              (0x80 ≤ b4 ∧ b4 ≤ 0xBF) then
            some ((b1 - 0xF0) * 262144 + (b2 - 0x80) * 4096 +
              (b3 - 0x80) * 64 + (b4 - 0x80), rest2)
          else none
        | none => none
      | none => none
    | none => none
  else none

/-- Scanning loop of the strict decoder (see `decodeURIComponentE`).  The
fuel is an upper bound on the number of scanning steps; each step consumes
at least one character, so the string length suffices and the fuel-zero
arm (an empty remainder aside) is unreachable. -/
def decodeGoF : Nat → Str → Except Unit Str
  | _, [] => .ok []
  | 0, _ :: _ => .error ()
  | f + 1, c :: rest =>
    if c = '%' then
      match readPct (c :: rest) with
      | some (b1, rest1) =>
        match decTail b1 rest1 with
        | some (v, rest2) => (decodeGoF f rest2).map (fun t => Char.ofNat v :: t)
        | none => .error ()
      | none => .error ()
    else (decodeGoF f rest).map (fun t => c :: t)

/-- Model of `decodeURIComponent`; `.error ()` models the thrown
`URIError` (malformed escape or invalid/overlong/surrogate UTF-8). -/
def decodeURIComponentE (s : Str) : Except Unit Str :=
  decodeGoF s.length s

/-- `application/x-www-form-urlencoded` first step: `+` becomes space. -/
def plusToSpace (s : Str) : Str :=
  s.map (fun c => if c = '+' then ' ' else c)

/-- Lenient percent-decoding as `URLSearchParams` performs it: a malformed
escape stays literal, an invalid UTF-8 sequence yields U+FFFD for its lead
byte and decoding resumes after that lead escape.  (The exact WHATWG
replacement-character cadence for garbage input is not reproduced; the
theorems only apply this to validly encoded text.)  The fuel argument is
an upper bound on the number of scanning steps; each step consumes at
least one character, so the string length suffices. -/
def lenientGoF : Nat → Str → Str
  | 0, s => s
  | f + 1, s =>
    match s with
    | [] => []
    | '%' :: h1 :: h2 :: rest =>
      match hexCharVal h1, hexCharVal h2 with
      | some a, some b =>
        match decTail (a * 16 + b) rest with
        | some (v, rest2) => Char.ofNat v :: lenientGoF f rest2
        | none => Char.ofNat 0xFFFD :: lenientGoF f rest
      | _, _ => '%' :: lenientGoF f (h1 :: h2 :: rest)
    | '%' :: rest => '%' :: lenientGoF f rest
    | c :: rest => c :: lenientGoF f rest

/-- Lenient percent-decoding (see `lenientGoF`). -/
def decodeLenient (s : Str) : Str :=
  lenientGoF s.length s

/-- First `=` splits a query piece into key and value (missing `=` gives an
empty value), as `URLSearchParams` does. -/
def splitAtEq : Str → Str × Str
  | [] => ([], [])
  | c :: rest =>
    if c = '=' then ([], rest)
    else
      let p := splitAtEq rest
      (c :: p.1, p.2)

/-- Model of `new URLSearchParams(q)`: an ordered key/value list. -/
def parseQueryString (q : Str) : List (Str × Str) :=
  let q' := match q with
    | '?' :: r => r
    | r => r
  (splitChar '&' q').filterMap (fun piece =>
    match piece with
    | [] => none
    | _ =>
      let p := splitAtEq piece
      some (decodeLenient (plusToSpace p.1), decodeLenient (plusToSpace p.2)))

/-- Model of `URLSearchParams.get`: first value for the key, if any. -/
def searchParamsGet (name : Str) (ps : List (Str × Str)) : Option Str :=
  (ps.find? (fun p => p.1 = name)).map Prod.snd

/-! ## Template registry (`templates.ts`) -/

/-- A declared template variable.  `vtype` is the literal type tag string
(`string`, `date` or `datetime`), kept as text because validation error
messages interpolate it. -/
structure TemplateVariable where
  name : Str
  required : Bool
  vtype : Str
  pattern : Option Str := none
  enumVals : Option (List Str) := none
  deriving Repr, DecidableEq

/-- A CalDAV resource template. -/
structure CalDavResourceTemplate where
  name : Str
  uriTemplate : Str
  mimeType : Str
  tmplVars : List TemplateVariable
  deriving Repr, DecidableEq

/-- The datetime validation regex source used by the catalog. -/
def isoPatternStr : Str :=
  ("^\\d{4}-\\d{2}-\\d{2}(T\\d{2}:\\d{2}:\\d{2}Z?)?$").data

/-- Decision procedure for the regex
`^\d{4}-\d{2}-\d{2}(T\d{2}:\d{2}:\d{2}Z?)?$`. -/
def isoDateTimeTest : Str → Bool
  | y1 :: y2 :: y3 :: y4 :: '-' :: m1 :: m2 :: '-' :: d1 :: d2 :: rest =>
    y1.isDigit && y2.isDigit && y3.isDigit && y4.isDigit &&
    m1.isDigit && m2.isDigit && d1.isDigit && d2.isDigit &&
    (match rest with
     | [] => true
     | 'T' :: h1 :: h2 :: ':' :: n1 :: n2 :: ':' :: s1 :: s2 :: tail =>
       h1.isDigit && h2.isDigit && n1.isDigit && n2.isDigit &&
       s1.isDigit && s2.isDigit && (tail = [] || tail = ['Z'])
     | _ => false)
  | _ => false

/-- Model of `new RegExp(templateVar.pattern).test(value)`.  The catalog
declares exactly one pattern (the ISO date/datetime regex above), so the
matcher is defined by that pattern; an unknown pattern rejects. -/
def matchesPattern (pat v : Str) : Bool :=
  if pat = isoPatternStr then isoDateTimeTest v else false

/-- The fixed template catalog `CALDAV_TEMPLATES`, in declaration order. -/
def CALDAV_TEMPLATES : List CalDavResourceTemplate :=
  [ { name := "components-range".data
    , uriTemplate := ("caldav://{principal}/{calendarId}/{comp}?start={start}&end={end}").data
    , mimeType := "text/calendar".data
    , tmplVars :=
        [ { name := "principal".data, required := true, vtype := "string".data }
        , { name := "calendarId".data, required := true, vtype := "string".data }
        , { name := "comp".data, required := true, vtype := "string".data
          , enumVals := some ["VEVENT".data, "VTODO".data, "VJOURNAL".data] }
        , { name := "start".data, required := true, vtype := "datetime".data
          , pattern := some isoPatternStr }
        , { name := "end".data, required := true, vtype := "datetime".data
          , pattern := some isoPatternStr } ] }
  , { name := "components-by-cat".data
    , uriTemplate := ("caldav://{principal}/{calendarId}/VTODO?cat={cat}").data
    , mimeType := "text/calendar".data
    , tmplVars :=
        [ { name := "principal".data, required := true, vtype := "string".data }
        , { name := "calendarId".data, required := true, vtype := "string".data }
        , { name := "cat".data, required := true, vtype := "string".data } ] }
  , { name := "component-by-uid".data
    , uriTemplate := ("caldav://{principal}/{calendarId}/{uid}").data
    , mimeType := "text/calendar".data
    , tmplVars :=
        [ { name := "principal".data, required := true, vtype := "string".data }
        , { name := "calendarId".data, required := true, vtype := "string".data }
        , { name := "uid".data, required := true, vtype := "string".data } ] }
  , { name := "components-query".data
    , uriTemplate := ("caldav://{principal}/{calendarId}/{comp}?filter={jmes}").data
    , mimeType := "text/calendar".data
    , tmplVars :=
        [ { name := "principal".data, required := true, vtype := "string".data }
        , { name := "calendarId".data, required := true, vtype := "string".data }
        , { name := "comp".data, required := true, vtype := "string".data
          , enumVals := some ["VEVENT".data, "VTODO".data, "VJOURNAL".data] }
        , { name := "jmes".data, required := true, vtype := "string".data } ] }
  , { name := "metadata-list-cals".data
    , uriTemplate := ("caldav://{principal}/_meta/calendars").data
    , mimeType := "application/json".data
    , tmplVars :=
        [ { name := "principal".data, required := true, vtype := "string".data } ] } ]

/-- Model of `getTemplate`. -/
def getTemplate (name : Str) : Option CalDavResourceTemplate :=
  CALDAV_TEMPLATES.find? (fun t => t.name = name)

/-- Validation result `{isValid, errors}`. -/
structure VResult where
  isValid : Bool
  errors : List Str
  deriving Repr, DecidableEq

/-- Validation of one declared variable, accumulating error messages in
source order (missing-required short-circuits the per-variable checks via
`continue`; format and enum checks may both fire). -/
def validateVar (vars : List (Str × Str)) (errs : List Str)
    (tv : TemplateVariable) : List Str :=
  let vo := getExtra tv.name vars
  if tv.required && !(strTruthy vo) then
    errs ++ [("Missing required variable: ").data ++ tv.name]
  else if !(strTruthy vo) then errs
  else
    let v := vo.getD []
    let errs1 :=
      if tv.vtype = "datetime".data || tv.vtype = "date".data then
        match tv.pattern with
        | some pat =>
          if !(matchesPattern pat v) then
            errs ++ [("Invalid ").data ++ tv.vtype ++ (" format for ").data ++
              tv.name ++ (": ").data ++ v]
          else errs
        | none => errs
      else errs
    match tv.enumVals with
    | some es =>
      if !(es.contains v) then
        errs1 ++ [("Invalid value for ").data ++ tv.name ++ (": ").data ++ v ++
          (". Must be one of: ").data ++ joinSep ", ".data es]
      else errs1
    | none => errs1

/-- Model of `validateTemplateVariables`. -/
def validateTemplateVariables (templateName : Str)
    (vars : List (Str × Str)) : VResult :=
  match getTemplate templateName with
  | none => ⟨false, [("Unknown template: ").data ++ templateName]⟩
  | some t =>
    let errors := t.tmplVars.foldl (validateVar vars) []
    ⟨errors.isEmpty, errors⟩

/-! ## URI matcher (`uri.ts`) -/

/-- A token of a URI template path: a literal character or a `{name}`
placeholder. -/
inductive UriTok where
  | lit (c : Char)
  | varTok (name : Str)
  deriving Repr, DecidableEq

/-- Scan to the closing brace: contents and remainder. -/
def takeToBrace : Str → Option (Str × Str)
  | [] => none
  | c :: rest =>
    if c = braceR then some ([], rest)
    else (takeToBrace rest).map (fun p => (c :: p.1, p.2))

/-- Tokenizer for `/{([^}]+)}/g` over a template string: each non-empty
`{name}` becomes a placeholder token, all other characters stay literal.
Fueled by the string length (each step consumes at least one character). -/
def tokenizeGoF : Nat → Str → List UriTok
  | 0, _ => []
  | _ + 1, [] => []
  | f + 1, c :: rest =>
    if c = braceL then
      match takeToBrace rest with
      | some (n0 :: ns, after) => .varTok (n0 :: ns) :: tokenizeGoF f after
      | _ => .lit c :: tokenizeGoF f rest
    else .lit c :: tokenizeGoF f rest

/-- Tokenize a template string. -/
def tokenizePath (s : Str) : List UriTok :=
  tokenizeGoF s.length s

/-- The placeholder names of a template string, in order. -/
def templateVarNames (s : Str) : List Str :=
  (tokenizePath s).filterMap (fun t =>
    match t with
    | .varTok n => some n
    | .lit _ => none)

/-- Characters a non-`principal` placeholder may match: `[^/?]`. -/
def varCharOK (c : Char) : Bool :=
  c ≠ '/' && c ≠ '?'

/-- Characters `.` matches in a JS regex without the dotall flag. -/
def dotCharOK (c : Char) : Bool :=
  c ≠ '\n' && c ≠ '\r'

/-- Non-empty prefix/suffix splits of `s` in ascending prefix length, the
order in which a lazy (`.+?`) group offers them. -/
def splitsAsc (s : Str) : List (Str × Str) :=
  (List.range s.length).map (fun k => (s.take (k + 1), s.drop (k + 1)))

/-- Non-empty prefix/suffix splits in descending prefix length bounded by
the maximal `[^/?]` run, the order a greedy `[^/?]+` group offers them. -/
def splitsDesc (s : Str) : List (Str × Str) :=
  let m := (s.takeWhile varCharOK).length
  (List.range m).map (fun i => (s.take (m - i), s.drop (m - i)))

/-- Backtracking matcher for the compiled path pattern
`^tok₁tok₂…$` where `{principal}` compiles to `(?<principal>.+?)` and any
other placeholder to `(?<name>[^/?]+)`.  Alternatives are tried in the
regex engine's preference order, so the first success agrees with
`String.prototype.match`. -/
def matchToks : List UriTok → Str → Option (List (Str × Str))
  | [], s => if s.isEmpty then some [] else none
  | .lit _ :: _, [] => none
  | .lit ch :: toks, c :: rest =>
    if c = ch then matchToks toks rest else none
  | .varTok n :: toks, s =>
    if n = "principal".data then
      (splitsAsc s).findSome? (fun pr =>
        if pr.1.all dotCharOK then
          (matchToks toks pr.2).map (fun vs => (n, pr.1) :: vs)
        else none)
    else
      (splitsDesc s).findSome? (fun pr =>
        (matchToks toks pr.2).map (fun vs => (n, pr.1) :: vs))

/-- Remove the first occurrence of `pat` (JS `replace(pat, '')` with a
string pattern). -/
def removeFirst (pat : Str) : Str → Str
  | [] => []
  | c :: rest =>
    if pat.isPrefixOf (c :: rest) then (c :: rest).drop pat.length
    else c :: removeFirst pat rest

/-- Percent-decode every matched path variable, left to right, propagating
a `URIError`. -/
def decodeVars : List (Str × Str) → Except Unit (List (Str × Str))
  | [] => .ok []
  | (k, v) :: rest => do
    let v' ← decodeURIComponentE v
    let rest' ← decodeVars rest
    .ok ((k, v') :: rest')

/-- Model of `tryParseWithTemplate`: `.ok none` is the source's `null`
(structural non-match), `.error ()` a thrown `URIError` from
`decodeURIComponent`.  The query handling mirrors the source's if/else
chain on JS truthiness (`templateQuery && queryPart`, ...): an undefined
query part and an empty-string query part (`'caldav://a/b/c?'`) are both
falsy, which `strTruthy` captures. -/
def tryParseWithTemplate (uri : Str) (t : CalDavResourceTemplate) :
    Except Unit (Option (List (Str × Str))) := do
  let parts := splitChar '?' uri
  let pathPart := parts.headI
  let queryPart := parts.get? 1
  let tparts := splitChar '?' (removeFirst ("caldav://").data t.uriTemplate)
  let templatePath := tparts.headI
  let templateQuery := tparts.get? 1
  let pathVars ←
    if t.name = ("components-by-cat").data ∧
        templatePath = ("{principal}/{calendarId}/VTODO").data then
      if !(strEndsWith ("/VTODO").data pathPart) then .ok none
      else
        let parts2 := splitChar '/' (pathPart.take (pathPart.length - 6))
        if parts2.length < 2 then .ok none
        else do
          let calendarId := (parts2.getLast?).getD []
          let principal := joinSep "/".data parts2.dropLast
          let p ← decodeURIComponentE principal
          if calendarId ≠ [] then do
            let cid ← decodeURIComponentE calendarId
            .ok (some [(("principal").data, p), (("calendarId").data, cid)])
          else .ok (some [(("principal").data, p)])
    else if t.name = ("metadata-list-cals").data ∧
        templatePath = ("{principal}/_meta/calendars").data then
      if !(strEndsWith ("/_meta/calendars").data pathPart) then .ok none
      else do
        let p ← decodeURIComponentE (pathPart.take (pathPart.length - 16))
        .ok (some [(("principal").data, p)])
    else
      match matchToks (tokenizePath templatePath) pathPart with
      | none => .ok none
      | some groups => do
        let vs ← decodeVars groups
        .ok (some vs)
  match pathVars with
  | none => .ok none
  | some vs =>
    match strTruthy templateQuery, strTruthy queryPart with
    | true, true =>
      let params := parseQueryString (queryPart.getD [])
      let qvs := (templateVarNames (templateQuery.getD [])).filterMap (fun n =>
        (searchParamsGet n params).map (fun v => (n, v)))
      .ok (some (vs ++ qvs))
    | true, false => .ok none
    | false, true => .ok none
    | false, false => .ok (some vs)

/-- `true` iff the template mentions one of the reserved literal segments
(`VTODO` or `_meta`). -/
def templateHasLiteral (t : CalDavResourceTemplate) : Bool :=
  strIncludes ("VTODO").data t.uriTemplate || strIncludes ("_meta").data t.uriTemplate

/-- `true` iff the template expects query parameters. -/
def templateHasQuery (t : CalDavResourceTemplate) : Bool :=
  strIncludes ['?'] t.uriTemplate

/-- The number of `[?&]` occurrences (the sort's specificity count). -/
def templateParamCount (t : CalDavResourceTemplate) : Nat :=
  (t.uriTemplate.filter (fun c => c = '?' || c = '&')).length

/-- The template sort comparator of `parseCalDavUri`. -/
def templateCmp (a b : CalDavResourceTemplate) : Int :=
  if templateHasLiteral a ∧ !(templateHasLiteral b) then -1
  else if !(templateHasLiteral a) ∧ templateHasLiteral b then 1
  else if templateHasQuery a ∧ !(templateHasQuery b) then -1
  else if !(templateHasQuery a) ∧ templateHasQuery b then 1
  else if templateHasQuery a ∧ templateHasQuery b then
    (templateParamCount b : Int) - (templateParamCount a : Int)
  else 0

/-- Stable insertion preserving the relative order of ties. -/
def orderedInsert (cmp : CalDavResourceTemplate → CalDavResourceTemplate → Int)
    (x : CalDavResourceTemplate) :
    List CalDavResourceTemplate → List CalDavResourceTemplate
  | [] => [x]
  | y :: ys => if cmp y x ≤ 0 then y :: orderedInsert cmp x ys else x :: y :: ys

/-- Stable sort (the ECMAScript `Array.prototype.sort` contract for a
consistent comparator). -/
def stableSort (cmp : CalDavResourceTemplate → CalDavResourceTemplate → Int)
    (l : List CalDavResourceTemplate) : List CalDavResourceTemplate :=
  l.foldl (fun acc x => orderedInsert cmp x acc) []

/-- The candidate templates in the order `parseCalDavUri` tries them. -/
def sortedCaldavTemplates : List CalDavResourceTemplate :=
  stableSort templateCmp CALDAV_TEMPLATES

/-- The error taxonomy of `parseCalDavUri`: the three thrown `Error`s of
the source, plus the `URIError` that `decodeURIComponent` may throw
through it. -/
inductive UriParseErr where
  | malformed
  | noMatch
  | validationErr (errors : List Str)
  | uriError
  deriving Repr, DecidableEq

/-- A successful parse `{templateName, variables, template}`. -/
structure ParsedCalDavUri where
  templateName : Str
  vars : List (Str × Str)
  template : CalDavResourceTemplate
  deriving Repr, DecidableEq

/-- The candidate loop of `parseCalDavUri`: first structural match wins;
its variables are validated, and a validation failure aborts immediately. -/
def parseLoop (w : Str) : List CalDavResourceTemplate →
    Except UriParseErr ParsedCalDavUri
  | [] => .error .noMatch
  | t :: ts =>
    match tryParseWithTemplate w t with
    | .error _ => .error .uriError
    | .ok none => parseLoop w ts
    | .ok (some vars) =>
      let v := validateTemplateVariables t.name vars
      if v.isValid then .ok ⟨t.name, vars, t⟩
      else .error (.validationErr v.errors)

/-- Model of `parseCalDavUri`. -/
def parseCalDavUri (uri : Str) : Except UriParseErr ParsedCalDavUri :=
  if !(strStartsWith ("caldav://").data uri) then .error .malformed
  else parseLoop (uri.drop 9) sortedCaldavTemplates

/-! ## URI builder (`buildCalDavUri`) -/

/-- Fueled global replacement of a fixed non-empty pattern (JS
`replace(new RegExp(pat, 'g'), rep)` for a literal pattern): scan left to
right, never rescanning replaced text.  One fuel per step and each step
consumes at least one character, so the string length suffices. -/
def replaceAllF (pat rep : Str) : Nat → Str → Str
  | 0, s => s
  | f + 1, s =>
    if pat ≠ [] ∧ pat.isPrefixOf s then rep ++ replaceAllF pat rep f (s.drop pat.length)
    else
      match s with
      | [] => []
      | c :: t => c :: replaceAllF pat rep f t

/-- Global literal replacement. -/
def replaceAll (pat rep s : Str) : Str :=
  replaceAllF pat rep s.length s

/-- A `{name}` placeholder literal. -/
def placeholder (n : Str) : Str :=
  braceL :: (n ++ [braceR])

/-- Model of `buildCalDavUri`; `.error` carries the thrown message. -/
def buildCalDavUri (templateName : Str) (vars : List (Str × Str)) :
    Except Str Str :=
  match getTemplate templateName with
  | none => .error (("Unknown template: ").data ++ templateName)
  | some t =>
    let v := validateTemplateVariables templateName vars
    if !v.isValid then
      .error (("Invalid variables: ").data ++ joinSep ", ".data v.errors)
    else
      let uri := vars.foldl
        (fun u kv => replaceAll (placeholder kv.1) (encodeURIComponent kv.2) u)
        t.uriTemplate
      let unrep := templateVarNames uri
      if !unrep.isEmpty then
        .error (("Missing variables: ").data ++
          joinSep ", ".data (unrep.map placeholder))
      else .ok uri

/-! ## Simple filters and the JMES-like expression filter (`filters.ts`) -/

/-- Model of `filterByCategory`: keep components one of whose categories
contains the target as a case-insensitive substring (components without
categories never match). -/
def filterByCategory (comps : List CalendarComponent) (category : Str) :
    List CalendarComponent :=
  comps.filter (fun comp =>
    (comp.categories.getD []).any (fun cat =>
      strIncludes (jsToLower category) (jsToLower cat)))

/-- Model of `filterByStatus`: exact match against the uppercased filter
value. -/
def filterByStatus (comps : List CalendarComponent) (status : Str) :
    List CalendarComponent :=
  comps.filter (fun comp => comp.status = some (jsToUpper status))

/-- Model of `filterByUid`: exact uid equality. -/
def filterByUid (comps : List CalendarComponent) (uid : Str) :
    List CalendarComponent :=
  comps.filter (fun comp => comp.uid = some uid)

/-- A JS value reachable from a component by property access: a string, a
number (`none` = NaN), a string array, or `undefined`. -/
inductive JSVal where
  | vstr (s : Str)
  | vnum (n : Option Int)
  | varr (l : List Str)
  | vundefined
  deriving Repr, DecidableEq

/-- Direct field access `comp[key]` on the component object. -/
def componentField (c : CalendarComponent) (k : Str) : JSVal :=
  let ofOpt : Option Str → JSVal := fun o =>
    match o with
    | some s => .vstr s
    | none => .vundefined
  if k = ("uid").data then ofOpt c.uid
  else if k = ("componentType").data then ofOpt c.componentType
  else if k = ("summary").data then ofOpt c.summary
  else if k = ("dtstart").data then ofOpt c.dtstart
  else if k = ("dtend").data then ofOpt c.dtend
  else if k = ("categories").data then
    match c.categories with
    | some l => .varr l
    | none => .vundefined
  else if k = ("status").data then ofOpt c.status
  else if k = ("priority").data then
    match c.priority with
    | some n => .vnum n
    | none => .vundefined
  else if k = ("description").data then ofOpt c.description
  else if k = ("location").data then ofOpt c.location
  else ofOpt (getExtra k c.extras)

/-- Indexing `val?.[i]` with a JS array index: an array yields its element,
a string its one-character slice; anything else (and an out-of-range or
NaN index) is `undefined`. -/
def jsIndex (v : JSVal) (idx : Option Int) : JSVal :=
  match v, idx with
  | .varr l, some i =>
    if i < 0 then .vundefined
    else
      match l.get? i.toNat with
      | some e => .vstr e
      | none => .vundefined
  | .vstr s, some i =>
    if i < 0 then .vundefined
    else
      match s.get? i.toNat with
      | some ch => .vstr [ch]
      | none => .vundefined
  | _, _ => .vundefined

/-- One step of `getNestedProperty`'s key loop.  Plain property access on a
non-object intermediate value (e.g. `summary.length`) is modelled as
`undefined`; the built-in `length` property of strings and arrays is not
modelled, which only matters to expressions whose resolved value would be
a number (never kept by the array-length branch nor equal under `===` to
the string literal the equality branch compares with). -/
def getNestedGo (c : CalendarComponent) : List Str → Bool → JSVal → JSVal
  | [], _, cur => cur
  | key :: rest, isRoot, _ =>
    let nextVal :=
      if strIncludes ['['] key && strIncludes [']'] key then
        let kparts := splitChar '[' key
        let arrayKey := kparts.headI
        let idxStr := (kparts.get? 1).getD []
        let idx := parseIntJS (removeFirst [']'] idxStr)
        let base := if isRoot then componentField c arrayKey else JSVal.vundefined
        jsIndex base idx
      else if isRoot then componentField c key
      else JSVal.vundefined
    match nextVal with
    | .vundefined => .vundefined
    | v => getNestedGo c rest false v

/-- Model of `getNestedProperty`: dotted traversal with bracket indexing;
an unresolved segment short-circuits to `undefined`. -/
def getNestedProperty (c : CalendarComponent) (path : Str) : JSVal :=
  getNestedGo c (splitChar '.' path) true .vundefined

/-- Fueled split on a multi-character separator (JS `split('==')`). -/
def splitOnStrGo (pat : Str) : Nat → Str → Str → List Str
  | 0, s, acc => [acc.reverse ++ s]
  | _ + 1, [], acc => [acc.reverse]
  | f + 1, c :: rest, acc =>
    if pat ≠ [] ∧ pat.isPrefixOf (c :: rest) then
      acc.reverse :: splitOnStrGo pat f ((c :: rest).drop pat.length) []
    else splitOnStrGo pat f rest (c :: acc)

/-- Model of `s.split(pat)` for a non-empty string separator. -/
def splitOnStr (pat s : Str) : List Str :=
  splitOnStrGo pat s.length s []

/-- Characters of the `([><=]+)` operator class. -/
def isOpChar (c : Char) : Bool :=
  c = '>' || c = '<' || c = '='

/-- Attempt of `/length\(([^)]+)\)\s*([><=]+)\s*(\d+)/` at the start of the
string; the groups are forced (each greedy class run must end exactly where
the following literal/class begins), so no further backtracking exists. -/
def matchLengthAt (s : Str) : Option (Str × Str × Str) :=
  if ("length(").data.isPrefixOf s then
    let r1 := s.drop 7
    let p := r1.takeWhile (fun ch => ch ≠ ')')
    if p.isEmpty then none
    else
      match r1.drop p.length with
      | ')' :: r2 =>
        let r3 := r2.dropWhile isJsWS
        let ops := r3.takeWhile isOpChar
        if ops.isEmpty then none
        else
          let r4 := (r3.drop ops.length).dropWhile isJsWS
          let digits := r4.takeWhile Char.isDigit
          if digits.isEmpty then none else some (p, ops, digits)
      | _ => none
  else none

/-- Leftmost match of the length-comparison regex. -/
def scanLength : Str → Option (Str × Str × Str)
  | [] => none
  | c :: rest =>
    match matchLengthAt (c :: rest) with
    | some r => some r
    | none => scanLength rest

/-- Attempt of `/contains\(([^,]+),\s*['"]([^'"]+)['"]\)/` at the start of
the string (groups similarly forced). -/
def matchContainsAt (s : Str) : Option (Str × Str) :=
  if ("contains(").data.isPrefixOf s then
    let r1 := s.drop 9
    let p := r1.takeWhile (fun ch => ch ≠ ',')
    if p.isEmpty then none
    else
      match r1.drop p.length with
      | ',' :: r3 =>
        let r4 := r3.dropWhile isJsWS
        match r4 with
        | q :: r5 =>
          if q = quoteChar || q = dquoteChar then
            let sv := r5.takeWhile (fun ch => ch ≠ quoteChar && ch ≠ dquoteChar)
            if sv.isEmpty then none
            else
              match r5.drop sv.length with
              | q2 :: ')' :: _ =>
                if q2 = quoteChar || q2 = dquoteChar then some (p, sv) else none
              | _ => none
          else none
        | [] => none
      | _ => none
  else none

/-- Leftmost match of the contains regex. -/
def scanContains : Str → Option (Str × Str)
  | [] => none
  | c :: rest =>
    match matchContainsAt (c :: rest) with
    | some r => some r
    | none => scanContains rest

/-- The `switch (operator)` of the length branch. -/
def opApply (ops : Str) (len : Nat) (n : Int) : Bool :=
  if ops = [('>' : Char)] then (len : Int) > n
  else if ops = [('<' : Char)] then (len : Int) < n
  else if ops = ['>', '='] then (len : Int) ≥ n
  else if ops = ['<', '='] then (len : Int) ≤ n
  else if ops = ['=', '='] then (len : Int) = n
  else false

/-- Model of `filterByJmesExpression`.  The source wraps the body in
`try`/`catch`, but every operation in it is total, so the catch arm is
unreachable and the model is the plain body. -/
def filterByJmesExpression (comps : List CalendarComponent)
    (jmesFilter : Str) : List CalendarComponent :=
  if strIncludes ['=', '='] jmesFilter then
    let parts := (splitOnStr ['=', '='] jmesFilter).map jsTrim
    let path := parts.headI
    let expectedValue := (parts.get? 1).getD []
    let cleanExpected :=
      expectedValue.filter (fun ch => ch ≠ quoteChar && ch ≠ dquoteChar)
    comps.filter (fun comp =>
      match getNestedProperty comp path with
      | .vstr s => s = cleanExpected
      | _ => false)
  else
    let containsRes : Option (List CalendarComponent) :=
      if strIncludes ("contains").data jmesFilter then
        (scanContains jmesFilter).map (fun pr =>
          comps.filter (fun comp =>
            match getNestedProperty comp (jsTrim pr.1) with
            | .vstr s => strIncludes pr.2 s
            | _ => false))
      else none
    match containsRes with
    | some r => r
    | none =>
      let lengthRes : Option (List CalendarComponent) :=
        if strIncludes ("length(").data jmesFilter then
          (scanLength jmesFilter).map (fun pr =>
            let expectedCount := (parseIntJS pr.2.2).getD 0
            comps.filter (fun comp =>
              match getNestedProperty comp (jsTrim pr.1) with
              | .varr l => opApply pr.2.1 l.length expectedCount
              | _ => false))
        else none
      match lengthRes with
      | some r => r
      | none => comps

/-- The value of a digit string (what `Number.parseInt` returns on it). -/
def digitsVal (digits : Str) : Nat :=
  digits.foldl (fun a c => a * 10 + (c.toNat - '0'.toNat)) 0

/-- The filter text `length(path) OP N` of claim C2. -/
def mkLengthFilter (path op digits : Str) : Str :=
  ("length(").data ++ path ++ (") ").data ++ op ++ (" ").data ++ digits

/-- The keep-predicate claim C2 describes: the resolved field at the path
is an array whose length satisfies the comparison against N. -/
def compareLen (op : Str) (len n : Nat) : Bool :=
  if op = [('>' : Char)] then len > n
  else if op = [('<' : Char)] then len < n
  else if op = ['>', '='] then len ≥ n
  else if op = ['<', '='] then len ≤ n
  else if op = ['=', '='] then len = n
  else false

/-- Claim C2's description of which components the length filter keeps. -/
def lengthClaimKeep (path op : Str) (n : Nat) (c : CalendarComponent) : Bool :=
  match getNestedProperty c (jsTrim path) with
  | .varr l => compareLen op l.length n
  | _ => false


/-- Concrete component for the C2 theorems: two categories. -/
def c2comp : CalendarComponent :=
  { uid := some ("e1").data
  , categories := some [("a").data, ("b").data] }

/-! ## Report builder (`report.ts`) -/

/-- One global single-character replacement (the building block of
`escapeXml`). -/
def replChar (c : Char) (rep : Str) : Str → Str
  | [] => []
  | x :: r => if x = c then rep ++ replChar c rep r else x :: replChar c rep r

/-- Model of `escapeXml`: the five sequential global replaces
`&`→`&amp;`, `<`→`&lt;`, `>`→`&gt;`, `"`→`&quot;`, `'`→`&#39;`. -/
def escapeXml (s : Str) : Str :=
  replChar quoteChar ("&#39;").data
    (replChar dquoteChar ("&quot;").data
      (replChar '>' ("&gt;").data
        (replChar '<' ("&lt;").data
          (replChar '&' ("&amp;").data s))))

/-- Model of `formatCalDavDateTime`. -/
def formatCalDavDateTime (dateTime : Str) : Str :=
  if strIncludes ['T'] dateTime then
    if strEndsWith ['Z'] dateTime then dateTime else dateTime ++ ['Z']
  else dateTime ++ ("T00:00:00Z").data

/-- The `timeRange` option object; `stop` models the TS field `end`
(a Lean keyword). -/
structure TimeRangeOpt where
  start : Option Str := none
  stop : Option Str := none
  deriving Repr, DecidableEq

/-- Model of `CalendarQueryOptions`. -/
structure CalendarQueryOptions where
  componentType : Option Str := none
  timeRange : Option TimeRangeOpt := none
  categoryFilter : Option Str := none
  uid : Option Str := none
  jmesFilter : Option Str := none
  deriving Repr, DecidableEq

/-- The `<C:time-range …/>` line with the given indent prefix. -/
def timeRangeLine (indent : Str) (tr : Option TimeRangeOpt) : Str :=
  let s := tr.bind TimeRangeOpt.start
  let e := tr.bind TimeRangeOpt.stop
  let startAttr :=
    if strTruthy s then
      (" start=").data ++ [dquoteChar] ++ formatCalDavDateTime (s.getD []) ++ [dquoteChar]
    else []
  let endAttr :=
    if strTruthy e then
      (" end=").data ++ [dquoteChar] ++ formatCalDavDateTime (e.getD []) ++ [dquoteChar]
    else []
  indent ++ ("<C:time-range").data ++ startAttr ++ endAttr ++ ("/>").data

/-- The line list assembled by `buildCalendarQuery`. -/
def buildCalendarQueryLines (o : CalendarQueryOptions) : List Str :=
  let hdr : List Str :=
    [ ("<?xml version=\"1.0\" encoding=\"utf-8\"?>").data
    , ("<C:calendar-query xmlns:C=\"urn:ietf:params:xml:ns:caldav\" xmlns:D=\"DAV:\">").data
    , ("  <D:prop>").data
    , ("    <D:getetag/>").data
    , ("    <C:calendar-data/>").data
    , ("  </D:prop>").data ]
  let wantFilter :=
    strTruthy o.componentType || o.timeRange.isSome || strTruthy o.categoryFilter ||
      strTruthy o.uid || strTruthy o.jmesFilter
  let timeRangeWanted :=
    strTruthy (o.timeRange.bind TimeRangeOpt.start) ||
      strTruthy (o.timeRange.bind TimeRangeOpt.stop)
  let filterSection : List Str :=
    if !wantFilter then []
    else
      ("  <C:filter>").data ::
      (if strTruthy o.componentType then
        (("    <C:comp-filter name=\"VCALENDAR\">").data ::
         (("      <C:comp-filter name=").data ++ [dquoteChar] ++
            o.componentType.getD [] ++ [dquoteChar, '>']) ::
         ((if timeRangeWanted then
             [timeRangeLine ("        ").data o.timeRange] else []) ++
          (if strTruthy o.categoryFilter then
             [ ("        <C:prop-filter name=\"CATEGORIES\">").data
             , ("          <C:text-match collation=\"i;ascii-casemap\">").data ++
                 escapeXml (o.categoryFilter.getD []) ++ ("</C:text-match>").data
             , ("        </C:prop-filter>").data ] else []) ++
          (if strTruthy o.uid then
             [ ("        <C:prop-filter name=\"UID\">").data
             , ("          <C:text-match collation=\"i;ascii-casemap\">").data ++
                 escapeXml (o.uid.getD []) ++ ("</C:text-match>").data
             , ("        </C:prop-filter>").data ] else []) ++
          (if strTruthy o.jmesFilter then
             [ ("        <!-- JMES filter: ").data ++
                 escapeXml (o.jmesFilter.getD []) ++ (" -->").data ] else []) ++
          [ ("      </C:comp-filter>").data, ("    </C:comp-filter>").data ]))
       else
        (("    <C:comp-filter name=\"VCALENDAR\">").data ::
         ((if timeRangeWanted then
             [timeRangeLine ("      ").data o.timeRange] else []) ++
          [("    </C:comp-filter>").data ]))) ++
      [("  </C:filter>").data]
  hdr ++ filterSection ++ [("</C:calendar-query>").data]

/-- Model of `buildCalendarQuery`. -/
def buildCalendarQuery (o : CalendarQueryOptions) : Str :=
  joinSep ['\n'] (buildCalendarQueryLines o)

/-- The line list assembled by `buildMultiget`. -/
def buildMultigetLines (hrefs : List Str) : List Str :=
  [ ("<?xml version=\"1.0\" encoding=\"utf-8\"?>").data
  , ("<C:calendar-multiget xmlns:C=\"urn:ietf:params:xml:ns:caldav\" xmlns:D=\"DAV:\">").data
  , ("  <D:prop>").data
  , ("    <D:getetag/>").data
  , ("    <C:calendar-data/>").data
  , ("  </D:prop>").data ] ++
  hrefs.map (fun h => ("  <D:href>").data ++ escapeXml h ++ ("</D:href>").data) ++
  [("</C:calendar-multiget>").data]

/-- Model of `buildMultiget`. -/
def buildMultiget (hrefs : List Str) : Str :=
  joinSep ['\n'] (buildMultigetLines hrefs)

/-- Concrete options for the C6 counterexample: a component type carrying
a double quote. -/
def c6opts : CalendarQueryOptions :=
  { componentType := some ('V' :: dquoteChar :: [('E' : Char)]) }

/-! ## Dates (`new Date(string)` and `parseICalDate`)

A JS `Date` is modelled as `Option Int` — milliseconds since the epoch,
with `none` for `Invalid Date` (it also covers the handler's `null` bound:
both make every `<`/`>` comparison false).  `jsDateParse` implements the
ECMAScript date-time string format (`YYYY[-MM[-DD]][THH:mm[:ss[.sss]]]`
with an optional `Z` or `±HH:MM` offset) with the host clock in UTC, so a
date-time without an offset denotes the same instant as with `Z`;
implementation-defined fallback formats (e.g. RFC 2822) and expanded
`±YYYYYY` years parse to `Invalid Date`. -/

/-- Read exactly `n` decimal digits, returning their value and the rest. -/
def readDigits (n : Nat) (s : Str) : Option (Nat × Str) :=
  let pre := s.take n
  if pre.length = n && pre.all Char.isDigit then some (digitsVal pre, s.drop n)
  else none

/-- Days in a month of the (proleptic Gregorian) calendar. -/
def daysInMonth (y m : Int) : Int :=
  if m = 1 ∨ m = 3 ∨ m = 5 ∨ m = 7 ∨ m = 8 ∨ m = 10 ∨ m = 12 then 31
  else if m = 4 ∨ m = 6 ∨ m = 9 ∨ m = 11 then 30
  else if (Int.fmod y 4 = 0 ∧ Int.fmod y 100 ≠ 0) ∨ Int.fmod y 400 = 0 then 29
  else 28

/-- Days since 1970-01-01 of a civil date (the standard era-based
formula, floor division). -/
def daysFromCivil (y m d : Int) : Int :=
  let y' := if m ≤ 2 then y - 1 else y
  let era := Int.fdiv y' 400
  let yoe := y' - era * 400
  let mp := Int.fmod (m + 9) 12
  let doy := Int.fdiv (153 * mp + 2) 5 + d - 1
  let doe := yoe * 365 + Int.fdiv yoe 4 - Int.fdiv yoe 100 + doy
  era * 146097 + doe - 719468

/-- Epoch milliseconds of a validated civil date-time with an offset in
minutes. -/
def msOfDateTime (y m d h mi sec ms offMin : Int) : Int :=
  daysFromCivil y m d * 86400000 + h * 3600000 + mi * 60000 + sec * 1000 +
    ms - offMin * 60000

/-- Parse `[.sss]` (milliseconds fraction). -/
def readFraction : Str → Option (Nat × Str)
  | '.' :: r =>
    match readDigits 3 r with
    | some (ms, r') => some (ms, r')
    | none => none
  | r => some (0, r)

/-- Parse the trailing time-zone offset: nothing (host-UTC), `Z`, or
`±HH:MM`; anything else is invalid. -/
def readOffset : Str → Option Int
  | [] => some 0
  | ['Z'] => some 0
  | '+' :: r =>
    (match readDigits 2 r with
     | some (oh, ':' :: r2) =>
       match readDigits 2 r2 with
       | some (om, []) => if oh ≤ 23 && om ≤ 59 then some (oh * 60 + om) else none
       | _ => none
     | _ => none)
  | '-' :: r =>
    (match readDigits 2 r with
     | some (oh, ':' :: r2) =>
       match readDigits 2 r2 with
       | some (om, []) => if oh ≤ 23 && om ≤ 59 then some (-(oh * 60 + om : Int)) else none
       | _ => none
     | _ => none)
  | _ => none

/-- Parse the time part `HH:mm[:ss[.sss]]` plus offset. -/
def readTime (s : Str) : Option (Nat × Nat × Nat × Nat × Int) := do
  let (h, r1) ← readDigits 2 s
  match r1 with
  | ':' :: r2 => do
    let (mi, r3) ← readDigits 2 r2
    match r3 with
    | ':' :: r4 => do
      let (sec, r5) ← readDigits 2 r4
      let (ms, r6) ← readFraction r5
      let off ← readOffset r6
      pure (h, mi, sec, ms, off)
    | _ => do
      let off ← readOffset r3
      pure (h, mi, 0, 0, off)
  | _ => none

/-- Model of `new Date(string)` (see section comment). -/
def jsDateParse (s : Str) : Option Int := do
  let (y, r1) ← readDigits 4 s
  let (m, d, r) ←
    (match r1 with
     | '-' :: r2 =>
       match readDigits 2 r2 with
       | some (mo, '-' :: r4) =>
         match readDigits 2 r4 with
         | some (dy, r5) => some (mo, dy, r5)
         | none => none
       | some (mo, r3) => some (mo, 1, r3)
       | none => none
     | _ => some (1, 1, r1))
  if ¬(1 ≤ m ∧ m ≤ 12) then none
  else if ¬(1 ≤ d ∧ (d : Int) ≤ daysInMonth y m) then none
  else
    match r with
    | [] => some (msOfDateTime y m d 0 0 0 0 0)
    | 'T' :: r6 => do
      let (h, mi, sec, ms, off) ← readTime r6
      if (h ≤ 23 ∧ mi ≤ 59 ∧ sec ≤ 59) ∨ (h = 24 ∧ mi = 0 ∧ sec = 0 ∧ ms = 0) then
        some (msOfDateTime y m d h mi sec ms off)
      else none
    | _ => none

/-- Does the tail beginning here match `\s*\([^)]+\)\s*$`? -/
def tzSuffixCheck (s : Str) : Bool :=
  match s.dropWhile isJsWS with
  | '(' :: r2 =>
    let inner := r2.takeWhile (fun ch => ch ≠ ')')
    if inner.isEmpty then false
    else
      match r2.drop inner.length with
      | ')' :: r3 => r3.all isJsWS
      | _ => false
  | _ => false

/-- Model of `raw.replace(/\s*\([^)]+\)\s*$/, '')`: delete the leftmost
(and hence only) whitespace-parenthesis suffix. -/
def tzStripScan : Str → Str
  | [] => []
  | c :: rest => if tzSuffixCheck (c :: rest) then [] else c :: tzStripScan rest

/-- Compact `^\d{8}T\d{6}Z?$` test. -/
def isCompactDT : Str → Bool
  | d1 :: d2 :: d3 :: d4 :: d5 :: d6 :: d7 :: d8 :: 'T' :: t1 :: t2 :: t3 :: t4 :: t5 :: t6 :: tail =>
    d1.isDigit && d2.isDigit && d3.isDigit && d4.isDigit && d5.isDigit &&
    d6.isDigit && d7.isDigit && d8.isDigit && t1.isDigit && t2.isDigit &&
    t3.isDigit && t4.isDigit && t5.isDigit && t6.isDigit &&
    (tail = [] || tail = ['Z'])
  | _ => false

/-- Compact `^\d{8}$` test. -/
def isCompactDate (s : Str) : Bool :=
  s.length = 8 && s.all Char.isDigit

/-- The ISO string the compact-datetime branch builds (append `Z` when
absent, then insert separators). -/
def isoOfCompactDT (s : Str) : Str :=
  s.take 4 ++ '-' :: (s.drop 4).take 2 ++ '-' :: (s.drop 6).take 2 ++
    'T' :: (s.drop 9).take 2 ++ ':' :: (s.drop 11).take 2 ++ ':' ::
    (s.drop 13).take 2 ++ ['Z']

/-- The ISO string the compact-date branch builds. -/
def isoOfCompactDate (s : Str) : Str :=
  s.take 4 ++ '-' :: (s.drop 4).take 2 ++ '-' :: (s.drop 6).take 2 ++
    ("T00:00:00Z").data

/-- Model of the handler's `parseICalDate` helper inside
`filterByTimeRange`: strip a parenthetical time-zone suffix, then the two
compact forms (normalised to UTC ISO text), then the generic `Date`
constructor. -/
def parseICalDate (raw : Str) : Option Int :=
  let trimmed := tzStripScan raw
  if isCompactDT trimmed then jsDateParse (isoOfCompactDT trimmed)
  else if isCompactDate trimmed then jsDateParse (isoOfCompactDate trimmed)
  else jsDateParse trimmed

/-- JS `a < b` over `Date`s: false whenever either side is invalid (or a
null bound short-circuits the guard). -/
def jsLt (a b : Option Int) : Bool :=
  match a, b with
  | some x, some y => x < y
  | _, _ => false

/-- JS `a > b` over `Date`s, with the same conventions. -/
def jsGt (a b : Option Int) : Bool :=
  match a, b with
  | some x, some y => x > y
  | _, _ => false

/-- The `^\d{8}$`-after-stripping-non-digits test (`isAllDay`). -/
def isAllDayStart (dtstart : Str) : Bool :=
  (dtstart.filter Char.isDigit).length = 8

/-- The computed end of a component's interval: the explicit end field if
truthy, else start + 24h for a date-only start, else the start itself. -/
def computedEnd (c : CalendarComponent) (compStart : Option Int) : Option Int :=
  if strTruthy c.dtend then parseICalDate (c.dtend.getD [])
  else if isAllDayStart (c.dtstart.getD []) then compStart.map (fun t => t + 86400000)
  else compStart

/-- Model of `CalDavFilters.filterByTimeRange`. -/
def filterByTimeRange (comps : List CalendarComponent)
    (start stop : Option Str) : List CalendarComponent :=
  if !(strTruthy start) && !(strTruthy stop) then comps
  else
    let startDate := if strTruthy start then jsDateParse (start.getD []) else none
    let endDate := if strTruthy stop then jsDateParse (stop.getD []) else none
    comps.filter (fun comp =>
      if !(strTruthy comp.dtstart) then false
      else
        let compStart := parseICalDate (comp.dtstart.getD [])
        let compEnd := computedEnd comp compStart
        if jsLt compEnd startDate then false
        else if jsGt compStart endDate then false
        else true)

/-- The keep-predicate of claim C5, written as the claim states it: the
component has a start, and its interval overlaps the filter window, where
an absent bound imposes no constraint; the computed end is the explicit
end if present, else start + 24 hours for a date-only start, else the
start; and — per the claim's parenthetical — an all-day interval is
half-open `[start, start+24h)`, so a filter start equal to `start+24h`
does not overlap. -/
def timeRangeKeepClaimed (start stop : Option Str) (c : CalendarComponent) : Bool :=
  strTruthy c.dtstart &&
  (let startDate := if strTruthy start then jsDateParse (start.getD []) else none
   let endDate := if strTruthy stop then jsDateParse (stop.getD []) else none
   let compStart := parseICalDate (c.dtstart.getD [])
   let compEnd := computedEnd c compStart
   let allDayOpen := !(strTruthy c.dtend) && isAllDayStart (c.dtstart.getD [])
   let startOk :=
     if allDayOpen then
       match startDate, compEnd with
       | some f, some b => f < b
       | _, _ => true
     else !(jsLt compEnd startDate)
   let endOk := !(jsGt compStart endDate)
   startOk && endOk)

/-- The keep-predicate of the amended claim: identical, but the interval
is closed on both ends for every computed end (matching the code's
`compEnd < startDate` exclusion). -/
def timeRangeKeepSpec (start stop : Option Str) (c : CalendarComponent) : Bool :=
  strTruthy c.dtstart &&
  (let startDate := if strTruthy start then jsDateParse (start.getD []) else none
   let endDate := if strTruthy stop then jsDateParse (stop.getD []) else none
   let compStart := parseICalDate (c.dtstart.getD [])
   let compEnd := computedEnd c compStart
   !(jsLt compEnd startDate) && !(jsGt compStart endDate))

/-- Concrete all-day component for the C5 theorems. -/
def c5comp : CalendarComponent :=
  { uid := some ("e5").data, dtstart := some ("20240101").data }

/-! ## Request orchestrator (`handler.ts`)

The network client and the timeout race are modelled as oracles supplied in
`HandlerDeps`: `discovery` is the settled outcome of
`getDiscoveryResult` (a cache hit and a fresh fetch have the same shape),
and `queryResult` the settled outcome of `client.calendarQuery` raced
against the timer — `.error .timeout` when the timer won.  `nowISO` is the
`new Date().toISOString()` reading at response-formatting time.  This
abstracts I/O and time, not control flow: every `throw`/rejection in the
source is an `Except.error` here. -/

/-- A discovered calendar collection. -/
structure CalendarCollection where
  calendarId : Str
  displayName : Str
  componentSet : List Str
  href : Str
  deriving Repr, DecidableEq

/-- The discovery result `{principal, home, collections}`. -/
structure DiscoveryResult where
  principal : Str
  home : Str
  collections : List CalendarCollection
  deriving Repr, DecidableEq

/-- Outcome of the calendar query race. -/
inductive QueryErr where
  | timeout
  | failure (msg : Str)
  deriving Repr, DecidableEq

/-- The oracles a request runs against (see section comment). -/
structure HandlerDeps where
  discovery : Except Str DiscoveryResult
  queryResult : Str → CalendarQueryOptions → Except QueryErr (List (Option Str))
  nowISO : Str

/-- The response shape `{content, mimeType, status}`. -/
structure CalDavResponse where
  content : Str
  mimeType : Str
  status : Nat
  deriving Repr, DecidableEq

/-- `JSON.stringify` escaping for one character. -/
def jsonEscapeChar (c : Char) : Str :=
  if c = dquoteChar then ['\\', dquoteChar]
  else if c = '\\' then ['\\', '\\']
  else if c = '\n' then ['\\', 'n']
  else if c = '\r' then ['\\', 'r']
  else if c = '\t' then ['\\', 't']
  else if c = '\x08' then ['\\', 'b']
  else if c = '\x0c' then ['\\', 'f']
  else if c.toNat < 0x20 then
    '\\' :: 'u' :: '0' :: '0' :: hexDigitChar (c.toNat / 16) ::
      [Char.toLower (hexDigitChar (c.toNat % 16))]
  else [c]

/-- A JSON string literal for `s`. -/
def jsonStr (s : Str) : Str :=
  dquoteChar :: s.flatMap jsonEscapeChar ++ [dquoteChar]

/-- The error payload `JSON.stringify({error: message, timestamp: iso})`. -/
def errorJson (msg now : Str) : Str :=
  braceL :: (jsonStr ("error").data ++ ':' :: jsonStr msg ++ ',' ::
    jsonStr ("timestamp").data ++ ':' :: jsonStr now) ++ [braceR]

/-- The metadata payload of `handleMetadataRequest` (modelled without
reproducing `JSON.stringify`'s two-space indentation, which no claim
constrains). -/
def metadataJson (d : DiscoveryResult) (now : Str) : Str :=
  let calJson := fun (col : CalendarCollection) =>
    braceL :: (jsonStr ("id").data ++ ':' :: jsonStr col.calendarId ++ ',' ::
      jsonStr ("displayName").data ++ ':' :: jsonStr col.displayName ++ ',' ::
      jsonStr ("componentSet").data ++ ':' :: '[' ::
        joinSep [','] (col.componentSet.map jsonStr) ++ ']' :: ',' ::
      jsonStr ("href").data ++ ':' :: jsonStr col.href) ++ [braceR]
  braceL :: (jsonStr ("principal").data ++ ':' :: jsonStr d.principal ++ ',' ::
    jsonStr ("home").data ++ ':' :: jsonStr d.home ++ ',' ::
    jsonStr ("calendars").data ++ ':' :: '[' ::
      joinSep [','] (d.collections.map calJson) ++ ']' :: ',' ::
    jsonStr ("timestamp").data ++ ':' :: jsonStr now) ++ [braceR]

/-- JS template interpolation of a possibly-undefined string. -/
def jsInterp (o : Option Str) : Str :=
  o.getD ("undefined").data

/-- The thrown-error message of each `parseCalDavUri` failure. -/
def errToMsg (uri : Str) : UriParseErr → Str
  | .malformed => ("URI must start with caldav://").data
  | .noMatch => ("No matching template found for URI: ").data ++ uri
  | .validationErr errs => ("Invalid URI variables: ").data ++ joinSep ", ".data errs
  | .uriError => ("URI malformed").data

/-- Model of `isMetadataRequest`. -/
def isMetadataRequest (templateName : Str) : Bool :=
  strStartsWith ("metadata-").data templateName

/-- Model of `createEmptyCalendar`. -/
def createEmptyCalendar : Str :=
  joinSep ("\r\n").data
    [("BEGIN:VCALENDAR").data, ("VERSION:2.0").data,
     ("PRODID:-//MCP CalDAV Server//EN").data, ("END:VCALENDAR").data]

/-- Model of `executeCalendarQuery`: map the race outcome to the handler's
error messages, else join the truthy calendar-data fragments (falling back
to an empty calendar). -/
def executeCalendarQuery (deps : HandlerDeps) (href : Str)
    (opts : CalendarQueryOptions) : Except Str Str :=
  match deps.queryResult href opts with
  | .error .timeout => .error ("CalDAV server request timed out").data
  | .error (.failure m) => .error (("CalDAV query failed: ").data ++ m)
  | .ok items =>
    let dat := joinSep ['\n'] (items.filterMap (fun o =>
      match o with
      | some (c0 :: cs) => some (c0 :: cs)
      | _ => none))
    .ok (if dat.isEmpty then createEmptyCalendar else dat)

/-- Model of `handleMetadataRequest`. -/
def handleMetadataRequest (parsed : ParsedCalDavUri) (discovery : DiscoveryResult)
    (now : Str) : Except Str CalDavResponse :=
  if parsed.templateName = ("metadata-list-cals").data then
    .ok ⟨metadataJson discovery now, ("application/json").data, 200⟩
  else
    .error (("Unknown metadata template: ").data ++ parsed.templateName)

/-- Model of `handleCalendarRequest` (the filters applied are exactly the
supplied ones; `getFilterParams` only forwards truthy variables). -/
def handleCalendarRequest (deps : HandlerDeps) (parsed : ParsedCalDavUri)
    (discovery : DiscoveryResult) : Except Str CalDavResponse := do
  let vars := parsed.vars
  let calId := getExtra ("calendarId").data vars
  match discovery.collections.find? (fun col => some col.calendarId = calId) with
  | none => .error (("Calendar not found: ").data ++ jsInterp calId)
  | some calendar =>
    let cat := getExtra ("cat").data vars
    let uidv := getExtra ("uid").data vars
    let jmes := getExtra ("jmes").data vars
    let queryOptions : CalendarQueryOptions :=
      { componentType := getExtra ("comp").data vars
      , timeRange := some
          { start := getExtra ("start").data vars
          , stop := getExtra ("end").data vars }
      , categoryFilter := if strTruthy cat then cat else none
      , uid := if strTruthy uidv then uidv else none
      , jmesFilter := if strTruthy jmes then jmes else none }
    let calendarData ← executeCalendarQuery deps calendar.href queryOptions
    let comps0 := parseICalendarData calendarData
    let comps1 := if strTruthy cat then filterByCategory comps0 (cat.getD []) else comps0
    let comps2 := if strTruthy uidv then filterByUid comps1 (uidv.getD []) else comps1
    let comps3 :=
      if strTruthy jmes then filterByJmesExpression comps2 (jmes.getD []) else comps2
    .ok ⟨componentsToICalendar comps3, ("text/calendar").data, 200⟩

/-- The body of `handleRequest`'s `try` block. -/
def handleRequestBody (deps : HandlerDeps) (uri : Str) :
    Except Str CalDavResponse := do
  let parsed ← (parseCalDavUri uri).mapError (errToMsg uri)
  let discovery ← deps.discovery
  if isMetadataRequest parsed.templateName then
    handleMetadataRequest parsed discovery deps.nowISO
  else
    handleCalendarRequest deps parsed discovery

/-- Model of `CalDavRequestHandler.handleRequest`: the body with its
catch-all converting any failure into the JSON error payload with status
400.  Totality of this function is the model's rendering of "never lets an
exception escape". -/
def handleRequest (deps : HandlerDeps) (uri : Str) : CalDavResponse :=
  match handleRequestBody deps uri with
  | .ok r => r
  | .error msg => ⟨errorJson msg deps.nowISO, ("application/json").data, 400⟩

/-! ## Round-trip machinery (serialize-then-reparse)

`segsApply c` is the component that re-parsing the serialization of `c`
produces, expressed field by field directly from the serializer's emissions
and the parser's property handlers.  `ParseInv` collects structural facts
that every component coming out of `parseICalendarData` satisfies (non-empty
uid free of line breaks and trailing whitespace, a component type recognised
by the BEGIN/END markers, whitespace-safe last characters of the text
fields); they are exactly what makes the serialized lines survive trimming
and re-splitting intact. -/

/-- Right-side trim only (what `jsTrim` does when the head survives). -/
def trimRightWS (s : Str) : Str :=
  (s.reverse.dropWhile isJsWS).reverse

/-- The last character, if any, is non-whitespace or a line break that
`escapeValue` folds into `\n`. -/
def LastSafe (v : Str) : Prop :=
  ∀ cl, v.getLast? = some cl → (isJsWS cl = false ∨ cl = '\n' ∨ cl = '\r')

/-- A value emitted verbatim on a serialized line: no `\n` (so the line is
not cut on re-splitting) and a non-whitespace last character (so the line
survives trimming). -/
def RawLineSafe (v : Str) : Prop :=
  ('\n' ∉ v) ∧ ∀ cl, v.getLast? = some cl → isJsWS cl = false

/-- Structural invariants of every `parseICalendarData` output component. -/
def ParseInv (c : CalendarComponent) : Prop :=
  (∃ u, c.uid = some u ∧ u ≠ [] ∧ RawLineSafe u) ∧
  (∃ ct, c.componentType = some ct ∧ ct ≠ [] ∧ ('\n') ∉ ct ∧ (':') ∉ ct ∧
    (strStartsWith "VEVENT".data ct = true ∨ strStartsWith "VTODO".data ct = true ∨
      strStartsWith "VJOURNAL".data ct = true)) ∧
  (∀ v, c.summary = some v → LastSafe v) ∧
  (∀ v, c.description = some v → LastSafe v) ∧
  (∀ v, c.location = some v → LastSafe v) ∧
  (∀ v, c.status = some v → RawLineSafe v) ∧
  (∀ l, c.categories = some l → l ≠ [] ∧ ∀ cat ∈ l, LastSafe cat)

/-- The part of `ParseInv` that holds of a component under construction
(uid may still be absent, all other structural facts already hold). -/
def PartialInv (a : CalendarComponent) : Prop :=
  (∀ u, a.uid = some u → RawLineSafe u) ∧
  (∃ ct, a.componentType = some ct ∧ ct ≠ [] ∧ ('\n') ∉ ct ∧ (':') ∉ ct ∧
    (strStartsWith "VEVENT".data ct = true ∨ strStartsWith "VTODO".data ct = true ∨
      strStartsWith "VJOURNAL".data ct = true)) ∧
  (∀ v, a.summary = some v → LastSafe v) ∧
  (∀ v, a.description = some v → LastSafe v) ∧
  (∀ v, a.location = some v → LastSafe v) ∧
  (∀ v, a.status = some v → RawLineSafe v) ∧
  (∀ l, a.categories = some l → l ≠ [] ∧ ∀ cat ∈ l, LastSafe cat)

/-- The parse-loop state invariant: every emitted component satisfies
`ParseInv` and the in-progress component satisfies `PartialInv`. -/
def StInv (s : PState) : Prop :=
  (∀ c ∈ s.out, ParseInv c) ∧ (∀ a, s.cur = some a → PartialInv a)

/-- The component the parser accumulates over the serialized property lines
of `c`: the serialize-then-reparse image. -/
def segsApply (c : CalendarComponent) : CalendarComponent :=
  { uid := if strTruthy c.uid then some (c.uid.getD []) else none
    componentType := some (trimRightWS (effectiveCompType c))
    summary := if strTruthy c.summary then some (unescapeValue (escapeValue (c.summary.getD []))) else none
    dtstart := if strTruthy c.dtstart then some (filterDigitsTZ (c.dtstart.getD [])) else none
    dtend := if strTruthy c.dtend then some (filterDigitsTZ (c.dtend.getD [])) else none
    categories := if (c.categories.getD []).isEmpty then none else some ((splitUnescComma (joinSep ",".data ((c.categories.getD []).map escapeValue))).map (fun cat => unescapeValue (jsTrim cat)))
    status := if strTruthy c.status then some (jsToUpper (c.status.getD [])) else none
    priority := if priorityTruthy c.priority then some (parseIntJS (intToStr ((c.priority.getD none).getD 0))) else none
    description := if strTruthy c.description then some (unescapeValue (escapeValue (c.description.getD []))) else none
    location := if strTruthy c.location then some (unescapeValue (escapeValue (c.location.getD []))) else none
    extras := [] }

/-- The structural projection the round-trip claim compares: uid value,
component type value, presence of each optional field, and the extension
property keys. -/
def fieldView (c : CalendarComponent) :
    Option Str × Option Str × Bool × Bool × Bool × Bool × Bool × Bool ×
      Bool × Bool × List Str :=
  (c.uid, c.componentType, c.summary.isSome, c.dtstart.isSome, c.dtend.isSome,
    c.categories.isSome, c.status.isSome, c.priority.isSome,
    c.description.isSome, c.location.isSome, c.extras.map Prod.fst)

/-- Hypotheses under which the round-trip preserves `fieldView`: no trailing
whitespace in the component type, a priority that is a non-zero number if
present, no extension properties, and no populated-but-empty text fields. -/
def goodC1 (c : CalendarComponent) : Bool :=
  (match c.componentType with
   | some ct => match ct.getLast? with | some cl => !isJsWS cl | none => true
   | none => true) &&
  (match c.priority with
   | some (some n) => n ≠ 0
   | some none => false
   | none => true) &&
  c.extras.isEmpty &&
  c.summary ≠ some [] && c.dtstart ≠ some [] && c.dtend ≠ some [] &&
  c.status ≠ some [] && c.description ≠ some [] && c.location ≠ some []

/-- Concrete document whose round-trip loses a populated field: the parsed
event has `priority` present (the number `0`), the serialization emits no
PRIORITY line, and the re-parse has no priority field. -/
def c1doc : Str :=
  ("BEGIN:VEVENT\r\nUID:e1\r\nSUMMARY:s\r\nPRIORITY:0\r\nEND:VEVENT").data

/-- The document described by the round-trip claim: an event carrying
categories, description, location, and escaped characters. -/
def c1wdoc : Str :=
  ("BEGIN:VCALENDAR\r\nVERSION:2.0\r\nBEGIN:VEVENT\r\nUID:ev-1\r\n" ++
   "SUMMARY:Team\\, sync\\; planning\r\nDESCRIPTION:Line one\\nLine two\r\n" ++
   "LOCATION:Room 5\r\nCATEGORIES:work,meeting\r\nSTATUS:CONFIRMED\r\n" ++
   "DTSTART:20240115T100000Z\r\nEND:VEVENT\r\nEND:VCALENDAR").data

/-- Concrete document for the priority-emission witness: a task whose
priority parses to the number `0`. -/
def c10doc : Str :=
  ("BEGIN:VTODO\r\nUID:task-7\r\nSUMMARY:zero\r\nPRIORITY:0\r\nEND:VTODO").data

/-- The component `parseICalendarData c10doc` yields. -/
def c10comp : CalendarComponent :=
  { uid := some "task-7".data
    componentType := some "VTODO".data
    summary := some "zero".data
    priority := some (some 0) }


instance decEqBBBL : DecidableEq (Bool × Bool × Bool × List Str) := inferInstance

instance decEqB7L : DecidableEq (Bool × Bool × Bool × Bool × Bool × Bool × Bool × List Str) := inferInstance

instance decEqFieldView : DecidableEq (Option Str × Option Str × Bool × Bool × Bool × Bool × Bool × Bool × Bool × Bool × List Str) := inferInstance

/-- One character's contribution to `encodeURIComponent`. -/
def encChar (c : Char) : Str :=
  if isUnreservedURI c then [c] else (utf8Bytes c.toNat).flatMap pctByte

/-- The character classes that `encodeURIComponent` output draws from. -/
def encOK (x : Char) : Prop :=
  isUnreservedURI x = true ∨ x = '%' ∨ x.isDigit = true ∨ ('A' ≤ x ∧ x ≤ 'F')

/-- Whether `pat` occurs (as a contiguous substring, at any position) in a
string; mirrors the positions `replaceAllF` inspects. -/
def occursB (pat : Str) : Str → Bool
  | [] => pat.isPrefixOf []
  | c :: t => pat.isPrefixOf (c :: t) || occursB pat t

/-- A throwaway template record (list-default argument). -/
def tplDefault : CalDavResourceTemplate := ⟨[], [], [], []⟩

/-- The `components-range` catalog entry. -/
def tplRange : CalDavResourceTemplate := CALDAV_TEMPLATES.getD 0 tplDefault

/-- The `components-by-cat` catalog entry. -/
def tplByCat : CalDavResourceTemplate := CALDAV_TEMPLATES.getD 1 tplDefault

/-- The `component-by-uid` catalog entry. -/
def tplByUid : CalDavResourceTemplate := CALDAV_TEMPLATES.getD 2 tplDefault

/-- The `components-query` catalog entry. -/
def tplQuery : CalDavResourceTemplate := CALDAV_TEMPLATES.getD 3 tplDefault

/-- The `metadata-list-cals` catalog entry. -/
def tplMeta : CalDavResourceTemplate := CALDAV_TEMPLATES.getD 4 tplDefault

/-! ### END OF DEFINITIONS (new definitions go above this line) -/

/-! ## C9: every parsed component carries a non-empty uid -/

theorem strTruthy_iff (o : Option Str) :
    strTruthy o = true ↔ ∃ u, o = some u ∧ u ≠ [] := by
  cases o with
  | none => simp [strTruthy]
  | some s => cases s <;> simp [strTruthy]

theorem parseStep_uid (s : PState) (line : Str)
    (h : ∀ c ∈ s.out, uidPopulated c) :
    ∀ c ∈ (parseStep s line).out, uidPopulated c := by
  unfold parseStep
  by_cases h1 : (jsTrim line).isEmpty <;> simp only [h1, if_true, if_false]
  · exact h
  · by_cases h2 : isBeginLine (jsTrim line) = true <;> simp only [h2, if_true, if_false]
    · exact h
    · by_cases h3 : isEndLine (jsTrim line) = true <;> simp only [h3, if_true, if_false]
      · cases hc : s.cur with
        | none => simpa using h
        | some c0 =>
          by_cases h4 : strTruthy c0.uid = true
          · simp only [h4, if_true]
            intro c hm
            rcases List.mem_append.mp hm with hm | hm
            · exact h c hm
            · rcases List.mem_singleton.mp hm with rfl
              exact (strTruthy_iff c.uid).mp h4
          · simp only [Bool.not_eq_true] at h4
            simp only [h4, if_false]
            exact h
      · by_cases h5 : s.inComp = true <;> simp only [h5, if_true, if_false]
        · cases hc : s.cur with
          | none => exact h
          | some c0 => exact h
        · exact h

theorem parseFold_uid (lines : List Str) (s : PState)
    (h : ∀ c ∈ s.out, uidPopulated c) :
    ∀ c ∈ (lines.foldl parseStep s).out, uidPopulated c := by
  induction lines generalizing s with
  | nil => exact h
  | cons l rest ih => exact ih (parseStep s l) (parseStep_uid s l h)

/-- C9.  Every component in the list returned by `parseICalendarData` has a
non-empty uid: a component accumulated between begin and end markers whose
identifier field is absent or empty is never pushed onto the result list
(the `END` branch pushes only when `currentComponent?.uid` is truthy), so
for every input document every returned component has `uid = some u` with
`u ≠ []`. -/
theorem c9_parsed_components_have_nonempty_uid (doc : Str) :
    ∀ c ∈ parseICalendarData doc, ∃ u, c.uid = some u ∧ u ≠ [] := by
  intro c hc
  exact parseFold_uid (splitLines (unfoldData doc)) ⟨none, false, []⟩ (by simp) c hc

/-- Witness for C9 at a concrete document containing both a uid-less event
(dropped) and a task with uid `t1` (kept). -/
theorem c9_witness :
    ∃ u, (List.headI (parseICalendarData c9doc)).uid = some u ∧ u ≠ [] :=
  c9_parsed_components_have_nonempty_uid c9doc
    (List.headI (parseICalendarData c9doc)) (by decide)

/-! ## Shared list lemmas -/

theorem takeWhileAppendAll (p : Char → Bool) (xs ys : Str)
    (h : ∀ x ∈ xs, p x = true) :
    (xs ++ ys).takeWhile p = xs ++ ys.takeWhile p := by
  induction xs with
  | nil => simp
  | cons a t ih =>
    simp only [List.cons_append, List.takeWhile_cons, h a (by simp)]
    simp [ih (fun x hx => h x (by simp [hx]))]

theorem dropWhileAppendAll (p : Char → Bool) (xs ys : Str)
    (h : ∀ x ∈ xs, p x = true) :
    (xs ++ ys).dropWhile p = ys.dropWhile p := by
  induction xs with
  | nil => simp
  | cons a t ih =>
    simp only [List.cons_append, List.dropWhile_cons, h a (by simp)]
    simp [ih (fun x hx => h x (by simp [hx]))]

theorem isPrefixOf_append_self (xs ys : Str) : xs.isPrefixOf (xs ++ ys) = true :=
  List.isPrefixOf_iff_prefix.mpr (List.prefix_append xs ys)

theorem strIncludes_of_prefixOf (p s : Str) (h : p.isPrefixOf s = true) :
    strIncludes p s = true := by
  cases s with
  | nil => simpa [strIncludes] using h
  | cons c rest => simp [strIncludes, h]

theorem opChar_not_ws (c : Char) (h : isOpChar c = true) : isJsWS c = false := by
  simp only [isOpChar, Bool.or_eq_true, decide_eq_true_eq] at h
  rcases h with (h | h) | h <;> subst h <;> decide

theorem digit_not_ws (c : Char) (h : c.isDigit = true) : isJsWS c = false := by
  simp only [Char.isDigit, decide_eq_true_eq, Bool.and_eq_true] at h
  simp only [isJsWS, Bool.or_eq_false_iff, decide_eq_false_iff_not]
  refine ⟨⟨⟨⟨⟨?_, ?_⟩, ?_⟩, ?_⟩, ?_⟩, ?_⟩ <;> rintro rfl <;> revert h <;> decide

theorem digit_not_sign (c : Char) (h : c.isDigit = true) :
    c ≠ '-' ∧ c ≠ '+' := by
  constructor <;> rintro rfl <;> revert h <;> decide

/-! ## C2: the `length(path) OP N` expression filter -/


/-! ## C2: the length-comparison expression filter -/

theorem matchLengthAt_mk (path op digits : Str) (hpath : path ≠ [])
    (hnp : (')' : Char) ∉ path) (hopAll : ∀ c ∈ op, isOpChar c = true)
    (hopNe : op ≠ []) (hd : digits ≠ [])
    (hdd : ∀ c ∈ digits, c.isDigit = true) :
    matchLengthAt (mkLengthFilter path op digits) = some (path, op, digits) := by
  have hmk : mkLengthFilter path op digits =
      ("length(").data ++ (path ++ (')' :: ' ' :: (op ++ (' ' :: digits)))) := by
    simp [mkLengthFilter]
  have hpl : ∀ x ∈ path, (decide ¬(x = ')')) = true := by
    intro x hx
    simp only [decide_eq_true_eq]
    intro hh
    exact hnp (hh ▸ hx)
  obtain ⟨o0, ot, rfl⟩ : ∃ o0 ot, op = o0 :: ot := by
    cases op with
    | nil => exact absurd rfl hopNe
    | cons a b => exact ⟨a, b, rfl⟩
  obtain ⟨d0, dt, rfl⟩ : ∃ d0 dt, digits = d0 :: dt := by
    cases digits with
    | nil => exact absurd rfl hd
    | cons a b => exact ⟨a, b, rfl⟩
  have hdrop7 : List.drop 7 (("length(").data ++ (path ++ (')' :: ' ' :: ((o0 :: ot) ++ (' ' :: (d0 :: dt))))))
      = path ++ (')' :: ' ' :: ((o0 :: ot) ++ (' ' :: (d0 :: dt)))) := by
    simpa using List.drop_left ("length(").data _
  have htw : List.takeWhile (fun ch => decide (ch ≠ ')'))
      (path ++ (')' :: ' ' :: ((o0 :: ot) ++ (' ' :: (d0 :: dt))))) = path := by
    rw [takeWhileAppendAll _ _ _ (by simpa using hpl)]
    simp [List.takeWhile]
  have hpe : path.isEmpty = false := by
    cases path with
    | nil => exact absurd rfl hpath
    | cons a b => rfl
  have hdp : List.drop path.length (path ++ (')' :: ' ' :: ((o0 :: ot) ++ (' ' :: (d0 :: dt)))))
      = ')' :: ' ' :: ((o0 :: ot) ++ (' ' :: (d0 :: dt))) := List.drop_left _ _
  have hws : List.dropWhile isJsWS (' ' :: ((o0 :: ot) ++ (' ' :: (d0 :: dt))))
      = (o0 :: ot) ++ (' ' :: (d0 :: dt)) := by
    rw [List.dropWhile_cons]
    simp only [show isJsWS ' ' = true from rfl, if_true, List.cons_append]
    rw [List.dropWhile_cons]
    simp [opChar_not_ws o0 (hopAll o0 (by simp))]
  have hops : List.takeWhile isOpChar ((o0 :: ot) ++ (' ' :: (d0 :: dt))) = o0 :: ot := by
    rw [takeWhileAppendAll _ _ _ hopAll]
    simp [List.takeWhile, show isOpChar ' ' = false from rfl]
  have hdrop2 : List.drop (o0 :: ot).length ((o0 :: ot) ++ (' ' :: (d0 :: dt))) = ' ' :: (d0 :: dt) :=
    List.drop_left _ _
  have hws2 : List.dropWhile isJsWS (' ' :: (d0 :: dt)) = d0 :: dt := by
    rw [List.dropWhile_cons]
    simp only [show isJsWS ' ' = true from rfl, if_true]
    rw [List.dropWhile_cons]
    simp [digit_not_ws d0 (hdd d0 (by simp))]
  have hdig : List.takeWhile Char.isDigit (d0 :: dt) = d0 :: dt := by
    simpa using takeWhileAppendAll Char.isDigit (d0 :: dt) [] hdd
  rw [hmk]
  unfold matchLengthAt
  rw [if_pos (isPrefixOf_append_self _ _)]
  simp only [hdrop7, htw, hpe, Bool.false_eq_true, if_false, hdp, hws, hops, hdrop2, hws2, hdig,
    List.isEmpty_cons, if_false]

theorem scanLength_mk (path op digits : Str) (hpath : path ≠ [])
    (hnp : (')' : Char) ∉ path) (hopAll : ∀ c ∈ op, isOpChar c = true)
    (hopNe : op ≠ []) (hd : digits ≠ [])
    (hdd : ∀ c ∈ digits, c.isDigit = true) :
    scanLength (mkLengthFilter path op digits) = some (path, op, digits) := by
  have h := matchLengthAt_mk path op digits hpath hnp hopAll hopNe hd hdd
  have hmk2 : mkLengthFilter path op digits =
      'l' :: (("ength(").data ++ path ++ (") ").data ++ op ++ (" ").data ++ digits) := by
    simp [mkLengthFilter]
  rw [hmk2]
  unfold scanLength
  rw [← hmk2, h]

theorem parseIntJS_digits (digits : Str) (hd : digits ≠ [])
    (hdd : ∀ c ∈ digits, c.isDigit = true) :
    parseIntJS digits = some (digitsVal digits : Int) := by
  obtain ⟨d0, dt, rfl⟩ : ∃ d0 dt, digits = d0 :: dt := by
    cases digits with
    | nil => exact absurd rfl hd
    | cons a b => exact ⟨a, b, rfl⟩
  have hd0 := hdd d0 (by simp)
  have hdw : List.dropWhile isJsWS (d0 :: dt) = d0 :: dt := by
    rw [List.dropWhile_cons]
    simp [digit_not_ws d0 hd0]
  have hsign := digit_not_sign d0 hd0
  have hdig : List.takeWhile Char.isDigit (d0 :: dt) = d0 :: dt := by
    simpa using takeWhileAppendAll Char.isDigit (d0 :: dt) [] hdd
  unfold parseIntJS
  rw [hdw]
  have h1 : (decide (some d0 = some ('-' : Char))) = false := by
    simp [hsign.1]
  have h2 : (decide (some d0 = some ('+' : Char))) = false := by
    simp [hsign.2]
  simp only [List.head?_cons, h1, h2, Bool.or_self, Bool.false_eq_true, if_false, hdig,
    List.isEmpty_cons]
  rfl

theorem opApply_eq_compareLen (op : Str) (len n : Nat) :
    opApply op len (n : Int) = compareLen op len n := by
  unfold opApply compareLen
  split_ifs <;> (try rfl) <;> (simp only [decide_eq_decide]; omega)

/-- C2, counterexample.  For the filter text `length(categories) == 2` the
claim says a component with exactly two categories is kept; the code's
`includes('==')` check intercepts the filter before the length branch, the
equality branch resolves the literal path `length(categories)` (which no
component field matches) and compares `undefined` with the string `"2"`,
so every component is dropped. -/
theorem c2_counterexample :
    filterByJmesExpression [c2comp]
        (mkLengthFilter ("categories").data ['=', '='] ['2']) = [] ∧
      [c2comp].filter
        (lengthClaimKeep ("categories").data ['=', '='] 2) = [c2comp] := by
  constructor
  · decide
  · decide

/-- C2, amended.  For every component list and every expression filter of
the shape `length(path) OP N` with OP one of `<`, `>`, `<=`, `>=` (`==` is
intercepted by the string-equality branch, see `c2_counterexample`), and a
filter text that itself contains neither `==` nor `contains` (otherwise an
earlier dispatch branch fires), `filterByJmesExpression` keeps exactly the
components whose resolved field at the (trimmed) path is an array whose
length satisfies the comparison against the integer N. -/
theorem c2_length_filter_amended (comps : List CalendarComponent) (path op digits : Str)
    (hpath : path ≠ []) (hnp : (')' : Char) ∉ path)
    (hop : op ∈ [[('>' : Char)], [('<' : Char)], ['>', '='], ['<', '=']])
    (hd : digits ≠ []) (hdd : ∀ c ∈ digits, c.isDigit = true)
    (hne : strIncludes ['=', '='] (mkLengthFilter path op digits) = false)
    (hnc : strIncludes ("contains").data (mkLengthFilter path op digits) = false) :
    filterByJmesExpression comps (mkLengthFilter path op digits) =
      comps.filter (lengthClaimKeep path op (digitsVal digits)) := by
  have hop' : op = [('>' : Char)] ∨ op = [('<' : Char)] ∨ op = ['>', '='] ∨
      op = ['<', '='] := by
    simpa using hop
  have hopAll : ∀ c ∈ op, isOpChar c = true := by
    rcases hop' with h | h | h | h <;> subst h <;> decide
  have hopNe : op ≠ [] := by
    rcases hop' with h | h | h | h <;> subst h <;> decide
  have hpre : strIncludes ("length(").data (mkLengthFilter path op digits) = true := by
    apply strIncludes_of_prefixOf
    have hsh : mkLengthFilter path op digits =
        ("length(").data ++ (path ++ ((") ").data ++ (op ++ ((" ").data ++ digits)))) := by
      simp [mkLengthFilter]
    rw [hsh]
    exact isPrefixOf_append_self _ _
  have hscan := scanLength_mk path op digits hpath hnp hopAll hopNe hd hdd
  have hpi := parseIntJS_digits digits hd hdd
  unfold filterByJmesExpression
  rw [hne]
  simp only [Bool.false_eq_true, if_false, hnc, hpre, if_true, hscan, Option.map_some]
  apply List.filter_congr
  intro c _
  simp only [hpi, Option.getD_some, lengthClaimKeep]
  cases getNestedProperty c (jsTrim path) with
  | varr l => exact opApply_eq_compareLen op l.length (digitsVal digits)
  | vstr s => rfl
  | vnum n => rfl
  | vundefined => rfl

/-- Witness for C2 at `length(categories) > 1` over the two-category
component. -/
theorem c2_witness :
    filterByJmesExpression [c2comp]
        (mkLengthFilter ("categories").data [('>' : Char)] ['1']) =
      [c2comp].filter
        (lengthClaimKeep ("categories").data [('>' : Char)] (digitsVal ['1'])) :=
  c2_length_filter_amended [c2comp] ("categories").data [('>' : Char)] ['1']
    (by decide) (by decide) (by decide) (by decide) (by decide) (by decide)
    (by decide)


/-! ## C6: XML escaping in the report builder -/

theorem replChar_elim (c : Char) (rep : Str) (hc : c ∉ rep) :
    ∀ s, c ∉ replChar c rep s := by
  intro s
  induction s with
  | nil => simp [replChar]
  | cons x r ih =>
    by_cases hx : x = c
    · simp only [replChar, hx, if_true, List.mem_append]
      rintro (h | h)
      · exact hc h
      · exact ih h
    · simp only [replChar, hx, if_false, List.mem_cons]
      rintro (h | h)
      · exact hx h.symm
      · exact ih h

theorem replChar_keep (c c' : Char) (rep : Str) (hrep : c ∉ rep) :
    ∀ s, c ∉ s → c ∉ replChar c' rep s := by
  intro s
  induction s with
  | nil => simp [replChar]
  | cons x r ih =>
    intro hs
    have hx : c ≠ x := fun h => hs (h ▸ List.mem_cons_self x r)
    have hr : c ∉ r := fun h => hs (List.mem_cons_of_mem x h)
    by_cases hxc : x = c'
    · simp only [replChar, hxc, if_true, List.mem_append]
      rintro (h | h)
      · exact hrep h
      · exact ih hr h
    · simp only [replChar, hxc, if_false, List.mem_cons]
      rintro (h | h)
      · exact hx h
      · exact ih hr h

theorem escapeXml_no_markup (s : Str) :
    ('<' ∉ escapeXml s) ∧ ('>' ∉ escapeXml s) ∧
      (dquoteChar ∉ escapeXml s) ∧ (quoteChar ∉ escapeXml s) := by
  unfold escapeXml
  refine ⟨?_, ?_, ?_, ?_⟩
  · apply replChar_keep _ _ _ (by decide)
    apply replChar_keep _ _ _ (by decide)
    apply replChar_keep _ _ _ (by decide)
    apply replChar_elim _ _ (by decide)
  · apply replChar_keep _ _ _ (by decide)
    apply replChar_keep _ _ _ (by decide)
    apply replChar_elim _ _ (by decide)
  · apply replChar_keep _ _ _ (by decide)
    apply replChar_elim _ _ (by decide)
  · apply replChar_elim _ _ (by decide)

theorem strTruthy_some_ne (o : Option Str) (u : Str) (h : o = some u)
    (hu : u ≠ []) : strTruthy o = true := by
  subst h
  cases u with
  | nil => exact absurd rfl hu
  | cons a b => rfl

theorem c6_categoryLine (o : CalendarQueryOptions) (ct c : Str)
    (hct : o.componentType = some ct) (hctne : ct ≠ [])
    (hc : o.categoryFilter = some c) (hcne : c ≠ []) :
    (("          <C:text-match collation=\"i;ascii-casemap\">").data ++
        escapeXml c ++ ("</C:text-match>").data) ∈ buildCalendarQueryLines o := by
  have h1 : strTruthy (some ct) = true := strTruthy_some_ne _ _ rfl hctne
  have h2 : strTruthy (some c) = true := strTruthy_some_ne _ _ rfl hcne
  unfold buildCalendarQueryLines
  simp only [hct, hc, h1, h2, Bool.true_or, Bool.or_true, Bool.not_true,
    Bool.false_eq_true, if_false, if_true, Option.getD_some]
  simp [List.mem_append]

theorem c6_uidLine (o : CalendarQueryOptions) (ct u : Str)
    (hct : o.componentType = some ct) (hctne : ct ≠ [])
    (hu : o.uid = some u) (hune : u ≠ []) :
    (("          <C:text-match collation=\"i;ascii-casemap\">").data ++
        escapeXml u ++ ("</C:text-match>").data) ∈ buildCalendarQueryLines o := by
  have h1 : strTruthy (some ct) = true := strTruthy_some_ne _ _ rfl hctne
  have h2 : strTruthy (some u) = true := strTruthy_some_ne _ _ rfl hune
  unfold buildCalendarQueryLines
  simp only [hct, hu, h1, h2, Bool.true_or, Bool.or_true, Bool.not_true,
    Bool.false_eq_true, if_false, if_true, Option.getD_some]
  simp [List.mem_append]

theorem c6_jmesLine (o : CalendarQueryOptions) (ct j : Str)
    (hct : o.componentType = some ct) (hctne : ct ≠ [])
    (hj : o.jmesFilter = some j) (hjne : j ≠ []) :
    (("        <!-- JMES filter: ").data ++ escapeXml j ++ (" -->").data)
      ∈ buildCalendarQueryLines o := by
  have h1 : strTruthy (some ct) = true := strTruthy_some_ne _ _ rfl hctne
  have h2 : strTruthy (some j) = true := strTruthy_some_ne _ _ rfl hjne
  unfold buildCalendarQueryLines
  simp only [hct, hj, h1, h2, Bool.true_or, Bool.or_true, Bool.not_true,
    Bool.false_eq_true, if_false, if_true, Option.getD_some]
  simp [List.mem_append]

theorem c6_hrefLine (hrefs : List Str) (h : Str) (hm : h ∈ hrefs) :
    (("  <D:href>").data ++ escapeXml h ++ ("</D:href>").data)
      ∈ buildMultigetLines hrefs := by
  unfold buildMultigetLines
  refine List.mem_append.mpr (Or.inl (List.mem_append.mpr (Or.inr ?_)))
  exact List.mem_map.mpr ⟨h, hm, rfl⟩

theorem c6_ctVerbatim (o : CalendarQueryOptions) (ct : Str)
    (hct : o.componentType = some ct) (hctne : ct ≠ []) :
    (("      <C:comp-filter name=").data ++ [dquoteChar] ++ ct ++ [dquoteChar, '>'])
      ∈ buildCalendarQueryLines o := by
  have h1 : strTruthy (some ct) = true := strTruthy_some_ne _ _ rfl hctne
  unfold buildCalendarQueryLines
  simp only [hct, h1, Bool.true_or, Bool.or_true, Bool.not_true,
    Bool.false_eq_true, if_false, if_true, Option.getD_some]
  simp [List.mem_append]

set_option maxRecDepth 4096 in
/-- C6, counterexample.  `buildCalendarQuery` embeds the user-supplied
component type verbatim: for the component type `V"E` the output contains
the raw text (with its unescaped double quote) and does not contain the
escaped form `V&quot;E`, so not every user-supplied piece of text is
escaped for the five reserved markup characters. -/
theorem c6_counterexample :
    strIncludes ('V' :: dquoteChar :: [('E' : Char)]) (buildCalendarQuery c6opts) = true ∧
      strIncludes (escapeXml ('V' :: dquoteChar :: [('E' : Char)]))
        (buildCalendarQuery c6opts) = false := by
  constructor
  · decide
  · decide

/-- C6, amended.  `escapeXml` output carries no raw `<`, `>`, `"` or `'`
(every `&` it emits heads one of the five entities), and the free-text
pieces — the category filter, the identifier filter, the
expression-filter comment, and the multi-fetch hrefs — pass through
`escapeXml` before being placed in the generated document; the component
type (and likewise the time-range bounds) are embedded verbatim, their
safety resting on the upstream enum/pattern validation. -/
theorem c6_escaping_amended :
    (∀ s : Str, ('<' ∉ escapeXml s) ∧ ('>' ∉ escapeXml s) ∧
      (dquoteChar ∉ escapeXml s) ∧ (quoteChar ∉ escapeXml s)) ∧
    (∀ (o : CalendarQueryOptions) (ct c : Str), o.componentType = some ct → ct ≠ [] →
      o.categoryFilter = some c → c ≠ [] →
      (("          <C:text-match collation=\"i;ascii-casemap\">").data ++
        escapeXml c ++ ("</C:text-match>").data) ∈ buildCalendarQueryLines o) ∧
    (∀ (o : CalendarQueryOptions) (ct u : Str), o.componentType = some ct → ct ≠ [] →
      o.uid = some u → u ≠ [] →
      (("          <C:text-match collation=\"i;ascii-casemap\">").data ++
        escapeXml u ++ ("</C:text-match>").data) ∈ buildCalendarQueryLines o) ∧
    (∀ (o : CalendarQueryOptions) (ct j : Str), o.componentType = some ct → ct ≠ [] →
      o.jmesFilter = some j → j ≠ [] →
      (("        <!-- JMES filter: ").data ++ escapeXml j ++ (" -->").data)
        ∈ buildCalendarQueryLines o) ∧
    (∀ (hrefs : List Str) (h : Str), h ∈ hrefs →
      (("  <D:href>").data ++ escapeXml h ++ ("</D:href>").data)
        ∈ buildMultigetLines hrefs) ∧
    (∀ (o : CalendarQueryOptions) (ct : Str), o.componentType = some ct → ct ≠ [] →
      (("      <C:comp-filter name=").data ++ [dquoteChar] ++ ct ++ [dquoteChar, '>'])
        ∈ buildCalendarQueryLines o) :=
  ⟨escapeXml_no_markup,
   fun o ct c hct hctne hc hcne => c6_categoryLine o ct c hct hctne hc hcne,
   fun o ct u hct hctne hu hune => c6_uidLine o ct u hct hctne hu hune,
   fun o ct j hct hctne hj hjne => c6_jmesLine o ct j hct hctne hj hjne,
   fun hrefs h hm => c6_hrefLine hrefs h hm,
   fun o ct hct hctne => c6_ctVerbatim o ct hct hctne⟩

/-- Witness for C6: the escaped category line for `work&x` appears in the
query built from concrete options. -/
theorem c6_witness :
    (("          <C:text-match collation=\"i;ascii-casemap\">").data ++
        escapeXml (("work&x").data) ++ ("</C:text-match>").data) ∈
      buildCalendarQueryLines
        { componentType := some ("VEVENT").data
        , categoryFilter := some ("work&x").data } :=
  c6_escaping_amended.2.1
    { componentType := some ("VEVENT").data
    , categoryFilter := some ("work&x").data }
    ("VEVENT").data ("work&x").data rfl (by decide) rfl (by decide)

/-! ## C5: the time-range filter -/

set_option maxRecDepth 4096 in
/-- C5, counterexample.  For the all-day component starting `20240101`
(computed end `2024-01-02T00:00:00Z`) and a filter start equal to exactly
that computed end, the code keeps the component (its exclusion test is
`compEnd < startDate`, a closed interval), while the claim's half-open
interval `[start, start+24h)` says it must not overlap. -/
theorem c5_counterexample :
    filterByTimeRange [c5comp] (some (("2024-01-02T00:00:00Z").data)) none = [c5comp] ∧
      timeRangeKeepClaimed (some (("2024-01-02T00:00:00Z").data)) none c5comp = false := by
  constructor
  · decide
  · decide

/-- C5, amended.  For every component list and every time-range filter with
at least one truthy bound, `filterByTimeRange` keeps a component iff it has
a (truthy) start field and its closed interval `[start, computed-end]`
overlaps `[filterStart, filterEnd]` — an absent bound imposing no
constraint on its side, the computed end being the explicit end field when
present, else start + 24 hours when the start is date-only (8 digits after
discarding non-digits), else the start itself; components with no start
never match.  (The all-day interval is closed, not half-open, at its upper
end: see `c5_counterexample`.) -/
theorem c5_amended (comps : List CalendarComponent) (fs fe : Option Str)
    (h : strTruthy fs = true ∨ strTruthy fe = true) :
    filterByTimeRange comps fs fe = comps.filter (timeRangeKeepSpec fs fe) := by
  have hcond : (!(strTruthy fs) && !(strTruthy fe)) = false := by
    rcases h with h | h <;> simp [h]
  unfold filterByTimeRange
  simp only [hcond, Bool.false_eq_true, if_false]
  apply List.filter_congr
  intro c _
  unfold timeRangeKeepSpec
  by_cases hs : strTruthy c.dtstart = true
  · simp only [hs, Bool.not_true, Bool.false_eq_true, if_false, Bool.true_and]
    cases h1 : jsLt (computedEnd c (parseICalDate (c.dtstart.getD [])))
        (if strTruthy fs = true then jsDateParse (fs.getD []) else none) <;>
      cases h2 : jsGt (parseICalDate (c.dtstart.getD []))
        (if strTruthy fe = true then jsDateParse (fe.getD []) else none) <;>
      simp [h1, h2]
  · simp only [Bool.not_eq_true] at hs
    simp [hs]

set_option maxRecDepth 4096 in
/-- Witness for C5: the window `2024-01-01T00:00:00Z`..`2024-01-01T12:00:00Z`
over the all-day component. -/
theorem c5_witness :
    filterByTimeRange [c5comp] (some (("2024-01-01T00:00:00Z").data))
        (some (("2024-01-01T12:00:00Z").data)) =
      [c5comp].filter
        (timeRangeKeepSpec (some (("2024-01-01T00:00:00Z").data))
          (some (("2024-01-01T12:00:00Z").data))) :=
  c5_amended [c5comp] (some (("2024-01-01T00:00:00Z").data))
    (some (("2024-01-01T12:00:00Z").data)) (Or.inl (by decide))


/-! ## C7: the parse error taxonomy -/

theorem parseLoop_ne_malformed (w : Str) (ts : List CalDavResourceTemplate) :
    parseLoop w ts ≠ .error .malformed := by
  induction ts with
  | nil => simp [parseLoop]
  | cons t rest ih =>
    unfold parseLoop
    cases htp : tryParseWithTemplate w t with
    | error e => simp
    | ok o =>
      cases o with
      | none => simpa using ih
      | some vars =>
        by_cases hv : (validateTemplateVariables t.name vars).isValid = true <;>
          simp [hv]

theorem parseLoop_noMatch_iff (w : Str) (ts : List CalDavResourceTemplate) :
    parseLoop w ts = .error .noMatch ↔
      ∀ t ∈ ts, tryParseWithTemplate w t = .ok none := by
  induction ts with
  | nil => simp [parseLoop]
  | cons t rest ih =>
    unfold parseLoop
    cases htp : tryParseWithTemplate w t with
    | error e => simp [htp]
    | ok o =>
      cases o with
      | none => simp [htp, ih]
      | some vars =>
        by_cases hv : (validateTemplateVariables t.name vars).isValid = true <;>
          simp [hv, htp]

theorem parseLoop_skip (w : Str) (ts1 rest : List CalDavResourceTemplate)
    (h : ∀ t ∈ ts1, tryParseWithTemplate w t = .ok none) :
    parseLoop w (ts1 ++ rest) = parseLoop w rest := by
  induction ts1 with
  | nil => rfl
  | cons t ts ih =>
    rw [List.cons_append]
    have e : parseLoop w (t :: (ts ++ rest)) = parseLoop w (ts ++ rest) := by
      conv_lhs => unfold parseLoop
      rw [h t (by simp)]
    rw [e]
    exact ih (fun t' ht' => h t' (by simp [ht']))

theorem parseLoop_head_invalid (w : Str) (t : CalDavResourceTemplate)
    (rest : List CalDavResourceTemplate) (vars : List (Str × Str))
    (htp : tryParseWithTemplate w t = .ok (some vars))
    (hv : (validateTemplateVariables t.name vars).isValid = false) :
    parseLoop w (t :: rest) =
      .error (.validationErr (validateTemplateVariables t.name vars).errors) := by
  unfold parseLoop
  rw [htp]
  simp [hv]

/-- C7.  `parseCalDavUri` fails with the `MalformedInput` error exactly
when the identifier lacks the `caldav://` prefix; fails with the `NoMatch`
error exactly when the prefix is present but no candidate template's shape
matches structurally; and when the first structurally matching template's
extracted variables fail validation it fails immediately with a
`ValidationError` carrying the accumulated error list, without trying any
later candidate. -/
theorem c7_parse_error_taxonomy (uri : Str) :
    (parseCalDavUri uri = .error .malformed ↔
      strStartsWith ("caldav://").data uri = false) ∧
    (parseCalDavUri uri = .error .noMatch ↔
      (strStartsWith ("caldav://").data uri = true ∧
        ∀ t ∈ sortedCaldavTemplates,
          tryParseWithTemplate (uri.drop 9) t = .ok none)) ∧
    (∀ (ts1 : List CalDavResourceTemplate) (t : CalDavResourceTemplate)
        (ts2 : List CalDavResourceTemplate) (vars : List (Str × Str)),
      sortedCaldavTemplates = ts1 ++ t :: ts2 →
      (∀ t' ∈ ts1, tryParseWithTemplate (uri.drop 9) t' = .ok none) →
      tryParseWithTemplate (uri.drop 9) t = .ok (some vars) →
      (validateTemplateVariables t.name vars).isValid = false →
      strStartsWith ("caldav://").data uri = true →
      parseCalDavUri uri =
        .error (.validationErr (validateTemplateVariables t.name vars).errors)) := by
  refine ⟨?_, ?_, ?_⟩
  · unfold parseCalDavUri
    by_cases hp : strStartsWith ("caldav://").data uri = true
    · simp only [hp, Bool.not_true, Bool.false_eq_true, if_false]
      simp [hp, parseLoop_ne_malformed]
    · simp only [Bool.not_eq_true] at hp
      simp [hp]
  · unfold parseCalDavUri
    by_cases hp : strStartsWith ("caldav://").data uri = true
    · simp only [hp, Bool.not_true, Bool.false_eq_true, if_false]
      simp [hp, parseLoop_noMatch_iff]
    · simp only [Bool.not_eq_true] at hp
      simp [hp]
  · intro ts1 t ts2 vars hsort hskip htp hv hp
    unfold parseCalDavUri
    simp only [hp, Bool.not_true, Bool.false_eq_true, if_false]
    rw [hsort, parseLoop_skip _ _ _ hskip, parseLoop_head_invalid _ _ _ _ htp hv]

/-- Witness for C7: `http://example.com/calendar` lacks the scheme prefix
and parses to `MalformedInput`. -/
theorem c7_witness :
    parseCalDavUri (("http://example.com/calendar").data) = .error .malformed :=
  (c7_parse_error_taxonomy (("http://example.com/calendar").data)).1.mpr (by decide)


/-! ## C8: the orchestrator catch-all -/

theorem exceptBind_ok {ε α β : Type} (e : Except ε α) (f : α → Except ε β) (r : β)
    (h : (e >>= f) = .ok r) : ∃ a, e = .ok a ∧ f a = .ok r := by
  cases e with
  | error x =>
    exact absurd h (by simp [Bind.bind, Except.bind])
  | ok a =>
    refine ⟨a, rfl, ?_⟩
    simpa [Bind.bind, Except.bind] using h

theorem handleMetadata_ok_status (parsed : ParsedCalDavUri) (d : DiscoveryResult)
    (now : Str) (r : CalDavResponse)
    (h : handleMetadataRequest parsed d now = .ok r) : r.status = 200 := by
  unfold handleMetadataRequest at h
  by_cases hn : parsed.templateName = ("metadata-list-cals").data
  · simp only [hn, if_true] at h
    cases h
    rfl
  · simp [hn] at h

theorem handleCalendar_ok_status (deps : HandlerDeps) (parsed : ParsedCalDavUri)
    (d : DiscoveryResult) (r : CalDavResponse)
    (h : handleCalendarRequest deps parsed d = .ok r) : r.status = 200 := by
  unfold handleCalendarRequest at h
  dsimp only at h
  cases hf : d.collections.find?
      (fun col => decide (some col.calendarId = getExtra ("calendarId").data parsed.vars)) with
  | none =>
    rw [hf] at h
    simp at h
  | some cal =>
    rw [hf] at h
    dsimp only at h
    obtain ⟨a, _, hfin⟩ := exceptBind_ok _ _ _ h
    cases hfin
    rfl

theorem handleBody_ok_status (deps : HandlerDeps) (uri : Str) (r : CalDavResponse)
    (h : handleRequestBody deps uri = .ok r) : r.status = 200 := by
  unfold handleRequestBody at h
  obtain ⟨parsed, hp, h2⟩ := exceptBind_ok _ _ _ h
  obtain ⟨d, hd, h3⟩ := exceptBind_ok _ _ _ h2
  by_cases hm : isMetadataRequest parsed.templateName = true
  · rw [if_pos hm] at h3
    exact handleMetadata_ok_status _ _ _ _ h3
  · rw [if_neg hm] at h3
    exact handleCalendar_ok_status _ _ _ _ h3

/-- C8.  `handleRequest` never lets a failure escape: over every oracle
outcome (discovery success/failure, query success, upstream failure or
timeout) and every request URI it is a total function whose status is 200
on success and otherwise 400 with mime type `application/json` and content
`JSON.stringify({error: message, timestamp: <ISO-8601 clock reading>})`,
so every returned status is either 200 or 400. -/
theorem c8_handle_request_shape (deps : HandlerDeps) (uri : Str) :
    (handleRequest deps uri).status = 200 ∨
      ((handleRequest deps uri).status = 400 ∧
        ∃ msg, (handleRequest deps uri).content = errorJson msg deps.nowISO ∧
          (handleRequest deps uri).mimeType = ("application/json").data) := by
  unfold handleRequest
  cases hb : handleRequestBody deps uri with
  | ok r =>
    left
    exact handleBody_ok_status deps uri r hb
  | error msg =>
    right
    exact ⟨rfl, msg, rfl, rfl⟩

/-! ## C4: deterministic template ordering -/

/-- C4.  The matcher tries the candidate templates in the fixed total order
produced by the stable sort under `templateCmp` (literal `VTODO`/`_meta`
segments first; then templates expecting query parameters; among those,
more `[?&]` occurrences first; ties keep declaration order), and on the
fixed five-template catalog this order is components-by-cat,
metadata-list-cals, components-range, components-query, component-by-uid. -/
theorem c4_template_order :
    sortedCaldavTemplates.map (fun t => t.name) =
      [("components-by-cat").data, ("metadata-list-cals").data,
       ("components-range").data, ("components-query").data,
       ("component-by-uid").data] := by
  decide

/-! ## Round-trip support lemmas (C1/C10) -/


/-- The head of `dropWhile p` fails `p`. -/
theorem head?_dropWhile_false (p : Char → Bool) (l : Str) (c : Char)
    (h : (l.dropWhile p).head? = some c) : p c = false := by
  induction l with
  | nil => simp [List.dropWhile] at h
  | cons a t ih =>
    rw [List.dropWhile_cons] at h
    by_cases hp : p a
    · rw [if_pos hp] at h; exact ih h
    · rw [if_neg hp] at h
      simp only [List.head?_cons, Option.some.injEq] at h
      subst h
      simpa using hp

/-- `dropWhile` over an append when the first part does not vanish. -/
theorem dropWhile_append_pos (p : Char → Bool) (a b : Str)
    (h : a.dropWhile p ≠ []) :
    (a ++ b).dropWhile p = a.dropWhile p ++ b := by
  induction a with
  | nil => simp at h
  | cons x t ih =>
    by_cases hp : p x
    · rw [List.cons_append, List.dropWhile_cons, if_pos hp,
        List.dropWhile_cons, if_pos hp] at *
      exact ih (by simpa [List.dropWhile_cons, hp] using h)
    · simp [List.dropWhile_cons, hp]

/-- `dropWhile` over an append when the first part vanishes. -/
theorem dropWhile_append_neg (p : Char → Bool) (a b : Str)
    (h : a.dropWhile p = []) :
    (a ++ b).dropWhile p = b.dropWhile p := by
  induction a with
  | nil => simp
  | cons x t ih =>
    by_cases hp : p x
    · rw [List.dropWhile_cons, if_pos hp] at h
      rw [List.cons_append, List.dropWhile_cons, if_pos hp]
      exact ih h
    · rw [List.dropWhile_cons, if_neg hp] at h
      exact absurd h (by simp)

/-- A string whose last character is non-whitespace is not right-trimmed. -/
theorem trimRightWS_eq_self (s : Str)
    (h : ∀ cl, s.getLast? = some cl → isJsWS cl = false) :
    trimRightWS s = s := by
  unfold trimRightWS
  cases hs : s.reverse with
  | nil =>
    have : s = [] := by simpa using congrArg List.reverse hs
    simp [this]
  | cons a t =>
    have ha : s.getLast? = some a := by
      rw [← List.head?_reverse, hs]; rfl
    rw [List.dropWhile_cons, if_neg (by simp [h a ha])]
    rw [← hs, List.reverse_reverse]

/-- With a non-whitespace head, `jsTrim` only trims the right side. -/
theorem jsTrim_eq_trimRight (s : Str)
    (h : ∀ ch, s.head? = some ch → isJsWS ch = false) :
    jsTrim s = trimRightWS s := by
  unfold jsTrim trimRightWS
  have : s.dropWhile isJsWS = s := by
    cases s with
    | nil => rfl
    | cons a t => rw [List.dropWhile_cons, if_neg (by simp [h a rfl])]
  rw [this]

/-- A string with non-whitespace head and last characters is untouched by
`jsTrim`. -/
theorem jsTrim_noop (s : Str)
    (h1 : ∀ ch, s.head? = some ch → isJsWS ch = false)
    (h2 : ∀ cl, s.getLast? = some cl → isJsWS cl = false) :
    jsTrim s = s := by
  rw [jsTrim_eq_trimRight s h1, trimRightWS_eq_self s h2]

/-- Right-trimming distributes over an append whose right part survives. -/
theorem trimRightWS_append (a b : Str) (h : trimRightWS b ≠ []) :
    trimRightWS (a ++ b) = a ++ trimRightWS b := by
  unfold trimRightWS at *
  have hb : b.reverse.dropWhile isJsWS ≠ [] := by
    intro hh; exact h (by simp [hh])
  rw [List.reverse_append, dropWhile_append_pos _ _ _ hb, List.reverse_append,
    List.reverse_reverse]

/-- Characters of the right-trim come from the original string. -/
theorem mem_trimRightWS (x : Char) (s : Str) (h : x ∈ trimRightWS s) :
    x ∈ s := by
  unfold trimRightWS at h
  rw [List.mem_reverse] at h
  have := (List.dropWhile_sublist (l := s.reverse) (p := isJsWS)).mem h
  simpa using this

/-- The last character of a right-trim is non-whitespace. -/
theorem trimRightWS_getLast (s : Str) (cl : Char)
    (h : (trimRightWS s).getLast? = some cl) : isJsWS cl = false := by
  unfold trimRightWS at h
  rw [List.getLast?_reverse] at h
  exact head?_dropWhile_false _ _ _ h

/-- The last character, if any, is a member. -/
theorem mem_of_getLast?Some (l : Str) (a : Char) (h : l.getLast? = some a) :
    a ∈ l := by
  rw [← List.head?_reverse] at h
  rw [← List.mem_reverse]
  cases hl : l.reverse with
  | nil => rw [hl] at h; simp at h
  | cons x t =>
    rw [hl] at h
    simp only [List.head?_cons, Option.some.injEq] at h
    simp [h]

/-- A proper prefix made of non-whitespace characters survives right
trimming. -/
theorem trimRightWS_keeps_pref (p s : Str) (hp : p.isPrefixOf s = true)
    (hnw : ∀ c ∈ p, isJsWS c = false) (hne : p ≠ []) :
    p.isPrefixOf (trimRightWS s) = true ∧ trimRightWS s ≠ [] := by
  obtain ⟨suf, rfl⟩ := (List.isPrefixOf_iff_prefix.mp hp)
  by_cases hsuf : trimRightWS suf = []
  · have hds : suf.reverse.dropWhile isJsWS = [] := by
      have := congrArg List.reverse hsuf
      simpa [trimRightWS] using this
    have hpr : trimRightWS p = p :=
      trimRightWS_eq_self p (fun cl hcl => hnw cl (mem_of_getLast?Some p cl hcl))
    have hdp : p.reverse.dropWhile isJsWS = p.reverse := by
      have := congrArg List.reverse hpr
      simpa [trimRightWS] using this
    have : trimRightWS (p ++ suf) = p := by
      unfold trimRightWS
      rw [List.reverse_append, dropWhile_append_neg _ _ _ hds, hdp,
        List.reverse_reverse]
    rw [this]
    exact ⟨List.isPrefixOf_iff_prefix.mpr (List.prefix_refl p), hne⟩
  · rw [trimRightWS_append p suf hsuf]
    constructor
    · exact List.isPrefixOf_iff_prefix.mpr ⟨trimRightWS suf, rfl⟩
    · intro hh
      rcases p with _ | ⟨c, t⟩
      · exact hne rfl
      · simp at hh

/-- Mismatching first characters refute `startsWith`. -/
theorem startsWith_cons_ne (p0 c0 : Char) (ps cs : Str) (h : p0 ≠ c0) :
    strStartsWith (p0 :: ps) (c0 :: cs) = false := by
  simp [strStartsWith, List.isPrefixOf, h]

/-- `splitChar` on a separator-free string. -/
theorem splitChar_no_sep (sep : Char) (a : Str) (h : sep ∉ a) :
    splitChar sep a = [a] := by
  induction a with
  | nil => rfl
  | cons c t ih =>
    have hc : ¬c = sep := by rintro rfl; exact h (by simp)
    rw [splitChar, if_neg hc, ih (fun hm => h (by simp [hm]))]

/-- `splitChar` across the first separator. -/
theorem splitChar_append (sep : Char) (a b : Str) (h : sep ∉ a) :
    splitChar sep (a ++ sep :: b) = a :: splitChar sep b := by
  induction a with
  | nil => simp [splitChar]
  | cons c t ih =>
    have hc : ¬c = sep := by rintro rfl; exact h (by simp)
    rw [List.cons_append, splitChar, if_neg hc,
      ih (fun hm => h (by simp [hm]))]

/-- `splitAtColon` across the first colon. -/
theorem splitAtColon_append (n v : Str) (h : (':' : Char) ∉ n) :
    splitAtColon (n ++ ':' :: v) = some (n, v) := by
  induction n with
  | nil => simp [splitAtColon]
  | cons c t ih =>
    have hc : ¬c = ':' := by rintro rfl; exact h (by simp)
    rw [List.cons_append, splitAtColon, if_neg hc,
      ih (fun hm => h (by simp [hm]))]
    rfl



/-- `getLast?` skips the head when the tail is non-empty. -/
theorem getLast?_cons_of_ne (a : Char) (l : Str) (h : l ≠ []) :
    (a :: l).getLast? = l.getLast? := by
  cases l with
  | nil => exact absurd rfl h
  | cons b t => exact List.getLast?_cons_cons

/-- Non-empty inputs keep `repBSn` non-empty. -/
theorem repBSn_ne_nil (s : Str) (h : s ≠ []) : repBSn s ≠ [] := by
  rw [repBSn.eq_def]; split <;> simp_all

/-- Non-empty inputs keep `repBScomma` non-empty. -/
theorem repBScomma_ne_nil (s : Str) (h : s ≠ []) : repBScomma s ≠ [] := by
  rw [repBScomma.eq_def]; split <;> simp_all

/-- Non-empty inputs keep `repBSsemi` non-empty. -/
theorem repBSsemi_ne_nil (s : Str) (h : s ≠ []) : repBSsemi s ≠ [] := by
  rw [repBSsemi.eq_def]; split <;> simp_all

/-- Non-empty inputs keep `repBSbs` non-empty. -/
theorem repBSbs_ne_nil (s : Str) (h : s ≠ []) : repBSbs s ≠ [] := by
  rw [repBSbs.eq_def]; split <;> simp_all

/-- Non-empty inputs keep `escBS` non-empty. -/
theorem escBS_ne_nil (s : Str) (h : s ≠ []) : escBS s ≠ [] := by
  rw [escBS.eq_def]; split <;> simp_all

/-- Non-empty inputs keep `escSemi` non-empty. -/
theorem escSemi_ne_nil (s : Str) (h : s ≠ []) : escSemi s ≠ [] := by
  rw [escSemi.eq_def]; split <;> simp_all

/-- Non-empty inputs keep `escComma` non-empty. -/
theorem escComma_ne_nil (s : Str) (h : s ≠ []) : escComma s ≠ [] := by
  rw [escComma.eq_def]; split <;> simp_all

/-- Non-empty inputs keep `escNL` non-empty. -/
theorem escNL_ne_nil (s : Str) (h : s ≠ []) : escNL s ≠ [] := by
  rw [escNL.eq_def]; split <;> simp_all

/-- `escapeValue` of a non-empty string is non-empty. -/
theorem escapeValue_ne_nil (s : Str) (h : s ≠ []) : escapeValue s ≠ [] := by
  unfold escapeValue
  exact escNL_ne_nil _ (escComma_ne_nil _ (escSemi_ne_nil _ (escBS_ne_nil _ h)))

/-- Reduction of `repBSn` at a non-matching head. -/
theorem repBSn_cons (c : Char) (rest : Str)
    (h : ¬(c = '\\' ∧ rest.head? = some 'n')) :
    repBSn (c :: rest) = c :: repBSn rest := by
  rw [repBSn.eq_def]
  split
  · next heq =>
    rw [List.cons.injEq] at heq
    exact absurd ⟨heq.1, by rw [heq.2]; rfl⟩ h
  · next c2 r2 heq =>
    rw [List.cons.injEq] at heq
    rw [heq.1, heq.2]
  · next heq => exact absurd heq (by simp)

/-- Reduction of `repBScomma` at a non-matching head. -/
theorem repBScomma_cons (c : Char) (rest : Str)
    (h : ¬(c = '\\' ∧ rest.head? = some ',')) :
    repBScomma (c :: rest) = c :: repBScomma rest := by
  rw [repBScomma.eq_def]
  split
  · next heq =>
    rw [List.cons.injEq] at heq
    exact absurd ⟨heq.1, by rw [heq.2]; rfl⟩ h
  · next c2 r2 heq =>
    rw [List.cons.injEq] at heq
    rw [heq.1, heq.2]
  · next heq => exact absurd heq (by simp)

/-- Reduction of `repBSsemi` at a non-matching head. -/
theorem repBSsemi_cons (c : Char) (rest : Str)
    (h : ¬(c = '\\' ∧ rest.head? = some ';')) :
    repBSsemi (c :: rest) = c :: repBSsemi rest := by
  rw [repBSsemi.eq_def]
  split
  · next heq =>
    rw [List.cons.injEq] at heq
    exact absurd ⟨heq.1, by rw [heq.2]; rfl⟩ h
  · next c2 r2 heq =>
    rw [List.cons.injEq] at heq
    rw [heq.1, heq.2]
  · next heq => exact absurd heq (by simp)

/-- Reduction of `repBSbs` at a non-matching head. -/
theorem repBSbs_cons (c : Char) (rest : Str)
    (h : ¬(c = '\\' ∧ rest.head? = some '\\')) :
    repBSbs (c :: rest) = c :: repBSbs rest := by
  rw [repBSbs.eq_def]
  split
  · next heq =>
    rw [List.cons.injEq] at heq
    exact absurd ⟨heq.1, by rw [heq.2]; rfl⟩ h
  · next c2 r2 heq =>
    rw [List.cons.injEq] at heq
    rw [heq.1, heq.2]
  · next heq => exact absurd heq (by simp)

/-- Reduction of `escNL` at a non-matching head. -/
theorem escNL_cons (c : Char) (rest : Str) (h1 : c ≠ '\n') (h2 : c ≠ '\r') :
    escNL (c :: rest) = c :: escNL rest := by
  rw [escNL.eq_def]
  split
  · next heq =>
    rw [List.cons.injEq] at heq
    exact absurd heq.1 h2
  · next heq =>
    rw [List.cons.injEq] at heq
    exact absurd heq.1 h1
  · next heq =>
    rw [List.cons.injEq] at heq
    exact absurd heq.1 h2
  · next c2 r2 heq =>
    rw [List.cons.injEq] at heq
    rw [heq.1, heq.2]
  · next heq => exact absurd heq (by simp)

/-- The unescape passes keep the last character non-whitespace-or-LF:
pass 1 (`\n` → LF). -/
theorem repBSn_last (s : Str)
    (h : ∀ c0, s.getLast? = some c0 → (isJsWS c0 = false ∨ c0 = '\n')) :
    ∀ cl, (repBSn s).getLast? = some cl → (isJsWS cl = false ∨ cl = '\n') := by
  induction s using repBSn.induct with
  | case1 rest ih =>
    intro cl hcl
    rw [repBSn] at hcl
    by_cases hr : rest = []
    · subst hr
      simp [repBSn] at hcl
      simp [hcl.symm]
    · rw [getLast?_cons_of_ne _ _ (repBSn_ne_nil rest hr)] at hcl
      refine ih (fun c0 hc0 => h c0 ?_) cl hcl
      rw [getLast?_cons_of_ne _ _ (by simp : 'n' :: rest ≠ []),
        getLast?_cons_of_ne _ _ hr]
      exact hc0
  | case2 c rest hne ih =>
    intro cl hcl
    have hgen : ¬(c = '\\' ∧ rest.head? = some 'n') := by
      rintro ⟨rfl, hh⟩
      cases hr : rest with
      | nil => rw [hr] at hh; exact Option.noConfusion hh
      | cons x t =>
        rw [hr] at hh
        have hx : x = 'n' := by simpa using hh
        exact hne t rfl (by rw [hr, hx])
    rw [repBSn_cons c rest hgen] at hcl
    by_cases hr : rest = []
    · subst hr
      simp [repBSn] at hcl
      exact h cl (by simp [hcl])
    · rw [getLast?_cons_of_ne _ _ (repBSn_ne_nil rest hr)] at hcl
      exact ih (fun c0 hc0 => h c0 (by rw [getLast?_cons_of_ne _ _ hr]; exact hc0)) cl hcl
  | case3 => intro cl hcl; simp [repBSn] at hcl

/-- The unescape passes keep the last character non-whitespace-or-LF:
pass `repBScomma`. -/
theorem repBScomma_last (s : Str)
    (h : ∀ c0, s.getLast? = some c0 → (isJsWS c0 = false ∨ c0 = '\n')) :
    ∀ cl, (repBScomma s).getLast? = some cl → (isJsWS cl = false ∨ cl = '\n') := by
  induction s using repBScomma.induct with
  | case1 rest ih =>
    intro cl hcl
    rw [repBScomma] at hcl
    by_cases hr : rest = []
    · subst hr
      simp [repBScomma] at hcl
      subst hcl
      decide
    · rw [getLast?_cons_of_ne _ _ (repBScomma_ne_nil rest hr)] at hcl
      refine ih (fun c0 hc0 => h c0 ?_) cl hcl
      rw [getLast?_cons_of_ne _ _ (by simp : (',' : Char) :: rest ≠ []),
        getLast?_cons_of_ne _ _ hr]
      exact hc0
  | case2 c rest hne ih =>
    intro cl hcl
    have hgen : ¬(c = '\\' ∧ rest.head? = some ',') := by
      rintro ⟨rfl, hh⟩
      cases hr : rest with
      | nil => rw [hr] at hh; exact Option.noConfusion hh
      | cons x t =>
        rw [hr] at hh
        have hx : x = ',' := by simpa using hh
        exact hne t rfl (by rw [hr, hx])
    rw [repBScomma_cons c rest hgen] at hcl
    by_cases hr : rest = []
    · subst hr
      simp [repBScomma] at hcl
      exact h cl (by simp [hcl])
    · rw [getLast?_cons_of_ne _ _ (repBScomma_ne_nil rest hr)] at hcl
      exact ih (fun c0 hc0 => h c0 (by rw [getLast?_cons_of_ne _ _ hr]; exact hc0)) cl hcl
  | case3 => intro cl hcl; simp [repBScomma] at hcl


/-- The unescape passes keep the last character non-whitespace-or-LF:
pass `repBSsemi`. -/
theorem repBSsemi_last (s : Str)
    (h : ∀ c0, s.getLast? = some c0 → (isJsWS c0 = false ∨ c0 = '\n')) :
    ∀ cl, (repBSsemi s).getLast? = some cl → (isJsWS cl = false ∨ cl = '\n') := by
  induction s using repBSsemi.induct with
  | case1 rest ih =>
    intro cl hcl
    rw [repBSsemi] at hcl
    by_cases hr : rest = []
    · subst hr
      simp [repBSsemi] at hcl
      subst hcl
      decide
    · rw [getLast?_cons_of_ne _ _ (repBSsemi_ne_nil rest hr)] at hcl
      refine ih (fun c0 hc0 => h c0 ?_) cl hcl
      rw [getLast?_cons_of_ne _ _ (by simp : (';' : Char) :: rest ≠ []),
        getLast?_cons_of_ne _ _ hr]
      exact hc0
  | case2 c rest hne ih =>
    intro cl hcl
    have hgen : ¬(c = '\\' ∧ rest.head? = some ';') := by
      rintro ⟨rfl, hh⟩
      cases hr : rest with
      | nil => rw [hr] at hh; exact Option.noConfusion hh
      | cons x t =>
        rw [hr] at hh
        have hx : x = ';' := by simpa using hh
        exact hne t rfl (by rw [hr, hx])
    rw [repBSsemi_cons c rest hgen] at hcl
    by_cases hr : rest = []
    · subst hr
      simp [repBSsemi] at hcl
      exact h cl (by simp [hcl])
    · rw [getLast?_cons_of_ne _ _ (repBSsemi_ne_nil rest hr)] at hcl
      exact ih (fun c0 hc0 => h c0 (by rw [getLast?_cons_of_ne _ _ hr]; exact hc0)) cl hcl
  | case3 => intro cl hcl; simp [repBSsemi] at hcl


/-- The unescape passes keep the last character non-whitespace-or-LF:
pass `repBSbs`. -/
theorem repBSbs_last (s : Str)
    (h : ∀ c0, s.getLast? = some c0 → (isJsWS c0 = false ∨ c0 = '\n')) :
    ∀ cl, (repBSbs s).getLast? = some cl → (isJsWS cl = false ∨ cl = '\n') := by
  induction s using repBSbs.induct with
  | case1 rest ih =>
    intro cl hcl
    rw [repBSbs] at hcl
    by_cases hr : rest = []
    · subst hr
      simp [repBSbs] at hcl
      subst hcl
      decide
    · rw [getLast?_cons_of_ne _ _ (repBSbs_ne_nil rest hr)] at hcl
      refine ih (fun c0 hc0 => h c0 ?_) cl hcl
      rw [getLast?_cons_of_ne _ _ (by simp : ('\\' : Char) :: rest ≠ []),
        getLast?_cons_of_ne _ _ hr]
      exact hc0
  | case2 c rest hne ih =>
    intro cl hcl
    have hgen : ¬(c = '\\' ∧ rest.head? = some '\\') := by
      rintro ⟨rfl, hh⟩
      cases hr : rest with
      | nil => rw [hr] at hh; exact Option.noConfusion hh
      | cons x t =>
        rw [hr] at hh
        have hx : x = '\\' := by simpa using hh
        exact hne t rfl (by rw [hr, hx])
    rw [repBSbs_cons c rest hgen] at hcl
    by_cases hr : rest = []
    · subst hr
      simp [repBSbs] at hcl
      exact h cl (by simp [hcl])
    · rw [getLast?_cons_of_ne _ _ (repBSbs_ne_nil rest hr)] at hcl
      exact ih (fun c0 hc0 => h c0 (by rw [getLast?_cons_of_ne _ _ hr]; exact hc0)) cl hcl
  | case3 => intro cl hcl; simp [repBSbs] at hcl


/-- Reduction of `escBS` at a non-matching head. -/
theorem escBS_cons (c : Char) (rest : Str) (h : c ≠ '\\') :
    escBS (c :: rest) = c :: escBS rest := by
  rw [escBS.eq_def]
  split
  · next heq => rw [List.cons.injEq] at heq; exact absurd heq.1 h
  · next c2 r2 heq => rw [List.cons.injEq] at heq; rw [heq.1, heq.2]
  · next heq => exact absurd heq (by simp)

/-- Reduction of `escSemi` at a non-matching head. -/
theorem escSemi_cons (c : Char) (rest : Str) (h : c ≠ ';') :
    escSemi (c :: rest) = c :: escSemi rest := by
  rw [escSemi.eq_def]
  split
  · next heq => rw [List.cons.injEq] at heq; exact absurd heq.1 h
  · next c2 r2 heq => rw [List.cons.injEq] at heq; rw [heq.1, heq.2]
  · next heq => exact absurd heq (by simp)

/-- Reduction of `escComma` at a non-matching head. -/
theorem escComma_cons (c : Char) (rest : Str) (h : c ≠ ',') :
    escComma (c :: rest) = c :: escComma rest := by
  rw [escComma.eq_def]
  split
  · next heq => rw [List.cons.injEq] at heq; exact absurd heq.1 h
  · next c2 r2 heq => rw [List.cons.injEq] at heq; rw [heq.1, heq.2]
  · next heq => exact absurd heq (by simp)

/-- The escape pass `escBS` keeps the last character out of the trimmed
whitespace set (`\n`/`\r` allowed, folded later by `escNL`). -/
theorem escBS_last (s : Str)
    (h : ∀ c0, s.getLast? = some c0 →
      (isJsWS c0 = false ∨ c0 = '\n' ∨ c0 = '\r')) :
    ∀ cl, (escBS s).getLast? = some cl →
      (isJsWS cl = false ∨ cl = '\n' ∨ cl = '\r') := by
  induction s using escBS.induct with
  | case1 rest ih =>
    intro cl hcl
    rw [escBS] at hcl
    by_cases hr : rest = []
    · subst hr
      simp [escBS] at hcl
      subst hcl
      decide
    · rw [getLast?_cons_of_ne _ _ (by simp : ('\\' : Char) :: escBS rest ≠ []),
        getLast?_cons_of_ne _ _ (escBS_ne_nil rest hr)] at hcl
      exact ih (fun c0 hc0 => h c0
        (by rw [getLast?_cons_of_ne _ _ hr]; exact hc0)) cl hcl
  | case2 c rest hne ih =>
    intro cl hcl
    rw [escBS_cons c rest (fun hcc => hne hcc)] at hcl
    by_cases hr : rest = []
    · subst hr
      simp [escBS] at hcl
      exact h cl (by simp [hcl])
    · rw [getLast?_cons_of_ne _ _ (escBS_ne_nil rest hr)] at hcl
      exact ih (fun c0 hc0 => h c0
        (by rw [getLast?_cons_of_ne _ _ hr]; exact hc0)) cl hcl
  | case3 => intro cl hcl; simp [escBS] at hcl

/-- The escape pass `escSemi` keeps the last character safe. -/
theorem escSemi_last (s : Str)
    (h : ∀ c0, s.getLast? = some c0 →
      (isJsWS c0 = false ∨ c0 = '\n' ∨ c0 = '\r')) :
    ∀ cl, (escSemi s).getLast? = some cl →
      (isJsWS cl = false ∨ cl = '\n' ∨ cl = '\r') := by
  induction s using escSemi.induct with
  | case1 rest ih =>
    intro cl hcl
    rw [escSemi] at hcl
    by_cases hr : rest = []
    · subst hr
      simp [escSemi] at hcl
      subst hcl
      decide
    · rw [getLast?_cons_of_ne _ _ (by simp : (';' : Char) :: escSemi rest ≠ []),
        getLast?_cons_of_ne _ _ (escSemi_ne_nil rest hr)] at hcl
      exact ih (fun c0 hc0 => h c0
        (by rw [getLast?_cons_of_ne _ _ hr]; exact hc0)) cl hcl
  | case2 c rest hne ih =>
    intro cl hcl
    rw [escSemi_cons c rest (fun hcc => hne hcc)] at hcl
    by_cases hr : rest = []
    · subst hr
      simp [escSemi] at hcl
      exact h cl (by simp [hcl])
    · rw [getLast?_cons_of_ne _ _ (escSemi_ne_nil rest hr)] at hcl
      exact ih (fun c0 hc0 => h c0
        (by rw [getLast?_cons_of_ne _ _ hr]; exact hc0)) cl hcl
  | case3 => intro cl hcl; simp [escSemi] at hcl

/-- The escape pass `escComma` keeps the last character safe. -/
theorem escComma_last (s : Str)
    (h : ∀ c0, s.getLast? = some c0 →
      (isJsWS c0 = false ∨ c0 = '\n' ∨ c0 = '\r')) :
    ∀ cl, (escComma s).getLast? = some cl →
      (isJsWS cl = false ∨ cl = '\n' ∨ cl = '\r') := by
  induction s using escComma.induct with
  | case1 rest ih =>
    intro cl hcl
    rw [escComma] at hcl
    by_cases hr : rest = []
    · subst hr
      simp [escComma] at hcl
      subst hcl
      decide
    · rw [getLast?_cons_of_ne _ _ (by simp : (',' : Char) :: escComma rest ≠ []),
        getLast?_cons_of_ne _ _ (escComma_ne_nil rest hr)] at hcl
      exact ih (fun c0 hc0 => h c0
        (by rw [getLast?_cons_of_ne _ _ hr]; exact hc0)) cl hcl
  | case2 c rest hne ih =>
    intro cl hcl
    rw [escComma_cons c rest (fun hcc => hne hcc)] at hcl
    by_cases hr : rest = []
    · subst hr
      simp [escComma] at hcl
      exact h cl (by simp [hcl])
    · rw [getLast?_cons_of_ne _ _ (escComma_ne_nil rest hr)] at hcl
      exact ih (fun c0 hc0 => h c0
        (by rw [getLast?_cons_of_ne _ _ hr]; exact hc0)) cl hcl
  | case3 => intro cl hcl; simp [escComma] at hcl

/-- The final escape pass turns a safe last character into a strictly
non-whitespace one (line breaks become the two-character `\n`). -/
theorem escNL_last (s : Str)
    (h : ∀ c0, s.getLast? = some c0 →
      (isJsWS c0 = false ∨ c0 = '\n' ∨ c0 = '\r')) :
    ∀ cl, (escNL s).getLast? = some cl → isJsWS cl = false := by
  induction s using escNL.induct with
  | case1 rest ih =>
    intro cl hcl
    rw [escNL] at hcl
    by_cases hr : rest = []
    · subst hr
      simp [escNL] at hcl
      subst hcl
      decide
    · rw [getLast?_cons_of_ne _ _ (by simp : ('n' : Char) :: escNL rest ≠ []),
        getLast?_cons_of_ne _ _ (escNL_ne_nil rest hr)] at hcl
      refine ih (fun c0 hc0 => h c0 ?_) cl hcl
      rw [getLast?_cons_of_ne _ _ (by simp : ('\n' : Char) :: rest ≠ []),
        getLast?_cons_of_ne _ _ hr]
      exact hc0
  | case2 rest ih =>
    intro cl hcl
    rw [escNL] at hcl
    by_cases hr : rest = []
    · subst hr
      simp [escNL] at hcl
      subst hcl
      decide
    · rw [getLast?_cons_of_ne _ _ (by simp : ('n' : Char) :: escNL rest ≠ []),
        getLast?_cons_of_ne _ _ (escNL_ne_nil rest hr)] at hcl
      exact ih (fun c0 hc0 => h c0
        (by rw [getLast?_cons_of_ne _ _ hr]; exact hc0)) cl hcl
  | case3 rest hne ih =>
    intro cl hcl
    have hred : escNL ('\r' :: rest) = '\\' :: 'n' :: escNL rest := by
      rw [escNL.eq_def]
      split
      · rename_i r1 heq
        rw [List.cons.injEq] at heq
        exact absurd heq.2 (hne r1)
      · rename_i r1 heq
        rw [List.cons.injEq] at heq
        exact absurd heq.1 (by decide)
      · rename_i r1 hno heq
        rw [List.cons.injEq] at heq
        rw [heq.2]
      · rename_i c2 r2 hn1 hn2 hn3 heq
        rw [List.cons.injEq] at heq
        exact absurd heq.1.symm hn3
      · rename_i heq
        exact absurd heq (by simp)
    rw [hred] at hcl
    by_cases hr : rest = []
    · subst hr
      simp [escNL] at hcl
      subst hcl
      decide
    · rw [getLast?_cons_of_ne _ _ (by simp : ('n' : Char) :: escNL rest ≠ []),
        getLast?_cons_of_ne _ _ (escNL_ne_nil rest hr)] at hcl
      exact ih (fun c0 hc0 => h c0
        (by rw [getLast?_cons_of_ne _ _ hr]; exact hc0)) cl hcl
  | case4 c rest h1 h2 h3 ih =>
    intro cl hcl
    rw [escNL_cons c rest (fun hcc => h2 hcc) (fun hcc => h3 hcc)] at hcl
    by_cases hr : rest = []
    · subst hr
      simp [escNL] at hcl
      rcases h cl (by simp [hcl]) with hok | hnl | hcr
      · exact hok
      · exact (h2 (hcl.trans hnl)).elim
      · exact (h3 (hcl.trans hcr)).elim
    · rw [getLast?_cons_of_ne _ _ (escNL_ne_nil rest hr)] at hcl
      exact ih (fun c0 hc0 => h c0
        (by rw [getLast?_cons_of_ne _ _ hr]; exact hc0)) cl hcl
  | case5 => intro cl hcl; simp [escNL] at hcl

/-- `escNL` output contains no line break characters. -/
theorem escNL_no_nl (s : Str) : ('\n' ∉ escNL s) ∧ ('\r' ∉ escNL s) := by
  induction s using escNL.induct with
  | case1 rest ih =>
    rw [escNL]
    refine ⟨?_, ?_⟩ <;> intro hm <;>
      rcases List.mem_cons.mp hm with h1 | hm2 <;> first
        | exact absurd h1 (by decide)
        | (rcases List.mem_cons.mp hm2 with h2 | hm3; exact absurd h2 (by decide);
           first | exact ih.1 hm3 | exact ih.2 hm3)
  | case2 rest ih =>
    rw [escNL]
    refine ⟨?_, ?_⟩ <;> intro hm <;>
      rcases List.mem_cons.mp hm with h1 | hm2 <;> first
        | exact absurd h1 (by decide)
        | (rcases List.mem_cons.mp hm2 with h2 | hm3; exact absurd h2 (by decide);
           first | exact ih.1 hm3 | exact ih.2 hm3)
  | case3 rest hne ih =>
    have hred : escNL ('\r' :: rest) = '\\' :: 'n' :: escNL rest := by
      rw [escNL.eq_def]
      split
      · rename_i r1 heq
        rw [List.cons.injEq] at heq
        exact absurd heq.2 (hne r1)
      · rename_i r1 heq
        rw [List.cons.injEq] at heq
        exact absurd heq.1 (by decide)
      · rename_i r1 hno heq
        rw [List.cons.injEq] at heq
        rw [heq.2]
      · rename_i c2 r2 hn1 hn2 hn3 heq
        rw [List.cons.injEq] at heq
        exact absurd heq.1.symm hn3
      · rename_i heq
        exact absurd heq (by simp)
    rw [hred]
    refine ⟨?_, ?_⟩ <;> intro hm <;>
      rcases List.mem_cons.mp hm with h1 | hm2 <;> first
        | exact absurd h1 (by decide)
        | (rcases List.mem_cons.mp hm2 with h2 | hm3; exact absurd h2 (by decide);
           first | exact ih.1 hm3 | exact ih.2 hm3)
  | case4 c rest h1 h2 h3 ih =>
    rw [escNL_cons c rest (fun hcc => h2 hcc) (fun hcc => h3 hcc)]
    refine ⟨?_, ?_⟩ <;> intro hm <;>
      rcases List.mem_cons.mp hm with hh | hm2
    · exact h2 hh.symm
    · exact ih.1 hm2
    · exact h3 hh.symm
    · exact ih.2 hm2
  | case5 => simp [escNL]

/-- `escapeValue` output contains no line break characters. -/
theorem escapeValue_no_nl (s : Str) :
    ('\n' ∉ escapeValue s) ∧ ('\r' ∉ escapeValue s) :=
  escNL_no_nl _

/-- `escapeValue` of a `LastSafe` value ends in a non-whitespace character. -/
theorem escapeValue_last (v : Str) (h : LastSafe v) :
    ∀ cl, (escapeValue v).getLast? = some cl → isJsWS cl = false := by
  unfold escapeValue
  intro cl hcl
  refine escNL_last _ (escComma_last _ (escSemi_last _ (escBS_last _ ?_))) cl hcl
  intro c0 hc0
  rcases h c0 hc0 with h1 | h2 | h3
  · exact Or.inl h1
  · exact Or.inr (Or.inl h2)
  · exact Or.inr (Or.inr h3)

/-- `unescapeValue` of a value with a non-whitespace last character ends in
a non-whitespace character or an LF (from an unescaped `\n`). -/
theorem unescapeValue_last (v : Str)
    (h : ∀ cl, v.getLast? = some cl → isJsWS cl = false) :
    ∀ cl, (unescapeValue v).getLast? = some cl →
      (isJsWS cl = false ∨ cl = '\n') := by
  unfold unescapeValue
  intro cl hcl
  exact repBSbs_last _ (repBSsemi_last _ (repBScomma_last _ (repBSn_last _
    (fun c0 hc0 => Or.inl (h c0 hc0))))) cl hcl


/-- A non-whitespace character is not a line feed. -/
theorem ne_lf_of_not_ws (c : Char) (h : isJsWS c = false) : c ≠ '\n' := by
  rintro rfl
  exact absurd h (by decide)

/-- ASCII uppercasing sends non-whitespace to non-whitespace. -/
theorem upperChar_not_ws (c : Char) (h : isJsWS c = false) :
    isJsWS (upperChar c) = false := by
  unfold upperChar
  split
  · rename_i hc
    simp only [Bool.and_eq_true, decide_eq_true_eq] at hc
    obtain ⟨k, hk, hk1, hk2⟩ : ∃ k, c.toNat - 32 = k ∧ 65 ≤ k ∧ k ≤ 90 :=
      ⟨c.toNat - 32, rfl, by omega, by omega⟩
    rw [hk]
    interval_cases k <;> decide
  · exact h

/-- ASCII uppercasing never produces a line feed. -/
theorem upperChar_ne_lf (c : Char) (h : c ≠ '\n') : upperChar c ≠ '\n' := by
  unfold upperChar
  split
  · rename_i hc
    simp only [Bool.and_eq_true, decide_eq_true_eq] at hc
    obtain ⟨k, hk, hk1, hk2⟩ : ∃ k, c.toNat - 32 = k ∧ 65 ≤ k ∧ k ≤ 90 :=
      ⟨c.toNat - 32, rfl, by omega, by omega⟩
    rw [hk]
    interval_cases k <;> decide
  · exact h

/-- `jsToUpper` preserves freedom from line feeds. -/
theorem jsToUpper_no_lf (s : Str) (h : '\n' ∉ s) : '\n' ∉ jsToUpper s := by
  intro hm
  obtain ⟨c, hc, he⟩ := List.mem_map.mp hm
  exact upperChar_ne_lf c (fun hce => h (hce ▸ hc)) he

/-- `jsToUpper` keeps the last character non-whitespace. -/
theorem jsToUpper_last (s : Str)
    (h : ∀ cl, s.getLast? = some cl → isJsWS cl = false) :
    ∀ cl, (jsToUpper s).getLast? = some cl → isJsWS cl = false := by
  intro cl hcl
  unfold jsToUpper at hcl
  rw [List.getLast?_map] at hcl
  cases hs : s.getLast? with
  | none => rw [hs] at hcl; exact Option.noConfusion hcl
  | some c0 =>
    rw [hs] at hcl
    have hup : upperChar c0 = cl := by simpa using hcl
    rw [← hup]
    exact upperChar_not_ws c0 (h c0 hs)

/-- Digit characters of `digitCh` are never whitespace or line feeds. -/
theorem digitCh_safe (n : Nat) : isJsWS (digitCh n) = false ∧ digitCh n ≠ '\n' := by
  obtain ⟨k, hk, hk2⟩ : ∃ k, n % 10 = k ∧ k < 10 :=
    ⟨n % 10, rfl, Nat.mod_lt _ (by norm_num)⟩
  unfold digitCh
  rw [hk]
  interval_cases k <;> exact ⟨by decide, by decide⟩

/-- `natToStrF` consists of decimal digit characters. -/
theorem natToStrF_chars (f n : Nat) :
    ∀ c ∈ natToStrF f n, ∃ m, c = digitCh m := by
  induction f generalizing n with
  | zero => intro c hc; exact absurd hc (by simp [natToStrF])
  | succ f ih =>
    intro c hc
    rw [natToStrF] at hc
    by_cases hn : n < 10
    · rw [if_pos hn] at hc
      exact ⟨n, by simpa using hc⟩
    · rw [if_neg hn] at hc
      rcases List.mem_append.mp hc with h1 | h2
      · exact ih _ c h1
      · exact ⟨n, by simpa using h2⟩

/-- `natToStrF` with positive fuel is non-empty and ends in a digit. -/
theorem natToStrF_last (f n : Nat) :
    (natToStrF (f + 1) n).getLast? = some (digitCh n) := by
  rw [natToStrF]
  by_cases hn : n < 10
  · rw [if_pos hn]; rfl
  · rw [if_neg hn]
    rw [List.getLast?_concat]

/-- `natToStrF` with positive fuel is non-empty. -/
theorem natToStrF_ne_nil (f n : Nat) : natToStrF (f + 1) n ≠ [] := by
  intro hc
  have h := natToStrF_last f n
  rw [hc] at h
  exact Option.noConfusion h

/-- The serialized decimal integer is non-empty. -/
theorem intToStr_ne_nil (n : Int) : intToStr n ≠ [] := by
  unfold intToStr
  have h := natToStrF_last n.natAbs n.natAbs
  split <;> intro hc
  · exact absurd hc (by simp)
  · rw [hc] at h; exact Option.noConfusion h

/-- The serialized decimal integer contains no line feed. -/
theorem intToStr_no_lf (n : Int) : '\n' ∉ intToStr n := by
  unfold intToStr
  have hd : '\n' ∉ natToStrF (n.natAbs + 1) n.natAbs := by
    intro hm
    obtain ⟨m, hme⟩ := natToStrF_chars _ _ _ hm
    exact (digitCh_safe m).2 hme.symm
  split
  · intro hm
    rcases List.mem_cons.mp hm with h1 | h2
    · exact absurd h1 (by decide)
    · exact hd h2
  · exact hd

/-- The serialized decimal integer ends in a digit, hence not whitespace. -/
theorem intToStr_last (n : Int) :
    ∀ cl, (intToStr n).getLast? = some cl → isJsWS cl = false := by
  intro cl hcl
  unfold intToStr at hcl
  have h := natToStrF_last n.natAbs n.natAbs
  split at hcl
  · rw [getLast?_cons_of_ne _ _ (natToStrF_ne_nil _ _), h] at hcl
    rw [Option.some.injEq] at hcl
    rw [← hcl]
    exact (digitCh_safe n.natAbs).1
  · rw [h] at hcl
    rw [Option.some.injEq] at hcl
    rw [← hcl]
    exact (digitCh_safe n.natAbs).1

/-- Characters kept by the `[^0-9TZ]` erasure are digits or `T`/`Z`. -/
theorem filterDigitsTZ_mem (c : Char) (s : Str) (h : c ∈ filterDigitsTZ s) :
    isJsWS c = false := by
  have := List.of_mem_filter h
  simp only [Bool.or_eq_true, decide_eq_true_eq] at this
  rcases this with (hd | hT) | hZ
  · exact digit_not_ws c hd
  · rw [hT]; decide
  · rw [hZ]; decide

/-- Reduction of the line splitter at a bare LF. -/
theorem splitLinesGo_lf (acc rest : Str) :
    splitLinesGo acc ('\n' :: rest) = acc.reverse :: splitLinesGo [] rest := by
  rw [splitLinesGo.eq_def]
  split
  · rename_i r1 heq
    rw [List.cons.injEq] at heq
    exact absurd heq.1 (by decide)
  · rename_i r1 heq
    rw [List.cons.injEq] at heq
    rw [heq.2]
  · rename_i c2 r2 hn1 hn2 heq
    rw [List.cons.injEq] at heq
    exact absurd heq.1.symm hn2
  · rename_i heq
    exact absurd heq (by simp)

/-- Reduction of the line splitter at an accumulating character. -/
theorem splitLinesGo_cons (acc : Str) (c : Char) (rest : Str)
    (h1 : c ≠ '\n') (h2 : ¬(c = '\r' ∧ rest.head? = some '\n')) :
    splitLinesGo acc (c :: rest) = splitLinesGo (c :: acc) rest := by
  rw [splitLinesGo.eq_def]
  split
  · rename_i r1 heq
    rw [List.cons.injEq] at heq
    exact absurd ⟨heq.1, by rw [heq.2]; rfl⟩ h2
  · rename_i r1 heq
    rw [List.cons.injEq] at heq
    exact absurd heq.1 h1
  · rename_i c2 r2 hn1 hn2 heq
    rw [List.cons.injEq] at heq
    rw [heq.1, heq.2]
  · rename_i heq
    exact absurd heq (by simp)

/-- Lines produced by the line splitter contain no line feed. -/
theorem splitLinesGo_no_lf (acc s : Str) : '\n' ∉ acc →
    ∀ l ∈ splitLinesGo acc s, '\n' ∉ l := by
  induction acc, s using splitLinesGo.induct with
  | case1 acc rest ih =>
    intro hacc l hl
    rw [splitLinesGo] at hl
    rcases List.mem_cons.mp hl with h1 | h2
    · subst h1; simpa using hacc
    · exact ih (by simp) l h2
  | case2 acc rest ih =>
    intro hacc l hl
    rw [splitLinesGo_lf] at hl
    rcases List.mem_cons.mp hl with h1 | h2
    · subst h1; simpa using hacc
    · exact ih (by simp) l h2
  | case3 acc c rest hno hlf ih =>
    intro hacc l hl
    rw [splitLinesGo_cons acc c rest (fun hc => hlf hc) (by
      rintro ⟨rfl, hh⟩
      cases hr : rest with
      | nil => rw [hr] at hh; exact Option.noConfusion hh
      | cons x t =>
        rw [hr] at hh
        have hx : x = '\n' := by simpa using hh
        exact hno t rfl (by rw [hr, hx]))] at hl
    refine ih ?_ l hl
    intro hm
    rcases List.mem_cons.mp hm with h1 | h2
    · exact hlf h1.symm
    · exact hacc h2
  | case4 acc =>
    intro hacc l hl
    rw [splitLinesGo] at hl
    rcases List.mem_cons.mp hl with h1 | h2
    · subst h1; simpa using hacc
    · exact absurd h2 (by simp)

/-- Every line of a split document is free of line feeds. -/
theorem splitLines_no_lf (s : Str) : ∀ l ∈ splitLines s, '\n' ∉ l :=
  splitLinesGo_no_lf [] s (by simp)

/-- The comma splitter never returns an empty list of segments. -/
theorem splitUnescCommaGo_ne_nil (acc s : Str) :
    splitUnescCommaGo acc s ≠ [] := by
  induction acc, s using splitUnescCommaGo.induct with
  | case1 acc => simp [splitUnescCommaGo]
  | case2 acc c rest hc ih =>
    rw [splitUnescCommaGo, if_pos hc]
    simp
  | case3 acc c rest hc ih =>
    rw [splitUnescCommaGo, if_neg hc]
    exact ih

/-- Reduction of `unfoldData` after a complete CRLF whose follower is not
folded. -/
theorem unfoldData_crlf (h : Char) (t : Str) (hs : isSpaceTab h = false) :
    unfoldData ('\r' :: '\n' :: h :: t) = '\r' :: '\n' :: unfoldData (h :: t) := by
  rw [unfoldData, if_neg (by simp [hs])]

/-- Reduction of `unfoldData` at a head that starts no fold. -/
theorem unfoldData_cons (c : Char) (rest : Str) (h1 : c ≠ '\n')
    (h2 : ¬(c = '\r' ∧ rest.head? = some '\n')) :
    unfoldData (c :: rest) = c :: unfoldData rest := by
  rw [unfoldData.eq_def]
  split
  · rename_i c2 r2 heq
    rw [List.cons.injEq] at heq
    exact absurd ⟨heq.1, by rw [heq.2]; rfl⟩ h2
  · rename_i c2 r2 heq
    rw [List.cons.injEq] at heq
    exact absurd heq.1 h1
  · rename_i c2 r2 hn1 hn2 heq
    rw [List.cons.injEq] at heq
    rw [heq.1, heq.2]
  · rename_i heq
    exact absurd heq (by simp)

/-- A string without line feeds is not unfolded. -/
theorem unfoldData_no_lf (l : Str) (h : '\n' ∉ l) : unfoldData l = l := by
  induction l with
  | nil => rfl
  | cons c l2 ih =>
    rw [unfoldData_cons c l2 (fun hc => h (by rw [hc]; simp)) (by
      rintro ⟨rfl, hh⟩
      cases hr : l2 with
      | nil => rw [hr] at hh; exact Option.noConfusion hh
      | cons x t =>
        rw [hr] at hh
        have hx : x = '\n' := by simpa using hh
        exact h (by rw [hr, hx]; simp))]
    rw [ih (fun hm => h (by simp [hm]))]

/-- `unfoldData` passes over a complete line followed by CRLF and a
non-foldable follower. -/
theorem unfoldData_chunk (l rest : Str) (h : '\n' ∉ l) (h0 : Char)
    (hh : rest.head? = some h0) (hs : isSpaceTab h0 = false) :
    unfoldData (l ++ '\r' :: '\n' :: rest) =
      l ++ '\r' :: '\n' :: unfoldData rest := by
  induction l with
  | nil =>
    cases rest with
    | nil => exact Option.noConfusion hh
    | cons x t =>
      rw [show x = h0 by simpa using hh]
      simpa using unfoldData_crlf h0 t hs
  | cons c l2 ih =>
    rw [List.cons_append,
      unfoldData_cons c (l2 ++ '\r' :: '\n' :: rest)
        (fun hc => h (by rw [hc]; simp))
        (by
          rintro ⟨rfl, hhd⟩
          cases hr : l2 with
          | nil =>
            rw [hr] at hhd
            simp at hhd
          | cons x t =>
            rw [hr] at hhd
            have hx : x = '\n' := by simpa using hhd
            exact h (by rw [hr, hx]; simp)),
      ih (fun hm => h (by simp [hm]))]
    simp

/-- The line splitter passes over a complete line followed by CRLF. -/
theorem splitLinesGo_chunk (l : Str) (hl : '\n' ∉ l) :
    ∀ (acc rest : Str),
      splitLinesGo acc (l ++ '\r' :: '\n' :: rest) =
        (acc.reverse ++ l) :: splitLinesGo [] rest := by
  induction l with
  | nil =>
    intro acc rest
    rw [List.nil_append, splitLinesGo]
    simp
  | cons c l2 ih =>
    intro acc rest
    rw [List.cons_append,
      splitLinesGo_cons acc c (l2 ++ '\r' :: '\n' :: rest)
        (fun hc => hl (by rw [hc]; simp))
        (by
          rintro ⟨rfl, hhd⟩
          cases hr : l2 with
          | nil =>
            rw [hr] at hhd
            simp at hhd
          | cons x t =>
            rw [hr] at hhd
            have hx : x = '\n' := by simpa using hhd
            exact hl (by rw [hr, hx]; simp)),
      ih (fun hm => hl (by simp [hm]))]
    simp

/-- The line splitter on a final line without breaks. -/
theorem splitLinesGo_final (l : Str) (hl : '\n' ∉ l) :
    ∀ acc : Str, splitLinesGo acc l = [acc.reverse ++ l] := by
  induction l with
  | nil => intro acc; rw [splitLinesGo]; simp
  | cons c l2 ih =>
    intro acc
    rw [splitLinesGo_cons acc c l2 (fun hc => hl (by rw [hc]; simp))
        (by
          rintro ⟨rfl, hhd⟩
          cases hr : l2 with
          | nil =>
            rw [hr] at hhd
            simp at hhd
          | cons x t =>
            rw [hr] at hhd
            have hx : x = '\n' := by simpa using hhd
            exact hl (by rw [hr, hx]; simp)),
      ih (fun hm => hl (by simp [hm]))]
    simp

/-- Splitting the CRLF join of LF-free lines recovers the lines. -/
theorem splitLines_joinCRLF (ls : List Str) (h : ∀ l ∈ ls, '\n' ∉ l)
    (hne : ls ≠ []) : splitLines (joinSep "\r\n".data ls) = ls := by
  induction ls with
  | nil => exact absurd rfl hne
  | cons l rest ih =>
    cases hr : rest with
    | nil =>
      unfold splitLines
      rw [joinSep]
      rw [splitLinesGo_final l (h l (by simp)) []]
      simp
    | cons l2 rest2 =>
      subst hr
      unfold splitLines
      have hjoin : joinSep "\r\n".data (l :: l2 :: rest2) =
          l ++ '\r' :: '\n' :: joinSep "\r\n".data (l2 :: rest2) := by
        show joinSep "\r\n".data (l :: l2 :: rest2) = _
        rw [joinSep.eq_def]
        split
        · rename_i heq; exact absurd heq (by simp)
        · rename_i s heq
          rw [List.cons.injEq] at heq
          exact absurd heq.2 (by simp)
        · rename_i s r2 heq
          rw [List.cons.injEq] at heq
          rw [← heq.1, ← heq.2, List.append_assoc]
          rfl
      rw [hjoin, splitLinesGo_chunk l (h l (by simp)) [] _]
      rw [List.reverse_nil, List.nil_append]
      rw [show splitLinesGo [] (joinSep "\r\n".data (l2 :: rest2)) =
        splitLines (joinSep "\r\n".data (l2 :: rest2)) from rfl]
      rw [ih (fun x hx => h x (by simp [hx])) (by simp)]

/-- Unfolding the CRLF join of LF-free lines with non-foldable heads is the
identity. -/
theorem unfoldData_joinCRLF (ls : List Str)
    (h : ∀ l ∈ ls, '\n' ∉ l ∧ ∃ h0 t0, l = h0 :: t0 ∧ isSpaceTab h0 = false) :
    unfoldData (joinSep "\r\n".data ls) = joinSep "\r\n".data ls := by
  induction ls with
  | nil => rfl
  | cons l rest ih =>
    cases hr : rest with
    | nil =>
      rw [joinSep]
      exact unfoldData_no_lf l (h l (by simp)).1
    | cons l2 rest2 =>
      subst hr
      have hjoin : joinSep "\r\n".data (l :: l2 :: rest2) =
          l ++ '\r' :: '\n' :: joinSep "\r\n".data (l2 :: rest2) := by
        rw [joinSep.eq_def]
        split
        · rename_i heq; exact absurd heq (by simp)
        · rename_i s heq
          rw [List.cons.injEq] at heq
          exact absurd heq.2 (by simp)
        · rename_i s r2 heq
          rw [List.cons.injEq] at heq
          rw [← heq.1, ← heq.2, List.append_assoc]
          rfl
      obtain ⟨h0, t0, hl2, hs0⟩ := (h l2 (by simp)).2
      rw [hjoin, unfoldData_chunk l _ (h l (by simp)).1 h0
        (by rw [joinSep.eq_def]; split
            · rename_i heq; exact absurd heq (by simp)
            · rename_i s heq
              rw [List.cons.injEq] at heq
              rw [← heq.1, hl2]
              rfl
            · rename_i s r2 heq
              rw [List.cons.injEq] at heq
              rw [← heq.1, hl2]
              rfl) hs0,
        ih (fun x hx => h x (by simp [hx]))]



/-- `getLast?` of an append with non-empty right part. -/
theorem getLast?_append_right (a b : Str) (hb : b ≠ []) :
    (a ++ b).getLast? = b.getLast? := by
  induction a with
  | nil => simp
  | cons x t ih =>
    rw [List.cons_append, getLast?_cons_of_ne _ _ (by simp [hb]), ih]

/-- `head?` of an append with non-empty left part. -/
theorem head?_append_left (a b : Str) (ha : a ≠ []) :
    (a ++ b).head? = a.head? := by
  cases a with
  | nil => exact absurd rfl ha
  | cons x t => rfl

/-- Trimming is the identity on a label-plus-value line whose label is
non-whitespace at both ends and whose value has a safe last character. -/
theorem jsTrim_noop_append (p v : Str) (hpne : p ≠ [])
    (hph : ∀ ch, p.head? = some ch → isJsWS ch = false)
    (hpl : ∀ cl, p.getLast? = some cl → isJsWS cl = false)
    (hv : ∀ cl, v.getLast? = some cl → isJsWS cl = false) :
    jsTrim (p ++ v) = p ++ v := by
  apply jsTrim_noop
  · intro ch hch
    rw [head?_append_left p v hpne] at hch
    exact hph ch hch
  · intro cl hcl
    by_cases hv0 : v = []
    · subst hv0
      rw [List.append_nil] at hcl
      exact hpl cl hcl
    · rw [getLast?_append_right p v hv0] at hcl
      exact hv cl hcl

/-- A true `startsWith` on a cons forces the pattern head. -/
theorem startsWith_head (p : Str) (c0 : Char) (rest : Str)
    (h : strStartsWith p (c0 :: rest) = true) : p = [] ∨ p.head? = some c0 := by
  cases p with
  | nil => exact Or.inl rfl
  | cons p0 pt =>
    right
    have hcons : (p0 == c0 && pt.isPrefixOf rest) = true := h
    have := (Bool.and_eq_true _ _).mp hcons
    rw [show p0 = c0 from by simpa using this.1]
    rfl

/-- A line whose first character is not `B` is no BEGIN marker. -/
theorem isBeginLine_false (line : Str) (c0 : Char) (h0 : line.head? = some c0)
    (h : c0 ≠ 'B') : isBeginLine line = false := by
  cases line with
  | nil => exact Option.noConfusion h0
  | cons d rest =>
    have hd : d = c0 := by simpa using h0
    subst hd
    rw [Bool.eq_false_iff]
    intro hb
    unfold isBeginLine at hb
    simp only [Bool.or_eq_true] at hb
    rcases hb with (h1 | h2) | h3
    · rcases startsWith_head _ _ _ h1 with he | hh
      · exact absurd he (by decide)
      · exact h (by simpa using hh.symm)
    · rcases startsWith_head _ _ _ h2 with he | hh
      · exact absurd he (by decide)
      · exact h (by simpa using hh.symm)
    · rcases startsWith_head _ _ _ h3 with he | hh
      · exact absurd he (by decide)
      · exact h (by simpa using hh.symm)

/-- A line whose first character is not `E` is no END marker. -/
theorem isEndLine_false (line : Str) (c0 : Char) (h0 : line.head? = some c0)
    (h : c0 ≠ 'E') : isEndLine line = false := by
  cases line with
  | nil => exact Option.noConfusion h0
  | cons d rest =>
    have hd : d = c0 := by simpa using h0
    subst hd
    rw [Bool.eq_false_iff]
    intro hb
    unfold isEndLine at hb
    simp only [Bool.or_eq_true] at hb
    rcases hb with (h1 | h2) | h3
    · rcases startsWith_head _ _ _ h1 with he | hh
      · exact absurd he (by decide)
      · exact h (by simpa using hh.symm)
    · rcases startsWith_head _ _ _ h2 with he | hh
      · exact absurd he (by decide)
      · exact h (by simpa using hh.symm)
    · rcases startsWith_head _ _ _ h3 with he | hh
      · exact absurd he (by decide)
      · exact h (by simpa using hh.symm)

/-- Prefixing both pattern and subject preserves `startsWith`. -/
theorem startsWith_append_both (q p s : Str) (h : strStartsWith p s = true) :
    strStartsWith (q ++ p) (q ++ s) = true := by
  obtain ⟨t, rfl⟩ := List.isPrefixOf_iff_prefix.mp h
  exact List.isPrefixOf_iff_prefix.mpr ⟨t, by rw [List.append_assoc]⟩

/-- One parse step on a property line inside a component: the line passes
through to `parseProperty`. -/
theorem parseStep_propline (acc : CalendarComponent)
    (out : List CalendarComponent) (line : Str) (c0 : Char)
    (h0 : line.head? = some c0) (hc0 : isJsWS c0 = false) (hB : c0 ≠ 'B')
    (hE : c0 ≠ 'E')
    (hlast : ∀ cl, line.getLast? = some cl → isJsWS cl = false) :
    parseStep ⟨some acc, true, out⟩ line =
      ⟨some (parseProperty line acc), true, out⟩ := by
  have ht : jsTrim line = line :=
    jsTrim_noop line (fun ch hch => by rw [h0] at hch; cases hch; exact hc0)
      hlast
  have hne : line ≠ [] := by
    intro he; rw [he] at h0; exact Option.noConfusion h0
  unfold parseStep
  simp only [ht]
  rw [if_neg (by simpa using hne),
    if_neg (by simp [isBeginLine_false line c0 h0 hB]),
    if_neg (by simp [isEndLine_false line c0 h0 hE])]
  simp

/-- One parse step on a BEGIN marker (for a recognised component type)
opens a fresh component carrying the right-trimmed type. -/
theorem parseStep_begin (cur0 : Option CalendarComponent) (inComp0 : Bool)
    (out0 : List CalendarComponent) (ct : Str) (hlf : '\n' ∉ ct)
    (hcol : (':' : Char) ∉ ct)
    (hpre : strStartsWith "VEVENT".data ct = true ∨
      strStartsWith "VTODO".data ct = true ∨
      strStartsWith "VJOURNAL".data ct = true) :
    parseStep ⟨cur0, inComp0, out0⟩ ("BEGIN:".data ++ ct) =
      ⟨some { componentType := some (trimRightWS ct) }, true, out0⟩ := by
  have htr : strStartsWith "VEVENT".data (trimRightWS ct) = true ∨
      strStartsWith "VTODO".data (trimRightWS ct) = true ∨
      strStartsWith "VJOURNAL".data (trimRightWS ct) = true := by
    rcases hpre with h | h | h
    · exact Or.inl (trimRightWS_keeps_pref _ _ h (by decide) (by decide)).1
    · exact Or.inr (Or.inl (trimRightWS_keeps_pref _ _ h (by decide) (by decide)).1)
    · exact Or.inr (Or.inr (trimRightWS_keeps_pref _ _ h (by decide) (by decide)).1)
  have htne : trimRightWS ct ≠ [] := by
    rcases hpre with h | h | h
    · exact (trimRightWS_keeps_pref _ _ h (by decide) (by decide)).2
    · exact (trimRightWS_keeps_pref _ _ h (by decide) (by decide)).2
    · exact (trimRightWS_keeps_pref _ _ h (by decide) (by decide)).2
  have ht : jsTrim ("BEGIN:".data ++ ct) = "BEGIN:".data ++ trimRightWS ct := by
    rw [jsTrim_eq_trimRight _ (fun ch hch => by
      rw [head?_append_left _ _ (by decide)] at hch
      have hb : 'B' = ch := by simpa using hch
      rw [← hb]; decide)]
    exact trimRightWS_append _ _ htne
  have hbeg : isBeginLine ("BEGIN:".data ++ trimRightWS ct) = true := by
    unfold isBeginLine
    rcases htr with h | h | h
    · have hs : strStartsWith "BEGIN:VEVENT".data
          ("BEGIN:".data ++ trimRightWS ct) = true :=
        startsWith_append_both "BEGIN:".data _ _ h
      rw [hs]
      simp
    · have hs : strStartsWith "BEGIN:VTODO".data
          ("BEGIN:".data ++ trimRightWS ct) = true :=
        startsWith_append_both "BEGIN:".data _ _ h
      rw [hs]
      simp
    · have hs : strStartsWith "BEGIN:VJOURNAL".data
          ("BEGIN:".data ++ trimRightWS ct) = true :=
        startsWith_append_both "BEGIN:".data _ _ h
      rw [hs]
      simp
  have hsplit : (splitChar ':' ("BEGIN:".data ++ trimRightWS ct)).get? 1 =
      some (trimRightWS ct) := by
    have hshape : ("BEGIN:".data ++ trimRightWS ct) =
        ("BEGIN".data ++ ':' :: trimRightWS ct) := rfl
    rw [hshape, splitChar_append _ _ _ (by decide),
      splitChar_no_sep _ _ (fun hm => hcol (mem_trimRightWS _ _ hm))]
    rfl
  unfold parseStep
  simp only [ht]
  rw [if_neg (by simp), if_pos hbeg, hsplit]

/-- One parse step on an END marker pushes the accumulated component when
its uid is truthy. -/
theorem parseStep_end (acc : CalendarComponent) (out : List CalendarComponent)
    (ct : Str) (hlf : '\n' ∉ ct)
    (hpre : strStartsWith "VEVENT".data ct = true ∨
      strStartsWith "VTODO".data ct = true ∨
      strStartsWith "VJOURNAL".data ct = true)
    (huid : strTruthy acc.uid = true) :
    parseStep ⟨some acc, true, out⟩ ("END:".data ++ ct) =
      ⟨none, false, out ++ [acc]⟩ := by
  have htr : strStartsWith "VEVENT".data (trimRightWS ct) = true ∨
      strStartsWith "VTODO".data (trimRightWS ct) = true ∨
      strStartsWith "VJOURNAL".data (trimRightWS ct) = true := by
    rcases hpre with h | h | h
    · exact Or.inl (trimRightWS_keeps_pref _ _ h (by decide) (by decide)).1
    · exact Or.inr (Or.inl (trimRightWS_keeps_pref _ _ h (by decide) (by decide)).1)
    · exact Or.inr (Or.inr (trimRightWS_keeps_pref _ _ h (by decide) (by decide)).1)
  have htne : trimRightWS ct ≠ [] := by
    rcases hpre with h | h | h
    · exact (trimRightWS_keeps_pref _ _ h (by decide) (by decide)).2
    · exact (trimRightWS_keeps_pref _ _ h (by decide) (by decide)).2
    · exact (trimRightWS_keeps_pref _ _ h (by decide) (by decide)).2
  have ht : jsTrim ("END:".data ++ ct) = "END:".data ++ trimRightWS ct := by
    rw [jsTrim_eq_trimRight _ (fun ch hch => by
      rw [head?_append_left _ _ (by decide)] at hch
      have he : 'E' = ch := by simpa using hch
      rw [← he]; decide)]
    exact trimRightWS_append _ _ htne
  have hend : isEndLine ("END:".data ++ trimRightWS ct) = true := by
    unfold isEndLine
    rcases htr with h | h | h
    · have hs : strStartsWith "END:VEVENT".data
          ("END:".data ++ trimRightWS ct) = true :=
        startsWith_append_both "END:".data _ _ h
      rw [hs]
      simp
    · have hs : strStartsWith "END:VTODO".data
          ("END:".data ++ trimRightWS ct) = true :=
        startsWith_append_both "END:".data _ _ h
      rw [hs]
      simp
    · have hs : strStartsWith "END:VJOURNAL".data
          ("END:".data ++ trimRightWS ct) = true :=
        startsWith_append_both "END:".data _ _ h
      rw [hs]
      simp
  have hnotbeg : isBeginLine ('E' :: 'N' :: 'D' :: ':' :: trimRightWS ct) =
      false :=
    isBeginLine_false _ 'E' rfl (by decide)
  have hend2 : isEndLine (['E', 'N', 'D', ':'] ++ trimRightWS ct) = true :=
    hend
  unfold parseStep
  simp only [ht]
  rw [if_neg (by simp), if_neg (by simp [hnotbeg]), if_pos hend2, huid]
  rfl

/-- `parseProperty` on a `UID:` line. -/
theorem parseProperty_uid (v : Str) (c : CalendarComponent) :
    parseProperty ("UID:".data ++ v) c = { c with uid := some v } := by
  have hshape : ("UID:".data ++ v) = ("UID".data ++ ':' :: v) := rfl
  unfold parseProperty
  rw [hshape, splitAtColon_append _ _ (by decide)]
  rfl

/-- `parseProperty` on a `SUMMARY:` line. -/
theorem parseProperty_summary (v : Str) (c : CalendarComponent) :
    parseProperty ("SUMMARY:".data ++ v) c = { c with summary := some (unescapeValue v) } := by
  have hshape : ("SUMMARY:".data ++ v) = ("SUMMARY".data ++ ':' :: v) := rfl
  unfold parseProperty
  rw [hshape, splitAtColon_append _ _ (by decide)]
  rfl

/-- `parseProperty` on a `DTSTART:` line. -/
theorem parseProperty_dtstart (v : Str) (c : CalendarComponent) :
    parseProperty ("DTSTART:".data ++ v) c = { c with dtstart := some v } := by
  have hshape : ("DTSTART:".data ++ v) = ("DTSTART".data ++ ':' :: v) := rfl
  unfold parseProperty
  rw [hshape, splitAtColon_append _ _ (by decide)]
  rfl

/-- `parseProperty` on a `DTEND:` line. -/
theorem parseProperty_dtend (v : Str) (c : CalendarComponent) :
    parseProperty ("DTEND:".data ++ v) c = { c with dtend := some v } := by
  have hshape : ("DTEND:".data ++ v) = ("DTEND".data ++ ':' :: v) := rfl
  unfold parseProperty
  rw [hshape, splitAtColon_append _ _ (by decide)]
  rfl

/-- `parseProperty` on a `DESCRIPTION:` line. -/
theorem parseProperty_description (v : Str) (c : CalendarComponent) :
    parseProperty ("DESCRIPTION:".data ++ v) c = { c with description := some (unescapeValue v) } := by
  have hshape : ("DESCRIPTION:".data ++ v) = ("DESCRIPTION".data ++ ':' :: v) := rfl
  unfold parseProperty
  rw [hshape, splitAtColon_append _ _ (by decide)]
  rfl

/-- `parseProperty` on a `LOCATION:` line. -/
theorem parseProperty_location (v : Str) (c : CalendarComponent) :
    parseProperty ("LOCATION:".data ++ v) c = { c with location := some (unescapeValue v) } := by
  have hshape : ("LOCATION:".data ++ v) = ("LOCATION".data ++ ':' :: v) := rfl
  unfold parseProperty
  rw [hshape, splitAtColon_append _ _ (by decide)]
  rfl

/-- `parseProperty` on a `STATUS:` line. -/
theorem parseProperty_status (v : Str) (c : CalendarComponent) :
    parseProperty ("STATUS:".data ++ v) c = { c with status := some (jsToUpper v) } := by
  have hshape : ("STATUS:".data ++ v) = ("STATUS".data ++ ':' :: v) := rfl
  unfold parseProperty
  rw [hshape, splitAtColon_append _ _ (by decide)]
  rfl

/-- `parseProperty` on a `PRIORITY:` line. -/
theorem parseProperty_priority (v : Str) (c : CalendarComponent) :
    parseProperty ("PRIORITY:".data ++ v) c = { c with priority := some (parseIntJS v) } := by
  have hshape : ("PRIORITY:".data ++ v) = ("PRIORITY".data ++ ':' :: v) := rfl
  unfold parseProperty
  rw [hshape, splitAtColon_append _ _ (by decide)]
  rfl

/-- `parseProperty` on a `CATEGORIES:` line. -/
theorem parseProperty_categories (v : Str) (c : CalendarComponent) :
    parseProperty ("CATEGORIES:".data ++ v) c = { c with categories := some ((splitUnescComma v).map (fun cat => unescapeValue (jsTrim cat))) } := by
  have hshape : ("CATEGORIES:".data ++ v) = ("CATEGORIES".data ++ ':' :: v) := rfl
  unfold parseProperty
  rw [hshape, splitAtColon_append _ _ (by decide)]
  rfl

/-- The comma join of strings with non-whitespace last characters ends in a
non-whitespace character. -/
theorem joinSep_comma_last (l : List Str)
    (h : ∀ x ∈ l, ∀ cl, x.getLast? = some cl → isJsWS cl = false) :
    ∀ cl, (joinSep ",".data l).getLast? = some cl → isJsWS cl = false := by
  induction l with
  | nil => intro cl hcl; exact Option.noConfusion hcl
  | cons x rest ih =>
    intro cl hcl
    cases hr : rest with
    | nil =>
      rw [hr] at hcl
      rw [joinSep] at hcl
      exact h x (by simp) cl hcl
    | cons y rest2 =>
      subst hr
      have hjoin : joinSep ",".data (x :: y :: rest2) =
          x ++ ',' :: joinSep ",".data (y :: rest2) := by
        rw [joinSep.eq_def]
        split
        · rename_i heq; exact absurd heq (by simp)
        · rename_i s heq
          rw [List.cons.injEq] at heq
          exact absurd heq.2 (by simp)
        · rename_i s r2 heq
          rw [List.cons.injEq] at heq
          rw [← heq.1, ← heq.2, List.append_assoc]
          rfl
      rw [hjoin, getLast?_append_right _ _ (by simp)] at hcl
      by_cases hj : joinSep ",".data (y :: rest2) = []
      · rw [hj] at hcl
        have : ',' = cl := by simpa using hcl
        rw [← this]
        decide
      · rw [getLast?_cons_of_ne _ _ hj] at hcl
        exact ih (fun z hz => h z (by simp [hz])) cl hcl

/-- The reparsed accumulator keeps a truthy uid. -/
theorem segsApply_uid (c : CalendarComponent) (h : strTruthy c.uid = true) :
    strTruthy (segsApply c).uid = true := by
  obtain ⟨u, hu, hune⟩ := (strTruthy_iff c.uid).mp h
  show strTruthy (if strTruthy c.uid = true then some (c.uid.getD []) else none) =
    true
  rw [if_pos h, hu]
  cases u with
  | nil => exact absurd rfl hune
  | cons u0 ut => rfl

/-- Folding the parser over the serialized lines of one component appends
exactly the reparsed component. -/
theorem parse_block (c : CalendarComponent) (hinv : ParseInv c)
    (out : List CalendarComponent) :
    List.foldl parseStep ⟨none, false, out⟩ (componentLines c) =
      ⟨none, false, out ++ [segsApply c]⟩ := by
  have hinv2 := hinv
  unfold ParseInv RawLineSafe at hinv2
  obtain ⟨⟨u, hu, hune, ⟨hulf, hulast⟩⟩, ⟨ctv, hct, hctne, hctlf, hctcol, hctpre⟩,
    hsum, hdesc, hloc, hstat, hcats⟩ := hinv2
  have hectv : effectiveCompType c = ctv := by
    unfold effectiveCompType
    rw [hct]
    cases ctv with
    | nil => exact absurd rfl hctne
    | cons t0 ts => rfl
  have hutr : strTruthy c.uid = true := by
    rw [hu]
    cases u with
    | nil => exact absurd rfl hune
    | cons u0 ut => rfl
  -- the per-line step facts
  have hstep_uid : ∀ a, strTruthy c.uid = true →
      parseStep ⟨some a, true, out⟩ ("UID:".data ++ c.uid.getD []) =
        ⟨some { a with uid := some (c.uid.getD []) }, true, out⟩ := by
    intro a _
    rw [parseStep_propline a out _ 'U' (by rw [hu]; rfl) (by decide) (by decide)
      (by decide) (by
        intro cl hcl
        rw [hu] at hcl
        rw [getLast?_append_right _ _ (by simpa using hune)] at hcl
        exact hulast cl (by simpa using hcl)), parseProperty_uid]
  have hstep_summary : ∀ a, strTruthy c.summary = true →
      parseStep ⟨some a, true, out⟩
          ("SUMMARY:".data ++ escapeValue (c.summary.getD [])) =
        ⟨some { a with summary := some (unescapeValue (escapeValue (c.summary.getD []))) }, true, out⟩ := by
    intro a hb
    obtain ⟨sv, hsv, hsvne⟩ := (strTruthy_iff c.summary).mp hb
    have hesc_ne : escapeValue (c.summary.getD []) ≠ [] := by
      rw [hsv]
      exact escapeValue_ne_nil _ (by simpa using hsvne)
    have hesc_last : ∀ cl,
        (escapeValue (c.summary.getD [])).getLast? = some cl →
          isJsWS cl = false := by
      rw [hsv]
      exact escapeValue_last _ (hsum sv hsv)
    rw [parseStep_propline a out _ 'S' (by rfl) (by decide) (by decide)
      (by decide) (by
        intro cl hcl
        rw [getLast?_append_right _ _ hesc_ne] at hcl
        exact hesc_last cl hcl), parseProperty_summary]
  have hstep_dtstart : ∀ a, strTruthy c.dtstart = true →
      parseStep ⟨some a, true, out⟩
          ("DTSTART:".data ++ filterDigitsTZ (c.dtstart.getD [])) =
        ⟨some { a with dtstart := some (filterDigitsTZ (c.dtstart.getD [])) }, true, out⟩ := by
    intro a _
    rw [parseStep_propline a out _ 'D' (by rfl) (by decide) (by decide)
      (by decide) (by
        intro cl hcl
        by_cases hf : filterDigitsTZ (c.dtstart.getD []) = []
        · rw [hf, List.append_nil] at hcl
          have : ':' = cl := by
            have := hcl
            simpa using this
          rw [← this]
          decide
        · rw [getLast?_append_right _ _ hf] at hcl
          exact filterDigitsTZ_mem cl _ (mem_of_getLast?Some _ cl hcl)),
      parseProperty_dtstart]
  have hstep_dtend : ∀ a, strTruthy c.dtend = true →
      parseStep ⟨some a, true, out⟩
          ("DTEND:".data ++ filterDigitsTZ (c.dtend.getD [])) =
        ⟨some { a with dtend := some (filterDigitsTZ (c.dtend.getD [])) }, true, out⟩ := by
    intro a _
    rw [parseStep_propline a out _ 'D' (by rfl) (by decide) (by decide)
      (by decide) (by
        intro cl hcl
        by_cases hf : filterDigitsTZ (c.dtend.getD []) = []
        · rw [hf, List.append_nil] at hcl
          have : ':' = cl := by
            have := hcl
            simpa using this
          rw [← this]
          decide
        · rw [getLast?_append_right _ _ hf] at hcl
          exact filterDigitsTZ_mem cl _ (mem_of_getLast?Some _ cl hcl)),
      parseProperty_dtend]
  have hstep_description : ∀ a, strTruthy c.description = true →
      parseStep ⟨some a, true, out⟩
          ("DESCRIPTION:".data ++ escapeValue (c.description.getD [])) =
        ⟨some { a with description := some (unescapeValue (escapeValue (c.description.getD []))) }, true, out⟩ := by
    intro a hb
    obtain ⟨sv, hsv, hsvne⟩ := (strTruthy_iff c.description).mp hb
    have hesc_ne : escapeValue (c.description.getD []) ≠ [] := by
      rw [hsv]
      exact escapeValue_ne_nil _ (by simpa using hsvne)
    have hesc_last : ∀ cl,
        (escapeValue (c.description.getD [])).getLast? = some cl →
          isJsWS cl = false := by
      rw [hsv]
      exact escapeValue_last _ (hdesc sv hsv)
    rw [parseStep_propline a out _ 'D' (by rfl) (by decide) (by decide)
      (by decide) (by
        intro cl hcl
        rw [getLast?_append_right _ _ hesc_ne] at hcl
        exact hesc_last cl hcl), parseProperty_description]
  have hstep_location : ∀ a, strTruthy c.location = true →
      parseStep ⟨some a, true, out⟩
          ("LOCATION:".data ++ escapeValue (c.location.getD [])) =
        ⟨some { a with location := some (unescapeValue (escapeValue (c.location.getD []))) }, true, out⟩ := by
    intro a hb
    obtain ⟨sv, hsv, hsvne⟩ := (strTruthy_iff c.location).mp hb
    have hesc_ne : escapeValue (c.location.getD []) ≠ [] := by
      rw [hsv]
      exact escapeValue_ne_nil _ (by simpa using hsvne)
    have hesc_last : ∀ cl,
        (escapeValue (c.location.getD [])).getLast? = some cl →
          isJsWS cl = false := by
      rw [hsv]
      exact escapeValue_last _ (hloc sv hsv)
    rw [parseStep_propline a out _ 'L' (by rfl) (by decide) (by decide)
      (by decide) (by
        intro cl hcl
        rw [getLast?_append_right _ _ hesc_ne] at hcl
        exact hesc_last cl hcl), parseProperty_location]
  have hstep_status : ∀ a, strTruthy c.status = true →
      parseStep ⟨some a, true, out⟩ ("STATUS:".data ++ c.status.getD []) =
        ⟨some { a with status := some (jsToUpper (c.status.getD [])) }, true, out⟩ := by
    intro a hb
    obtain ⟨sv, hsv, hsvne⟩ := (strTruthy_iff c.status).mp hb
    rw [parseStep_propline a out _ 'S' (by rfl) (by decide) (by decide)
      (by decide) (by
        intro cl hcl
        rw [hsv] at hcl
        rw [getLast?_append_right _ _ (by simpa using hsvne)] at hcl
        exact (hstat sv hsv).2 cl (by simpa using hcl)), parseProperty_status]
  have hstep_priority : ∀ a, priorityTruthy c.priority = true →
      parseStep ⟨some a, true, out⟩
          ("PRIORITY:".data ++ intToStr ((c.priority.getD none).getD 0)) =
        ⟨some { a with priority := some (parseIntJS (intToStr ((c.priority.getD none).getD 0))) }, true, out⟩ := by
    intro a _
    rw [parseStep_propline a out _ 'P' (by rfl) (by decide) (by decide)
      (by decide) (by
        intro cl hcl
        rw [getLast?_append_right _ _ (intToStr_ne_nil _)] at hcl
        exact intToStr_last _ cl hcl), parseProperty_priority]
  have hstep_cats : ∀ a, (c.categories.getD []).isEmpty = false →
      parseStep ⟨some a, true, out⟩
          ("CATEGORIES:".data ++
            joinSep ",".data ((c.categories.getD []).map escapeValue)) =
        ⟨some { a with categories := some ((splitUnescComma (joinSep ",".data ((c.categories.getD []).map escapeValue))).map (fun cat => unescapeValue (jsTrim cat))) }, true, out⟩ := by
    intro a _
    rw [parseStep_propline a out _ 'C' (by rfl) (by decide) (by decide)
      (by decide) (by
        intro cl hcl
        by_cases hj : joinSep ",".data ((c.categories.getD []).map escapeValue) = []
        · rw [hj, List.append_nil] at hcl
          have : ':' = cl := by
            have := hcl
            simpa using this
          rw [← this]
          decide
        · rw [getLast?_append_right _ _ hj] at hcl
          refine joinSep_comma_last _ ?_ cl hcl
          intro x hx cl2 hcl2
          obtain ⟨cat, hcat, rfl⟩ := List.mem_map.mp hx
          -- every category in the stored list is LastSafe
          rcases hc0 : c.categories with _ | l
          · rw [hc0] at hcat
            exact absurd hcat (by simp)
          · rw [hc0] at hcat
            exact escapeValue_last cat ((hcats l hc0).2 cat (by simpa using hcat))
              cl2 hcl2), parseProperty_categories]
  -- unfold the line list and walk it
  have hctlf2 : '\n' ∉ effectiveCompType c := by rw [hectv]; exact hctlf
  have hctcol2 : (':' : Char) ∉ effectiveCompType c := by
    rw [hectv]; exact hctcol
  have hctpre2 : strStartsWith "VEVENT".data (effectiveCompType c) = true ∨
      strStartsWith "VTODO".data (effectiveCompType c) = true ∨
      strStartsWith "VJOURNAL".data (effectiveCompType c) = true := by
    rw [hectv]; exact hctpre
  have hW1 : List.foldl parseStep (⟨some { componentType := some (trimRightWS (effectiveCompType c)) }, true, out⟩ : PState) (if strTruthy c.uid then [("UID:".data ++ c.uid.getD [])] else []) = ⟨some { componentType := some (trimRightWS (effectiveCompType c)), uid := if strTruthy c.uid then some (c.uid.getD []) else none }, true, out⟩ := by
    by_cases hb : strTruthy c.uid = true
    · rw [if_pos hb, List.foldl_cons, List.foldl_nil, hstep_uid _ hb]
      simp [hb]
    · rw [if_neg hb, List.foldl_nil]
      simp [hb]
  have hW2 : List.foldl parseStep (⟨some { componentType := some (trimRightWS (effectiveCompType c)), uid := if strTruthy c.uid then some (c.uid.getD []) else none }, true, out⟩ : PState) (if strTruthy c.summary then [("SUMMARY:".data ++ escapeValue (c.summary.getD []))] else []) = ⟨some { componentType := some (trimRightWS (effectiveCompType c)), uid := if strTruthy c.uid then some (c.uid.getD []) else none, summary := if strTruthy c.summary then some (unescapeValue (escapeValue (c.summary.getD []))) else none }, true, out⟩ := by
    by_cases hb : strTruthy c.summary = true
    · rw [if_pos hb, List.foldl_cons, List.foldl_nil, hstep_summary _ hb]
      simp [hb]
    · rw [if_neg hb, List.foldl_nil]
      simp [hb]
  have hW3 : List.foldl parseStep (⟨some { componentType := some (trimRightWS (effectiveCompType c)), uid := if strTruthy c.uid then some (c.uid.getD []) else none, summary := if strTruthy c.summary then some (unescapeValue (escapeValue (c.summary.getD []))) else none }, true, out⟩ : PState) (if strTruthy c.dtstart then [("DTSTART:".data ++ filterDigitsTZ (c.dtstart.getD []))] else []) = ⟨some { componentType := some (trimRightWS (effectiveCompType c)), uid := if strTruthy c.uid then some (c.uid.getD []) else none, summary := if strTruthy c.summary then some (unescapeValue (escapeValue (c.summary.getD []))) else none, dtstart := if strTruthy c.dtstart then some (filterDigitsTZ (c.dtstart.getD [])) else none }, true, out⟩ := by
    by_cases hb : strTruthy c.dtstart = true
    · rw [if_pos hb, List.foldl_cons, List.foldl_nil, hstep_dtstart _ hb]
      simp [hb]
    · rw [if_neg hb, List.foldl_nil]
      simp [hb]
  have hW4 : List.foldl parseStep (⟨some { componentType := some (trimRightWS (effectiveCompType c)), uid := if strTruthy c.uid then some (c.uid.getD []) else none, summary := if strTruthy c.summary then some (unescapeValue (escapeValue (c.summary.getD []))) else none, dtstart := if strTruthy c.dtstart then some (filterDigitsTZ (c.dtstart.getD [])) else none }, true, out⟩ : PState) (if strTruthy c.dtend then [("DTEND:".data ++ filterDigitsTZ (c.dtend.getD []))] else []) = ⟨some { componentType := some (trimRightWS (effectiveCompType c)), uid := if strTruthy c.uid then some (c.uid.getD []) else none, summary := if strTruthy c.summary then some (unescapeValue (escapeValue (c.summary.getD []))) else none, dtstart := if strTruthy c.dtstart then some (filterDigitsTZ (c.dtstart.getD [])) else none, dtend := if strTruthy c.dtend then some (filterDigitsTZ (c.dtend.getD [])) else none }, true, out⟩ := by
    by_cases hb : strTruthy c.dtend = true
    · rw [if_pos hb, List.foldl_cons, List.foldl_nil, hstep_dtend _ hb]
      simp [hb]
    · rw [if_neg hb, List.foldl_nil]
      simp [hb]
  have hW5 : List.foldl parseStep (⟨some { componentType := some (trimRightWS (effectiveCompType c)), uid := if strTruthy c.uid then some (c.uid.getD []) else none, summary := if strTruthy c.summary then some (unescapeValue (escapeValue (c.summary.getD []))) else none, dtstart := if strTruthy c.dtstart then some (filterDigitsTZ (c.dtstart.getD [])) else none, dtend := if strTruthy c.dtend then some (filterDigitsTZ (c.dtend.getD [])) else none }, true, out⟩ : PState) (if strTruthy c.description then [("DESCRIPTION:".data ++ escapeValue (c.description.getD []))] else []) = ⟨some { componentType := some (trimRightWS (effectiveCompType c)), uid := if strTruthy c.uid then some (c.uid.getD []) else none, summary := if strTruthy c.summary then some (unescapeValue (escapeValue (c.summary.getD []))) else none, dtstart := if strTruthy c.dtstart then some (filterDigitsTZ (c.dtstart.getD [])) else none, dtend := if strTruthy c.dtend then some (filterDigitsTZ (c.dtend.getD [])) else none, description := if strTruthy c.description then some (unescapeValue (escapeValue (c.description.getD []))) else none }, true, out⟩ := by
    by_cases hb : strTruthy c.description = true
    · rw [if_pos hb, List.foldl_cons, List.foldl_nil, hstep_description _ hb]
      simp [hb]
    · rw [if_neg hb, List.foldl_nil]
      simp [hb]
  have hW6 : List.foldl parseStep (⟨some { componentType := some (trimRightWS (effectiveCompType c)), uid := if strTruthy c.uid then some (c.uid.getD []) else none, summary := if strTruthy c.summary then some (unescapeValue (escapeValue (c.summary.getD []))) else none, dtstart := if strTruthy c.dtstart then some (filterDigitsTZ (c.dtstart.getD [])) else none, dtend := if strTruthy c.dtend then some (filterDigitsTZ (c.dtend.getD [])) else none, description := if strTruthy c.description then some (unescapeValue (escapeValue (c.description.getD []))) else none }, true, out⟩ : PState) (if strTruthy c.location then [("LOCATION:".data ++ escapeValue (c.location.getD []))] else []) = ⟨some { componentType := some (trimRightWS (effectiveCompType c)), uid := if strTruthy c.uid then some (c.uid.getD []) else none, summary := if strTruthy c.summary then some (unescapeValue (escapeValue (c.summary.getD []))) else none, dtstart := if strTruthy c.dtstart then some (filterDigitsTZ (c.dtstart.getD [])) else none, dtend := if strTruthy c.dtend then some (filterDigitsTZ (c.dtend.getD [])) else none, description := if strTruthy c.description then some (unescapeValue (escapeValue (c.description.getD []))) else none, location := if strTruthy c.location then some (unescapeValue (escapeValue (c.location.getD []))) else none }, true, out⟩ := by
    by_cases hb : strTruthy c.location = true
    · rw [if_pos hb, List.foldl_cons, List.foldl_nil, hstep_location _ hb]
      simp [hb]
    · rw [if_neg hb, List.foldl_nil]
      simp [hb]
  have hW7 : List.foldl parseStep (⟨some { componentType := some (trimRightWS (effectiveCompType c)), uid := if strTruthy c.uid then some (c.uid.getD []) else none, summary := if strTruthy c.summary then some (unescapeValue (escapeValue (c.summary.getD []))) else none, dtstart := if strTruthy c.dtstart then some (filterDigitsTZ (c.dtstart.getD [])) else none, dtend := if strTruthy c.dtend then some (filterDigitsTZ (c.dtend.getD [])) else none, description := if strTruthy c.description then some (unescapeValue (escapeValue (c.description.getD []))) else none, location := if strTruthy c.location then some (unescapeValue (escapeValue (c.location.getD []))) else none }, true, out⟩ : PState) (if strTruthy c.status then [("STATUS:".data ++ c.status.getD [])] else []) = ⟨some { componentType := some (trimRightWS (effectiveCompType c)), uid := if strTruthy c.uid then some (c.uid.getD []) else none, summary := if strTruthy c.summary then some (unescapeValue (escapeValue (c.summary.getD []))) else none, dtstart := if strTruthy c.dtstart then some (filterDigitsTZ (c.dtstart.getD [])) else none, dtend := if strTruthy c.dtend then some (filterDigitsTZ (c.dtend.getD [])) else none, description := if strTruthy c.description then some (unescapeValue (escapeValue (c.description.getD []))) else none, location := if strTruthy c.location then some (unescapeValue (escapeValue (c.location.getD []))) else none, status := if strTruthy c.status then some (jsToUpper (c.status.getD [])) else none }, true, out⟩ := by
    by_cases hb : strTruthy c.status = true
    · rw [if_pos hb, List.foldl_cons, List.foldl_nil, hstep_status _ hb]
      simp [hb]
    · rw [if_neg hb, List.foldl_nil]
      simp [hb]
  have hW8 : List.foldl parseStep (⟨some { componentType := some (trimRightWS (effectiveCompType c)), uid := if strTruthy c.uid then some (c.uid.getD []) else none, summary := if strTruthy c.summary then some (unescapeValue (escapeValue (c.summary.getD []))) else none, dtstart := if strTruthy c.dtstart then some (filterDigitsTZ (c.dtstart.getD [])) else none, dtend := if strTruthy c.dtend then some (filterDigitsTZ (c.dtend.getD [])) else none, description := if strTruthy c.description then some (unescapeValue (escapeValue (c.description.getD []))) else none, location := if strTruthy c.location then some (unescapeValue (escapeValue (c.location.getD []))) else none, status := if strTruthy c.status then some (jsToUpper (c.status.getD [])) else none }, true, out⟩ : PState) (if priorityTruthy c.priority then [("PRIORITY:".data ++ intToStr ((c.priority.getD none).getD 0))] else []) = ⟨some { componentType := some (trimRightWS (effectiveCompType c)), uid := if strTruthy c.uid then some (c.uid.getD []) else none, summary := if strTruthy c.summary then some (unescapeValue (escapeValue (c.summary.getD []))) else none, dtstart := if strTruthy c.dtstart then some (filterDigitsTZ (c.dtstart.getD [])) else none, dtend := if strTruthy c.dtend then some (filterDigitsTZ (c.dtend.getD [])) else none, description := if strTruthy c.description then some (unescapeValue (escapeValue (c.description.getD []))) else none, location := if strTruthy c.location then some (unescapeValue (escapeValue (c.location.getD []))) else none, status := if strTruthy c.status then some (jsToUpper (c.status.getD [])) else none, priority := if priorityTruthy c.priority then some (parseIntJS (intToStr ((c.priority.getD none).getD 0))) else none }, true, out⟩ := by
    by_cases hb : priorityTruthy c.priority = true
    · rw [if_pos hb, List.foldl_cons, List.foldl_nil, hstep_priority _ hb]
      simp [hb]
    · rw [if_neg hb, List.foldl_nil]
      simp [hb]
  have hW9 : List.foldl parseStep (⟨some { componentType := some (trimRightWS (effectiveCompType c)), uid := if strTruthy c.uid then some (c.uid.getD []) else none, summary := if strTruthy c.summary then some (unescapeValue (escapeValue (c.summary.getD []))) else none, dtstart := if strTruthy c.dtstart then some (filterDigitsTZ (c.dtstart.getD [])) else none, dtend := if strTruthy c.dtend then some (filterDigitsTZ (c.dtend.getD [])) else none, description := if strTruthy c.description then some (unescapeValue (escapeValue (c.description.getD []))) else none, location := if strTruthy c.location then some (unescapeValue (escapeValue (c.location.getD []))) else none, status := if strTruthy c.status then some (jsToUpper (c.status.getD [])) else none, priority := if priorityTruthy c.priority then some (parseIntJS (intToStr ((c.priority.getD none).getD 0))) else none }, true, out⟩ : PState) (if (c.categories.getD []).isEmpty then [] else [("CATEGORIES:".data ++ joinSep ",".data ((c.categories.getD []).map escapeValue))]) = ⟨some { componentType := some (trimRightWS (effectiveCompType c)), uid := if strTruthy c.uid then some (c.uid.getD []) else none, summary := if strTruthy c.summary then some (unescapeValue (escapeValue (c.summary.getD []))) else none, dtstart := if strTruthy c.dtstart then some (filterDigitsTZ (c.dtstart.getD [])) else none, dtend := if strTruthy c.dtend then some (filterDigitsTZ (c.dtend.getD [])) else none, description := if strTruthy c.description then some (unescapeValue (escapeValue (c.description.getD []))) else none, location := if strTruthy c.location then some (unescapeValue (escapeValue (c.location.getD []))) else none, status := if strTruthy c.status then some (jsToUpper (c.status.getD [])) else none, priority := if priorityTruthy c.priority then some (parseIntJS (intToStr ((c.priority.getD none).getD 0))) else none, categories := if (c.categories.getD []).isEmpty then none else some ((splitUnescComma (joinSep ",".data ((c.categories.getD []).map escapeValue))).map (fun cat => unescapeValue (jsTrim cat))) }, true, out⟩ := by
    by_cases hb : (c.categories.getD []).isEmpty = true
    · rw [if_pos hb, List.foldl_nil]
      simp [hb]
    · rw [if_neg hb, List.foldl_cons, List.foldl_nil, hstep_cats _ (by simpa using hb)]
      simp [hb]
  simp only [componentLines]
  rw [List.cons_append, List.foldl_cons,
    parseStep_begin _ _ _ _ hctlf2 hctcol2 hctpre2]
  simp only [List.foldl_append]
  rw [hW1, hW2, hW3, hW4, hW5, hW6, hW7, hW8, hW9,
    List.foldl_cons, List.foldl_nil]
  show parseStep ⟨some (segsApply c), true, out⟩
      ("END:".data ++ effectiveCompType c) =
    ⟨none, false, out ++ [segsApply c]⟩
  exact parseStep_end (segsApply c) out (effectiveCompType c) hctlf2 hctpre2
    (segsApply_uid c hutr)

/-- `joinSep` on a two-or-more list. -/
theorem joinSep_cons₂ (sep : Str) (x y : Str) (rest : List Str) :
    joinSep sep (x :: y :: rest) = x ++ sep ++ joinSep sep (y :: rest) := rfl

/-- Members of a separator join come from the separator or an element. -/
theorem mem_joinSep (sep : Str) (l : List Str) (x : Char)
    (h : x ∈ joinSep sep l) : x ∈ sep ∨ ∃ s ∈ l, x ∈ s := by
  induction l with
  | nil => exact absurd h (by simp [joinSep])
  | cons a rest ih =>
    cases hr : rest with
    | nil =>
      rw [hr, joinSep] at h
      exact Or.inr ⟨a, by simp, h⟩
    | cons y rest2 =>
      subst hr
      rw [joinSep_cons₂] at h
      rcases List.mem_append.mp h with h1 | h2
      · rcases List.mem_append.mp h1 with h3 | h4
        · exact Or.inr ⟨a, by simp, h3⟩
        · exact Or.inl h4
      · rcases ih h2 with h5 | ⟨s, hs, hx⟩
        · exact Or.inl h5
        · exact Or.inr ⟨s, by simp [hs], hx⟩

/-- Membership in a guarded singleton. -/
theorem mem_ite_singleton (b : Prop) [Decidable b] (x l : Str)
    (h : l ∈ (if b then [x] else ([] : List Str))) : l = x ∧ b := by
  split at h
  · exact ⟨by simpa using h, by assumption⟩
  · exact absurd h (by simp)

/-- Membership in a negatively guarded singleton. -/
theorem mem_ite_singleton_neg (b : Prop) [Decidable b] (x l : Str)
    (h : l ∈ (if b then ([] : List Str) else [x])) : l = x ∧ ¬b := by
  split at h
  · exact absurd h (by simp)
  · exact ⟨by simpa using h, by assumption⟩

/-- Every serialized line of a well-formed component is non-empty, free of
line feeds, and starts with a non-foldable character. -/
theorem componentLines_good (c : CalendarComponent) (hinv : ParseInv c) :
    ∀ l ∈ componentLines c,
      '\n' ∉ l ∧ ∃ h0 t0, l = h0 :: t0 ∧ isSpaceTab h0 = false := by
  have hinv2 := hinv
  unfold ParseInv RawLineSafe at hinv2
  obtain ⟨⟨u, hu, hune, ⟨hulf, hulast⟩⟩, ⟨ctv, hct, hctne, hctlf, hctcol, hctpre⟩,
    hsum, hdesc, hloc, hstat, hcats⟩ := hinv2
  have hectv : effectiveCompType c = ctv := by
    unfold effectiveCompType
    rw [hct]
    cases ctv with
    | nil => exact absurd rfl hctne
    | cons t0 ts => rfl
  intro l hl
  simp only [componentLines, hectv] at hl
  rcases List.mem_cons.mp hl with rfl | hm
  · -- the BEGIN line
    refine ⟨?_, 'B', "EGIN:".data ++ ctv, rfl, by decide⟩
    intro hnl
    rcases List.mem_append.mp hnl with h1 | h2
    · exact absurd h1 (by decide)
    · exact hctlf h2
  rcases List.mem_append.mp hm with hm1 | hm2
  swap
  · -- the END line
    have hle : l = "END:".data ++ ctv := by simpa using hm2
    subst hle
    refine ⟨?_, 'E', "ND:".data ++ ctv, rfl, by decide⟩
    intro hnl
    rcases List.mem_append.mp hnl with h1 | h2
    · exact absurd h1 (by decide)
    · exact hctlf h2
  rcases List.mem_append.mp hm1 with hm2 | hseg
  swap
  · -- the CATEGORIES line
    obtain ⟨rfl, hb⟩ := mem_ite_singleton_neg _ _ _ hseg
    refine ⟨?_, 'C',
      "ATEGORIES:".data ++
        joinSep ",".data ((c.categories.getD []).map escapeValue), rfl,
      by decide⟩
    intro hnl
    rcases List.mem_append.mp hnl with h1 | h2
    · exact absurd h1 (by decide)
    · rcases mem_joinSep _ _ _ h2 with h3 | ⟨e, he, hx⟩
      · exact absurd h3 (by decide)
      · obtain ⟨cat, hcat, rfl⟩ := List.mem_map.mp he
        exact (escapeValue_no_nl cat).1 hx
  rcases List.mem_append.mp hm2 with hm3 | hseg
  swap
  · -- the PRIORITY line
    obtain ⟨rfl, hb⟩ := mem_ite_singleton _ _ _ hseg
    refine ⟨?_, 'P',
      "RIORITY:".data ++ intToStr ((c.priority.getD none).getD 0), rfl,
      by decide⟩
    intro hnl
    rcases List.mem_append.mp hnl with h1 | h2
    · exact absurd h1 (by decide)
    · exact intToStr_no_lf _ h2
  rcases List.mem_append.mp hm3 with hm4 | hseg
  swap
  · -- the STATUS line
    obtain ⟨rfl, hb⟩ := mem_ite_singleton _ _ _ hseg
    obtain ⟨sv, hsv, hsvne⟩ := (strTruthy_iff c.status).mp hb
    refine ⟨?_, 'S', "TATUS:".data ++ c.status.getD [], rfl, by decide⟩
    intro hnl
    rcases List.mem_append.mp hnl with h1 | h2
    · exact absurd h1 (by decide)
    · rw [hsv] at h2
      exact (hstat sv hsv).1 (by simpa using h2)
  rcases List.mem_append.mp hm4 with hm5 | hseg
  swap
  · -- the LOCATION line
    obtain ⟨rfl, hb⟩ := mem_ite_singleton _ _ _ hseg
    refine ⟨?_, 'L', "OCATION:".data ++ escapeValue (c.location.getD []), rfl,
      by decide⟩
    intro hnl
    rcases List.mem_append.mp hnl with h1 | h2
    · exact absurd h1 (by decide)
    · exact (escapeValue_no_nl _).1 h2
  rcases List.mem_append.mp hm5 with hm6 | hseg
  swap
  · -- the DESCRIPTION line
    obtain ⟨rfl, hb⟩ := mem_ite_singleton _ _ _ hseg
    refine ⟨?_, 'D', "ESCRIPTION:".data ++ escapeValue (c.description.getD []),
      rfl, by decide⟩
    intro hnl
    rcases List.mem_append.mp hnl with h1 | h2
    · exact absurd h1 (by decide)
    · exact (escapeValue_no_nl _).1 h2
  rcases List.mem_append.mp hm6 with hm7 | hseg
  swap
  · -- the DTEND line
    obtain ⟨rfl, hb⟩ := mem_ite_singleton _ _ _ hseg
    refine ⟨?_, 'D', "TEND:".data ++ filterDigitsTZ (c.dtend.getD []), rfl,
      by decide⟩
    intro hnl
    rcases List.mem_append.mp hnl with h1 | h2
    · exact absurd h1 (by decide)
    · exact absurd (filterDigitsTZ_mem _ _ h2) (by decide)
  rcases List.mem_append.mp hm7 with hm8 | hseg
  swap
  · -- the DTSTART line
    obtain ⟨rfl, hb⟩ := mem_ite_singleton _ _ _ hseg
    refine ⟨?_, 'D', "TSTART:".data ++ filterDigitsTZ (c.dtstart.getD []), rfl,
      by decide⟩
    intro hnl
    rcases List.mem_append.mp hnl with h1 | h2
    · exact absurd h1 (by decide)
    · exact absurd (filterDigitsTZ_mem _ _ h2) (by decide)
  rcases List.mem_append.mp hm8 with hseg | hseg
  · -- the UID line
    obtain ⟨rfl, hb⟩ := mem_ite_singleton _ _ _ hseg
    refine ⟨?_, 'U', "ID:".data ++ c.uid.getD [], rfl, by decide⟩
    intro hnl
    rcases List.mem_append.mp hnl with h1 | h2
    · exact absurd h1 (by decide)
    · rw [hu] at h2
      exact hulf (by simpa using h2)
  · -- the SUMMARY line
    obtain ⟨rfl, hb⟩ := mem_ite_singleton _ _ _ hseg
    refine ⟨?_, 'S', "UMMARY:".data ++ escapeValue (c.summary.getD []), rfl,
      by decide⟩
    intro hnl
    rcases List.mem_append.mp hnl with h1 | h2
    · exact absurd h1 (by decide)
    · exact (escapeValue_no_nl _).1 h2

/-- The parser ignores the closing `END:VCALENDAR` line. -/
theorem parseStep_endcal (out : List CalendarComponent) :
    parseStep ⟨none, false, out⟩ ("END:VCALENDAR".data) = ⟨none, false, out⟩ := by
  unfold parseStep
  rw [show jsTrim ("END:VCALENDAR".data) = "END:VCALENDAR".data from by decide]
  rw [if_neg (by decide), if_neg (by decide), if_neg (by decide)]
  rfl

/-- Folding the parser over the serialized component blocks plus the final
calendar close emits exactly the reparsed components in order. -/
theorem parse_blocks (comps : List CalendarComponent)
    (hinv : ∀ c ∈ comps, ParseInv c) (out : List CalendarComponent) :
    List.foldl parseStep ⟨none, false, out⟩
        (comps.flatMap componentLines ++ ["END:VCALENDAR".data]) =
      ⟨none, false, out ++ comps.map segsApply⟩ := by
  induction comps generalizing out with
  | nil =>
    rw [List.flatMap_nil, List.nil_append, List.foldl_cons, List.foldl_nil]
    simpa using parseStep_endcal out
  | cons c cs ih =>
    rw [List.flatMap_cons, List.append_assoc, List.foldl_append,
      parse_block c (hinv c (by simp)) out,
      ih (fun x hx => hinv x (by simp [hx]))]
    simp

/-- The serialize-then-reparse master lemma: for components satisfying the
parse invariants, re-parsing the serialization yields `segsApply` of each. -/
theorem serialize_reparse (comps : List CalendarComponent)
    (hinv : ∀ c ∈ comps, ParseInv c) :
    parseICalendarData (componentsToICalendar comps) = comps.map segsApply := by
  unfold parseICalendarData componentsToICalendar
  have hgood : ∀ l ∈ componentsToICalendarLines comps,
      '\n' ∉ l ∧ ∃ h0 t0, l = h0 :: t0 ∧ isSpaceTab h0 = false := by
    intro l hl
    unfold componentsToICalendarLines at hl
    rcases List.mem_append.mp hl with h1 | h2
    · rcases List.mem_append.mp h1 with h3 | h4
      · simp only [List.mem_cons, List.mem_singleton] at h3
        rcases h3 with rfl | rfl | h3
        · exact ⟨by decide, 'B', "EGIN:VCALENDAR".data, rfl, by decide⟩
        · exact ⟨by decide, 'V', "ERSION:2.0".data, rfl, by decide⟩
        · rcases h3 with rfl | h3
          · exact ⟨by decide, 'P', "RODID:-//MCP CalDAV Server//EN".data, rfl,
              by decide⟩
          · exact absurd h3 (by simp)
      · obtain ⟨c, hc, hlc⟩ := List.mem_flatMap.mp h4
        exact componentLines_good c (hinv c hc) l hlc
    · have hle : l = "END:VCALENDAR".data := by simpa using h2
      subst hle
      exact ⟨by decide, 'E', "ND:VCALENDAR".data, rfl, by decide⟩
  rw [unfoldData_joinCRLF _ hgood,
    splitLines_joinCRLF _ (fun l hl => (hgood l hl).1)
      (by simp [componentsToICalendarLines])]
  unfold componentsToICalendarLines
  rw [List.append_assoc, List.foldl_append]
  rw [show List.foldl parseStep ⟨none, false, []⟩
      ("BEGIN:VCALENDAR".data :: "VERSION:2.0".data ::
        ["PRODID:-//MCP CalDAV Server//EN".data]) = ⟨none, false, []⟩ from
    by decide]
  rw [parse_blocks comps hinv []]
  rfl



/-- Characters of a trimmed string come from the original. -/
theorem mem_jsTrim (x : Char) (s : Str) (h : x ∈ jsTrim s) : x ∈ s := by
  unfold jsTrim at h
  rw [List.mem_reverse] at h
  have h2 := (List.dropWhile_sublist
    (l := (s.dropWhile isJsWS).reverse) (p := isJsWS)).mem h
  rw [List.mem_reverse] at h2
  exact (List.dropWhile_sublist (l := s) (p := isJsWS)).mem h2

/-- The last character of a trimmed string is non-whitespace. -/
theorem jsTrim_getLast (s : Str) (cl : Char)
    (h : (jsTrim s).getLast? = some cl) : isJsWS cl = false := by
  unfold jsTrim at h
  rw [List.getLast?_reverse] at h
  exact head?_dropWhile_false _ _ _ h

/-- `jsTrim_getLast` in forall form. -/
theorem jsTrim_getLast' (s : Str) :
    ∀ cl, (jsTrim s).getLast? = some cl → isJsWS cl = false :=
  fun cl h => jsTrim_getLast s cl h

/-- `splitAtColon` decomposes its input at the first colon. -/
theorem splitAtColon_decomp (t p v : Str) (h : splitAtColon t = some (p, v)) :
    t = p ++ ':' :: v ∧ (':' : Char) ∉ p := by
  induction t generalizing p with
  | nil => exact absurd h (by simp [splitAtColon])
  | cons c rest ih =>
    rw [splitAtColon] at h
    by_cases hc : c = ':'
    · rw [if_pos hc] at h
      simp only [Option.some.injEq, Prod.mk.injEq] at h
      rw [← h.1, ← h.2, hc]
      exact ⟨rfl, by simp⟩
    · rw [if_neg hc] at h
      cases hs : splitAtColon rest with
      | none => rw [hs] at h; exact Option.noConfusion h
      | some pr =>
        obtain ⟨p2, v2⟩ := pr
        have h3 : some (c :: p2, v2) = some (p, v) := by rw [hs] at h; exact h
        rw [Option.some.injEq, Prod.mk.injEq] at h3
        obtain ⟨h1, h2⟩ := h3
        obtain ⟨hd, hn⟩ := ih p2 (by rw [hs, h2])
        constructor
        · rw [← h1, List.cons_append, hd]
        · rw [← h1]
          intro hm
          rcases List.mem_cons.mp hm with he | hm2
          · exact hc he.symm
          · exact hn hm2

/-- The first segment of `splitChar` extends a separator-free prefix with
characters of the remainder. -/
theorem splitChar_head_append (sep : Char) (a s : Str) (ha : sep ∉ a) :
    ∃ p rest2, splitChar sep (a ++ s) = (a ++ p) :: rest2 ∧ sep ∉ p ∧
      ∀ x ∈ p, x ∈ s := by
  induction a with
  | nil =>
    simp only [List.nil_append]
    induction s with
    | nil => exact ⟨[], [], rfl, by simp, by simp⟩
    | cons c s2 ih2 =>
      by_cases hc : c = sep
      · exact ⟨[], splitChar sep s2, by rw [splitChar, if_pos hc], by simp,
          by simp⟩
      · obtain ⟨p, rest2, hsp, hnp, hsub⟩ := ih2
        refine ⟨c :: p, rest2, ?_, ?_, ?_⟩
        · rw [splitChar, if_neg hc, hsp]
        · intro hm
          rcases List.mem_cons.mp hm with he | hm2
          · exact hc he.symm
          · exact hnp hm2
        · intro x hx
          rcases List.mem_cons.mp hx with he | hm2
          · simp [he]
          · simp [hsub x hm2]
  | cons c a2 ih =>
    have hc : ¬c = sep := by rintro rfl; exact ha (by simp)
    obtain ⟨p, rest2, hsp, hnp, hsub⟩ := ih (fun hm => ha (by simp [hm]))
    exact ⟨p, rest2, by rw [List.cons_append, splitChar, if_neg hc, hsp]; rfl,
      hnp, hsub⟩


/-- Updating the uid with a line-safe value preserves the invariant. -/
theorem PartialInv_set_uid (a : CalendarComponent) (v : Str)
    (ha : PartialInv a) (hv : RawLineSafe v) :
    PartialInv { a with uid := some v } := by
  obtain ⟨h1, h2, h3, h4, h5, h6, h7⟩ := ha
  exact ⟨fun u hu => by injection (show some v = some u from hu) with he; exact he ▸ hv,
    h2, h3, h4, h5, h6, h7⟩

/-- Updating the summary with a last-safe value preserves the invariant. -/
theorem PartialInv_set_summary (a : CalendarComponent) (v : Str)
    (ha : PartialInv a) (hv : LastSafe v) :
    PartialInv { a with summary := some v } := by
  obtain ⟨h1, h2, h3, h4, h5, h6, h7⟩ := ha
  exact ⟨h1, h2,
    fun u hu => by injection (show some v = some u from hu) with he; exact he ▸ hv,
    h4, h5, h6, h7⟩

/-- Updating the description with a last-safe value preserves the
invariant. -/
theorem PartialInv_set_description (a : CalendarComponent) (v : Str)
    (ha : PartialInv a) (hv : LastSafe v) :
    PartialInv { a with description := some v } := by
  obtain ⟨h1, h2, h3, h4, h5, h6, h7⟩ := ha
  exact ⟨h1, h2, h3,
    fun u hu => by injection (show some v = some u from hu) with he; exact he ▸ hv,
    h5, h6, h7⟩

/-- Updating the location with a last-safe value preserves the invariant. -/
theorem PartialInv_set_location (a : CalendarComponent) (v : Str)
    (ha : PartialInv a) (hv : LastSafe v) :
    PartialInv { a with location := some v } := by
  obtain ⟨h1, h2, h3, h4, h5, h6, h7⟩ := ha
  exact ⟨h1, h2, h3, h4,
    fun u hu => by injection (show some v = some u from hu) with he; exact he ▸ hv,
    h6, h7⟩

/-- Updating the status with a line-safe value preserves the invariant. -/
theorem PartialInv_set_status (a : CalendarComponent) (v : Str)
    (ha : PartialInv a) (hv : RawLineSafe v) :
    PartialInv { a with status := some v } := by
  obtain ⟨h1, h2, h3, h4, h5, h6, h7⟩ := ha
  exact ⟨h1, h2, h3, h4, h5,
    fun u hu => by injection (show some v = some u from hu) with he; exact he ▸ hv,
    h7⟩

/-- Updating the categories with a non-empty last-safe list preserves the
invariant. -/
theorem PartialInv_set_categories (a : CalendarComponent) (l : List Str)
    (ha : PartialInv a) (hl : l ≠ [] ∧ ∀ cat ∈ l, LastSafe cat) :
    PartialInv { a with categories := some l } := by
  obtain ⟨h1, h2, h3, h4, h5, h6, h7⟩ := ha
  exact ⟨h1, h2, h3, h4, h5, h6,
    fun u hu => by injection (show some l = some u from hu) with he; exact he ▸ hl⟩

/-- Updating the dtstart preserves the invariant (no condition tracked). -/
theorem PartialInv_set_dtstart (a : CalendarComponent) (v : Str)
    (ha : PartialInv a) : PartialInv { a with dtstart := some v } := by
  obtain ⟨h1, h2, h3, h4, h5, h6, h7⟩ := ha
  exact ⟨h1, h2, h3, h4, h5, h6, h7⟩

/-- Updating the dtend preserves the invariant. -/
theorem PartialInv_set_dtend (a : CalendarComponent) (v : Str)
    (ha : PartialInv a) : PartialInv { a with dtend := some v } := by
  obtain ⟨h1, h2, h3, h4, h5, h6, h7⟩ := ha
  exact ⟨h1, h2, h3, h4, h5, h6, h7⟩

/-- Updating the priority preserves the invariant. -/
theorem PartialInv_set_priority (a : CalendarComponent) (v : Option Int)
    (ha : PartialInv a) : PartialInv { a with priority := some v } := by
  obtain ⟨h1, h2, h3, h4, h5, h6, h7⟩ := ha
  exact ⟨h1, h2, h3, h4, h5, h6, h7⟩

/-- Updating the extension properties preserves the invariant. -/
theorem PartialInv_set_extras (a : CalendarComponent) (e : List (Str × Str))
    (ha : PartialInv a) : PartialInv { a with extras := e } := by
  obtain ⟨h1, h2, h3, h4, h5, h6, h7⟩ := ha
  exact ⟨h1, h2, h3, h4, h5, h6, h7⟩

/-- `parseProperty` preserves the partial invariant on any trimmed,
line-feed-free line. -/
theorem parseProperty_inv (t : Str) (a : CalendarComponent)
    (hlf : '\n' ∉ t)
    (hlast : ∀ cl, t.getLast? = some cl → isJsWS cl = false)
    (ha : PartialInv a) : PartialInv (parseProperty t a) := by
  unfold parseProperty
  cases hs : splitAtColon t with
  | none => exact ha
  | some pr =>
    obtain ⟨propPart, value⟩ := pr
    obtain ⟨hdec, hncol⟩ := splitAtColon_decomp t propPart value hs
    have hvlf : '\n' ∉ value := by
      intro hm
      exact hlf (by rw [hdec]; simp [hm])
    have hvlast : ∀ cl, value.getLast? = some cl → isJsWS cl = false := by
      intro cl hcl
      apply hlast
      rw [hdec, getLast?_append_right _ _ (by simp),
        getLast?_cons_of_ne _ _ (by
          intro he
          rw [he] at hcl
          exact Option.noConfusion hcl)]
      exact hcl
    have hvraw : RawLineSafe value := ⟨hvlf, hvlast⟩
    have hvunesc : LastSafe (unescapeValue value) := by
      intro cl hcl
      rcases unescapeValue_last value hvlast cl hcl with h1 | h2
      · exact Or.inl h1
      · exact Or.inr (Or.inl h2)
    have hcatssafe : ((splitUnescComma value).map
        (fun cat => unescapeValue (jsTrim cat))) ≠ [] ∧
        ∀ cat ∈ ((splitUnescComma value).map
          (fun cat => unescapeValue (jsTrim cat))), LastSafe cat := by
      constructor
      · intro he
        have hlen := congrArg List.length he
        simp only [List.length_map, List.length_nil] at hlen
        exact splitUnescCommaGo_ne_nil [] value (List.length_eq_zero.mp hlen)
      · intro cat hcat
        obtain ⟨part, hpart, rfl⟩ := List.mem_map.mp hcat
        intro cl hcl
        rcases unescapeValue_last (jsTrim part) (jsTrim_getLast' part) cl hcl
          with h1 | h2
        · exact Or.inl h1
        · exact Or.inr (Or.inl h2)
    have hstatus : RawLineSafe (jsToUpper value) :=
      ⟨jsToUpper_no_lf value hvlf, jsToUpper_last value hvlast⟩
    dsimp only
    split
    · exact PartialInv_set_uid _ _ ha hvraw
    · split
      · exact PartialInv_set_summary _ _ ha hvunesc
      · split
        · exact PartialInv_set_dtstart _ _ ha
        · split
          · exact PartialInv_set_dtend _ _ ha
          · split
            · exact PartialInv_set_categories _ _ ha hcatssafe
            · split
              · exact PartialInv_set_status _ _ ha hstatus
              · split
                · exact PartialInv_set_priority _ _ ha
                · split
                  · exact PartialInv_set_description _ _ ha hvunesc
                  · split
                    · exact PartialInv_set_location _ _ ha hvunesc
                    · exact PartialInv_set_extras _ _ ha

/-- A recognised `BEGIN:` marker yields a well-formed component type in the
second colon segment. -/
theorem beginMarker_ct (m t : Str) (hlf : '\n' ∉ t) (hne : m ≠ [])
    (hmcol : (':' : Char) ∉ m)
    (h : strStartsWith ("BEGIN:".data ++ m) t = true) :
    ∃ ct, (splitChar ':' t).get? 1 = some ct ∧ ct ≠ [] ∧ '\n' ∉ ct ∧
      (':' : Char) ∉ ct ∧ strStartsWith m ct = true := by
  obtain ⟨r, hr⟩ := List.isPrefixOf_iff_prefix.mp h
  subst hr
  have hshape : ("BEGIN:".data ++ m) ++ r =
      "BEGIN".data ++ ':' :: (m ++ r) := by
    rw [List.append_assoc]
    rfl
  rw [hshape, splitChar_append ':' _ _ (by decide)]
  obtain ⟨p, rest2, hsp, hnp, hsub⟩ := splitChar_head_append ':' m r hmcol
  rw [hsp]
  refine ⟨m ++ p, rfl, by simp [hne], ?_, ?_, isPrefixOf_append_self m p⟩
  · intro hm2
    rcases List.mem_append.mp hm2 with h1 | h2
    · exact hlf (by
        rw [hshape]
        simp [h1])
    · exact hlf (by
        rw [hshape]
        have : '\n' ∈ r := hsub _ h2
        simp [this])
  · intro hm2
    rcases List.mem_append.mp hm2 with h1 | h2
    · exact hmcol h1
    · exact hnp h2

/-- A BEGIN line yields a well-formed component type. -/
theorem beginLine_ct (t : Str) (hlf : '\n' ∉ t) (hb : isBeginLine t = true) :
    ∃ ct, (splitChar ':' t).get? 1 = some ct ∧ ct ≠ [] ∧ '\n' ∉ ct ∧
      (':' : Char) ∉ ct ∧
      (strStartsWith "VEVENT".data ct = true ∨
        strStartsWith "VTODO".data ct = true ∨
        strStartsWith "VJOURNAL".data ct = true) := by
  unfold isBeginLine at hb
  simp only [Bool.or_eq_true] at hb
  rcases hb with (h1 | h2) | h3
  · obtain ⟨ct, hg, hne, hlf2, hcol, hpre⟩ :=
      beginMarker_ct "VEVENT".data t hlf (by decide) (by decide) h1
    exact ⟨ct, hg, hne, hlf2, hcol, Or.inl hpre⟩
  · obtain ⟨ct, hg, hne, hlf2, hcol, hpre⟩ :=
      beginMarker_ct "VTODO".data t hlf (by decide) (by decide) h2
    exact ⟨ct, hg, hne, hlf2, hcol, Or.inr (Or.inl hpre)⟩
  · obtain ⟨ct, hg, hne, hlf2, hcol, hpre⟩ :=
      beginMarker_ct "VJOURNAL".data t hlf (by decide) (by decide) h3
    exact ⟨ct, hg, hne, hlf2, hcol, Or.inr (Or.inr hpre)⟩

/-- One parse step preserves the state invariant on any LF-free line. -/
theorem parseStep_inv (s : PState) (line : Str) (hlf : '\n' ∉ line)
    (hs : StInv s) : StInv (parseStep s line) := by
  obtain ⟨hout, hcur⟩ := hs
  have htlf : '\n' ∉ jsTrim line := fun hm => hlf (mem_jsTrim _ _ hm)
  unfold parseStep
  dsimp only
  split
  · exact ⟨hout, hcur⟩
  split
  · -- a BEGIN marker opens a fresh component
    rename_i hb
    refine ⟨hout, ?_⟩
    intro a ha2
    injection ha2 with ha3
    rw [← ha3]
    obtain ⟨ct, hget, hctne, hctlf, hctcol, hctpre⟩ :=
      beginLine_ct (jsTrim line) htlf hb
    refine ⟨fun u hu => absurd hu (by simp),
      ⟨ct, hget, hctne, hctlf, hctcol, hctpre⟩,
      fun v hv => absurd hv (by simp), fun v hv => absurd hv (by simp),
      fun v hv => absurd hv (by simp), fun v hv => absurd hv (by simp),
      fun l hl => absurd hl (by simp)⟩
  split
  · -- an END marker pushes the accumulated component
    refine ⟨?_, fun a ha2 => absurd ha2 (by simp)⟩
    intro c hc
    cases hcur0 : s.cur with
    | none =>
      rw [hcur0] at hc
      dsimp only at hc
      exact hout c hc
    | some c0 =>
      rw [hcur0] at hc
      dsimp only at hc
      by_cases ht0 : strTruthy c0.uid = true
      · rw [if_pos ht0] at hc
        rcases List.mem_append.mp hc with h1 | h2
        · exact hout c h1
        · have hcc : c = c0 := by simpa using h2
          subst hcc
          obtain ⟨p1, p2, p3, p4, p5, p6, p7⟩ := hcur c hcur0
          obtain ⟨u, hu, hune⟩ := (strTruthy_iff c.uid).mp ht0
          exact ⟨⟨u, hu, hune, p1 u hu⟩, p2, p3, p4, p5, p6, p7⟩
      · rw [if_neg ht0] at hc
        exact hout c hc
  · -- a property line (or a line outside any component)
    split
    · split
      · rename_i c0 hcur0
        refine ⟨hout, ?_⟩
        intro a ha2
        injection ha2 with ha3
        rw [← ha3]
        exact parseProperty_inv _ _ htlf (jsTrim_getLast' _) (hcur c0 hcur0)
      · exact ⟨hout, hcur⟩
    · exact ⟨hout, hcur⟩

/-- Every component emitted by the parser satisfies the parse invariant. -/
theorem parse_inv (doc : Str) : ∀ c ∈ parseICalendarData doc, ParseInv c := by
  unfold parseICalendarData
  have hlines := splitLines_no_lf (unfoldData doc)
  have hfold : ∀ (lines : List Str) (s : PState),
      (∀ l ∈ lines, '\n' ∉ l) → StInv s →
      StInv (List.foldl parseStep s lines) := by
    intro lines
    induction lines with
    | nil => intro s _ hs; exact hs
    | cons l rest ih =>
      intro s hl hs
      rw [List.foldl_cons]
      exact ih _ (fun x hx => hl x (by simp [hx]))
        (parseStep_inv s l (hl l (by simp)) hs)
  exact (hfold _ _ hlines ⟨by simp, fun a ha => by simp at ha⟩).1

/-- Under the parse invariant and the goodness hypotheses, the round-trip
image has the same structural projection. -/
theorem fieldView_segsApply (c : CalendarComponent) (hinv : ParseInv c)
    (hg : goodC1 c = true) : fieldView (segsApply c) = fieldView c := by
  have hinv2 := hinv
  unfold ParseInv RawLineSafe at hinv2
  obtain ⟨⟨u, hu, hune, ⟨hulf, hulast⟩⟩, ⟨ctv, hct, hctne, hctlf, hctcol, hctpre⟩,
    hsum, hdesc, hloc, hstat, hcats⟩ := hinv2
  unfold goodC1 at hg
  simp only [Bool.and_eq_true, decide_eq_true_eq] at hg
  obtain ⟨⟨⟨⟨⟨⟨⟨⟨hgct, hgpri⟩, hgex⟩, hgsum⟩, hgdts⟩, hgdte⟩, hgstat⟩, hgdesc⟩,
    hgloc⟩ := hg
  have hutr : strTruthy c.uid = true := by
    rw [hu]
    cases u with
    | nil => exact absurd rfl hune
    | cons u0 ut => rfl
  have hectv : effectiveCompType c = ctv := by
    unfold effectiveCompType
    rw [hct]
    cases ctv with
    | nil => exact absurd rfl hctne
    | cons t0 ts => rfl
  have h1 : (if strTruthy c.uid = true then some (c.uid.getD []) else none) =
      c.uid := by
    rw [if_pos hutr, hu]
    rfl
  have h2 : some (trimRightWS (effectiveCompType c)) = c.componentType := by
    rw [hectv, hct, trimRightWS_eq_self ctv (by
      intro cl hcl
      rw [hct] at hgct
      dsimp only at hgct
      rw [hcl] at hgct
      dsimp only at hgct
      simpa using hgct)]
  have h3 : (if strTruthy c.summary = true then
      some (unescapeValue (escapeValue (c.summary.getD []))) else none).isSome =
      c.summary.isSome := by
    cases hs : c.summary with
    | none => rfl
    | some v =>
      cases v with
      | nil => exact absurd hs hgsum
      | cons v0 vt => rfl
  have h4 : (if strTruthy c.dtstart = true then
      some (filterDigitsTZ (c.dtstart.getD [])) else none).isSome =
      c.dtstart.isSome := by
    cases hs : c.dtstart with
    | none => rfl
    | some v =>
      cases v with
      | nil => exact absurd hs hgdts
      | cons v0 vt => rfl
  have h5 : (if strTruthy c.dtend = true then
      some (filterDigitsTZ (c.dtend.getD [])) else none).isSome =
      c.dtend.isSome := by
    cases hs : c.dtend with
    | none => rfl
    | some v =>
      cases v with
      | nil => exact absurd hs hgdte
      | cons v0 vt => rfl
  have h6 : (if (c.categories.getD []).isEmpty = true then none
      else some ((splitUnescComma
          (joinSep ",".data ((c.categories.getD []).map escapeValue))).map
        (fun cat => unescapeValue (jsTrim cat)))).isSome =
      c.categories.isSome := by
    cases hs : c.categories with
    | none => rfl
    | some l =>
      obtain ⟨hlne, _⟩ := hcats l hs
      cases l with
      | nil => exact absurd rfl hlne
      | cons x xs => rfl
  have h7 : (if strTruthy c.status = true then
      some (jsToUpper (c.status.getD [])) else none).isSome =
      c.status.isSome := by
    cases hs : c.status with
    | none => rfl
    | some v =>
      cases v with
      | nil => exact absurd hs hgstat
      | cons v0 vt => rfl
  have h8 : (if priorityTruthy c.priority = true then
      some (parseIntJS (intToStr ((c.priority.getD none).getD 0))) else
      none).isSome = c.priority.isSome := by
    cases hs : c.priority with
    | none => rfl
    | some p =>
      rw [hs] at hgpri
      cases p with
      | none => exact absurd hgpri (by simp)
      | some n =>
        have hn : decide (n ≠ 0) = true := hgpri
        have hp : priorityTruthy (some (some n)) = true := hn
        rw [hp]
        rfl
  have h9 : (if strTruthy c.description = true then
      some (unescapeValue (escapeValue (c.description.getD []))) else
      none).isSome = c.description.isSome := by
    cases hs : c.description with
    | none => rfl
    | some v =>
      cases v with
      | nil => exact absurd hs hgdesc
      | cons v0 vt => rfl
  have h10 : (if strTruthy c.location = true then
      some (unescapeValue (escapeValue (c.location.getD []))) else
      none).isSome = c.location.isSome := by
    cases hs : c.location with
    | none => rfl
    | some v =>
      cases v with
      | nil => exact absurd hs hgloc
      | cons v0 vt => rfl
  have h11 : ([] : List (Str × Str)).map Prod.fst = c.extras.map Prod.fst := by
    rw [show c.extras = [] from List.isEmpty_iff.mp hgex]
  unfold fieldView segsApply
  rw [Prod.mk.injEq]
  refine ⟨h1, ?_⟩
  rw [Prod.mk.injEq]
  refine ⟨h2, ?_⟩
  rw [Prod.mk.injEq]
  refine ⟨h3, ?_⟩
  rw [Prod.mk.injEq]
  refine ⟨h4, ?_⟩
  rw [Prod.mk.injEq]
  refine ⟨h5, ?_⟩
  rw [Prod.mk.injEq]
  refine ⟨h6, ?_⟩
  rw [Prod.mk.injEq]
  refine ⟨h7, ?_⟩
  rw [Prod.mk.injEq]
  refine ⟨h8, ?_⟩
  rw [Prod.mk.injEq]
  refine ⟨h9, ?_⟩
  rw [Prod.mk.injEq]
  exact ⟨h10, h11⟩

/-! ## C1: the parse–serialize–parse round trip -/

/-- C1, amended.  For every document whose parsed components are
well-behaved — no trailing whitespace inside the stored component type, a
non-zero numeric priority when present, no extension properties, and no
populated-but-empty text fields — re-parsing the serialization preserves
the structural view of every component: the uid value, the component type
value, the set of populated optional fields, and the extension-property
keys. -/
theorem c1_roundtrip_amended (doc : Str)
    (hg : ∀ c ∈ parseICalendarData doc, goodC1 c = true) :
    (parseICalendarData (componentsToICalendar (parseICalendarData doc))).map
        fieldView =
      (parseICalendarData doc).map fieldView := by
  rw [serialize_reparse _ (parse_inv doc), List.map_map]
  exact List.map_congr_left (fun c hc =>
    fieldView_segsApply c (parse_inv doc c hc) (hg c hc))

set_option maxRecDepth 8192 in
/-- C1, counterexample.  The claim asserts the round trip preserves all
populated fields for every document; the document `c1doc` parses to an
event whose priority field is populated with the number `0`, the
serializer drops falsy priorities, and the re-parse has no priority field,
so the structural views differ. -/
theorem c1_counterexample :
    (parseICalendarData (componentsToICalendar (parseICalendarData c1doc))).map
        fieldView ≠
      (parseICalendarData c1doc).map fieldView := by
  decide

set_option maxRecDepth 8192 in
/-- C1, witness: the amended round trip at the document described by the
claim — an event carrying categories, description, location, and the
escaped characters backslash-comma, backslash-semicolon and backslash-n. -/
theorem c1_witness :
    (∀ c ∈ parseICalendarData c1wdoc, goodC1 c = true) ∧
    (parseICalendarData (componentsToICalendar (parseICalendarData c1wdoc))).map
        fieldView =
      (parseICalendarData c1wdoc).map fieldView :=
  ⟨by decide, c1_roundtrip_amended c1wdoc (by decide)⟩

/-! ## C10: priority emission -/

/-- C10.  `componentsToICalendar` emits a PRIORITY line for a component iff
its priority field is present and truthy (a non-zero number); consequently
a parsed component whose priority is the number `0` serializes without any
PRIORITY line and re-parses to a single component with the same uid and no
priority field at all. -/
theorem c10_priority_emission :
    (∀ c : CalendarComponent,
      (∃ l ∈ componentLines c, strStartsWith "PRIORITY:".data l = true) ↔
        priorityTruthy c.priority = true) ∧
    (∀ doc c, c ∈ parseICalendarData doc → c.priority = some (some 0) →
      ∃ c2, parseICalendarData (componentsToICalendar [c]) = [c2] ∧
        c2.priority = none ∧ c2.uid = c.uid) := by
  constructor
  · intro c
    constructor
    · rintro ⟨l, hl, hsw⟩
      by_contra hnp
      simp only [componentLines] at hl
      rcases List.mem_cons.mp hl with rfl | hm
      · rcases startsWith_head "PRIORITY:".data 'B' _ hsw with he | hh
        · exact absurd he (by decide)
        · exact absurd hh (by decide)
      rcases List.mem_append.mp hm with hm1 | hm2
      swap
      · have hle : l = "END:".data ++ effectiveCompType c := by simpa using hm2
        subst hle
        rcases startsWith_head "PRIORITY:".data 'E' _ hsw with he | hh
        · exact absurd he (by decide)
        · exact absurd hh (by decide)
      rcases List.mem_append.mp hm1 with hm2 | hseg
      swap
      · obtain ⟨rfl, hb⟩ := mem_ite_singleton_neg _ _ _ hseg
        rcases startsWith_head "PRIORITY:".data 'C' _ hsw with he | hh
        · exact absurd he (by decide)
        · exact absurd hh (by decide)
      rcases List.mem_append.mp hm2 with hm3 | hseg
      swap
      · obtain ⟨rfl, hb⟩ := mem_ite_singleton _ _ _ hseg
        exact hnp hb
      rcases List.mem_append.mp hm3 with hm4 | hseg
      swap
      · obtain ⟨rfl, hb⟩ := mem_ite_singleton _ _ _ hseg
        rcases startsWith_head "PRIORITY:".data 'S' _ hsw with he | hh
        · exact absurd he (by decide)
        · exact absurd hh (by decide)
      rcases List.mem_append.mp hm4 with hm5 | hseg
      swap
      · obtain ⟨rfl, hb⟩ := mem_ite_singleton _ _ _ hseg
        rcases startsWith_head "PRIORITY:".data 'L' _ hsw with he | hh
        · exact absurd he (by decide)
        · exact absurd hh (by decide)
      rcases List.mem_append.mp hm5 with hm6 | hseg
      swap
      · obtain ⟨rfl, hb⟩ := mem_ite_singleton _ _ _ hseg
        rcases startsWith_head "PRIORITY:".data 'D' _ hsw with he | hh
        · exact absurd he (by decide)
        · exact absurd hh (by decide)
      rcases List.mem_append.mp hm6 with hm7 | hseg
      swap
      · obtain ⟨rfl, hb⟩ := mem_ite_singleton _ _ _ hseg
        rcases startsWith_head "PRIORITY:".data 'D' _ hsw with he | hh
        · exact absurd he (by decide)
        · exact absurd hh (by decide)
      rcases List.mem_append.mp hm7 with hm8 | hseg
      swap
      · obtain ⟨rfl, hb⟩ := mem_ite_singleton _ _ _ hseg
        rcases startsWith_head "PRIORITY:".data 'D' _ hsw with he | hh
        · exact absurd he (by decide)
        · exact absurd hh (by decide)
      rcases List.mem_append.mp hm8 with hseg | hseg
      · obtain ⟨rfl, hb⟩ := mem_ite_singleton _ _ _ hseg
        rcases startsWith_head "PRIORITY:".data 'U' _ hsw with he | hh
        · exact absurd he (by decide)
        · exact absurd hh (by decide)
      · obtain ⟨rfl, hb⟩ := mem_ite_singleton _ _ _ hseg
        rcases startsWith_head "PRIORITY:".data 'S' _ hsw with he | hh
        · exact absurd he (by decide)
        · exact absurd hh (by decide)
    · intro hp
      refine ⟨"PRIORITY:".data ++ intToStr ((c.priority.getD none).getD 0), ?_,
        isPrefixOf_append_self _ _⟩
      simp only [componentLines]
      refine List.mem_cons.mpr (Or.inr ?_)
      refine List.mem_append.mpr (Or.inl ?_)
      refine List.mem_append.mpr (Or.inl ?_)
      refine List.mem_append.mpr (Or.inr ?_)
      rw [if_pos hp]
      simp
  · intro doc c hc hp
    have hinv := parse_inv doc c hc
    have hm := serialize_reparse [c] (by
      intro x hx
      rw [show x = c from by simpa using hx]
      exact hinv)
    refine ⟨segsApply c, by simpa using hm, ?_, ?_⟩
    · show (if priorityTruthy c.priority = true then
        some (parseIntJS (intToStr ((c.priority.getD none).getD 0))) else
        none) = none
      rw [hp]
      rfl
    · show (if strTruthy c.uid = true then some (c.uid.getD []) else none) =
        c.uid
      have hinv2 := hinv
      unfold ParseInv at hinv2
      obtain ⟨⟨u, hu, hune, _⟩, _⟩ := hinv2
      have hutr : strTruthy c.uid = true := by
        rw [hu]
        cases u with
        | nil => exact absurd rfl hune
        | cons u0 ut => rfl
      rw [if_pos hutr, hu]
      rfl

set_option maxRecDepth 8192 in
/-- C10, witness: the task document `c10doc` parses to `c10comp` with
priority `0`; its serialization re-parses to a component with the same uid
and no priority field. -/
theorem c10_witness :
    c10comp ∈ parseICalendarData c10doc ∧
    c10comp.priority = some (some 0) ∧
    ∃ c2, parseICalendarData (componentsToICalendar [c10comp]) = [c2] ∧
      c2.priority = none ∧ c2.uid = c10comp.uid :=
  ⟨by decide, by decide,
    c10_priority_emission.2 c10doc c10comp (by decide) (by decide)⟩

theorem enc_cons (c : Char) (s : Str) :
    encodeURIComponent (c :: s) = encChar c ++ encodeURIComponent s := rfl

theorem hexCharVal_hexDigitChar (n : Nat) (h : n < 16) :
    hexCharVal (hexDigitChar n) = some n := by
  interval_cases n <;> decide

theorem readPct_pct (B : Nat) (hB : B < 256) (t : Str) :
    readPct (pctByte B ++ t) = some (B, t) := by
  show readPct ('%' :: hexDigitChar (B / 16) :: hexDigitChar (B % 16) :: t) = _
  simp only [readPct]
  rw [hexCharVal_hexDigitChar _ (by omega), hexCharVal_hexDigitChar _ (by omega)]
  have hB' : B / 16 * 16 + B % 16 = B := by omega
  simp [hB']

theorem decTail_one (B : Nat) (h : B < 0x80) (t : Str) :
    decTail B t = some (B, t) := by
  unfold decTail
  rw [if_pos h]

theorem decTail_two (B1 B2 : Nat) (h1 : 0xC2 ≤ B1 ∧ B1 ≤ 0xDF)
    (h2 : 0x80 ≤ B2 ∧ B2 ≤ 0xBF) (t : Str) :
    decTail B1 (pctByte B2 ++ t) = some ((B1 - 0xC0) * 64 + (B2 - 0x80), t) := by
  unfold decTail
  rw [if_neg (by omega), if_pos h1, readPct_pct B2 (by omega)]
  dsimp only
  rw [if_pos h2]

theorem decTail_three (B1 B2 B3 : Nat) (h1 : 0xE0 ≤ B1 ∧ B1 ≤ 0xEF)
    (h2 : (if B1 = 0xE0 then 0xA0 else 0x80) ≤ B2 ∧
      B2 ≤ (if B1 = 0xED then 0x9F else 0xBF))
    (h3 : 0x80 ≤ B3 ∧ B3 ≤ 0xBF) (t : Str) :
    decTail B1 (pctByte B2 ++ (pctByte B3 ++ t)) =
      some ((B1 - 0xE0) * 4096 + (B2 - 0x80) * 64 + (B3 - 0x80), t) := by
  have hB2 : B2 < 256 := by
    rcases h2 with ⟨hl, hr⟩
    split at hr <;> omega
  unfold decTail
  rw [if_neg (by omega), if_neg (by omega), if_pos h1, readPct_pct B2 hB2]
  dsimp only
  rw [readPct_pct B3 (by omega)]
  dsimp only
  rw [if_pos ⟨h2, h3⟩]

theorem decTail_four (B1 B2 B3 B4 : Nat) (h1 : 0xF0 ≤ B1 ∧ B1 ≤ 0xF4)
    (h2 : (if B1 = 0xF0 then 0x90 else 0x80) ≤ B2 ∧
      B2 ≤ (if B1 = 0xF4 then 0x8F else 0xBF))
    (h3 : 0x80 ≤ B3 ∧ B3 ≤ 0xBF) (h4 : 0x80 ≤ B4 ∧ B4 ≤ 0xBF) (t : Str) :
    decTail B1 (pctByte B2 ++ (pctByte B3 ++ (pctByte B4 ++ t))) =
      some ((B1 - 0xF0) * 262144 + (B2 - 0x80) * 4096 +
        (B3 - 0x80) * 64 + (B4 - 0x80), t) := by
  have hB2 : B2 < 256 := by
    rcases h2 with ⟨hl, hr⟩
    split at hr <;> omega
  unfold decTail
  rw [if_neg (by omega), if_neg (by omega), if_neg (by omega), if_pos h1,
    readPct_pct B2 hB2]
  dsimp only
  rw [readPct_pct B3 (by omega)]
  dsimp only
  rw [readPct_pct B4 (by omega)]
  dsimp only
  rw [if_pos ⟨h2, h3, h4⟩]

theorem decodeGo_lit (c : Char) (hc : c ≠ '%') (f : Nat) (t : Str) :
    decodeGoF (f + 1) (c :: t) = (decodeGoF f t).map (fun r => c :: r) := by
  simp only [decodeGoF]
  rw [if_neg hc]

theorem decodeGo_pct (B v : Nat) (hB : B < 256) (rest2 : Str) (f : Nat) (t : Str)
    (hd : decTail B t = some (v, rest2)) :
    decodeGoF (f + 1) (pctByte B ++ t) =
      (decodeGoF f rest2).map (fun r => Char.ofNat v :: r) := by
  show decodeGoF (f + 1) ('%' :: hexDigitChar (B / 16) :: hexDigitChar (B % 16) :: t) = _
  simp only [decodeGoF]
  rw [if_pos trivial]
  rw [show readPct ('%' :: hexDigitChar (B / 16) :: hexDigitChar (B % 16) :: t) =
    some (B, t) from readPct_pct B hB t]
  dsimp only
  rw [hd]

theorem lenient_lit (c : Char) (hc : c ≠ '%') (f : Nat) (t : Str) :
    lenientGoF (f + 1) (c :: t) = c :: lenientGoF f t := by
  rw [lenientGoF.eq_def]
  split
  · rename_i heq; exact absurd heq (by simp)
  · rename_i f' heq
    injection heq with hf
    subst hf
    split
    · rename_i heq2; exact absurd heq2 (by simp)
    · rename_i h1 h2 rest heq2
      injection heq2 with he1 he2
      exact absurd he1 hc
    · rename_i rest heq2
      injection heq2 with he1 he2
      exact absurd he1 hc
    · rename_i c' rest hn1 hn2 heq2
      injection heq2 with he1 he2
      rw [he1, he2]

theorem lenient_pct (B v : Nat) (hB : B < 256) (rest2 : Str) (f : Nat) (t : Str)
    (hd : decTail B t = some (v, rest2)) :
    lenientGoF (f + 1) (pctByte B ++ t) = Char.ofNat v :: lenientGoF f rest2 := by
  show lenientGoF (f + 1) ('%' :: hexDigitChar (B / 16) :: hexDigitChar (B % 16) :: t) = _
  simp only [lenientGoF]
  rw [hexCharVal_hexDigitChar _ (by omega), hexCharVal_hexDigitChar _ (by omega)]
  dsimp only
  have hB' : B / 16 * 16 + B % 16 = B := by omega
  rw [hB', hd]



theorem pct_decode_char (c : Char) (t : Str) :
    ∃ B rest1, ((utf8Bytes c.toNat).flatMap pctByte) ++ t = pctByte B ++ rest1 ∧
      B < 256 ∧ decTail B rest1 = some (c.toNat, t) := by
  have hval : c.toNat < 0xd800 ∨ (0xe000 ≤ c.toNat ∧ c.toNat < 0x110000) := c.valid
  by_cases h1 : c.toNat < 0x80
  · refine ⟨c.toNat, t, ?_, by omega, decTail_one c.toNat h1 t⟩
    rw [show utf8Bytes c.toNat = [c.toNat] from by unfold utf8Bytes; rw [if_pos h1]]
    simp
  · by_cases h2 : c.toNat < 0x800
    · refine ⟨0xC0 + c.toNat / 64, pctByte (0x80 + c.toNat % 64) ++ t, ?_, by omega, ?_⟩
      · rw [show utf8Bytes c.toNat = [0xC0 + c.toNat / 64, 0x80 + c.toNat % 64] from by
          unfold utf8Bytes; rw [if_neg h1, if_pos h2]]
        simp
      · rw [decTail_two _ _ ⟨by omega, by omega⟩ ⟨by omega, by omega⟩ t]
        simp only [Option.some.injEq, Prod.mk.injEq]
        exact ⟨by omega, trivial⟩
    · by_cases h3 : c.toNat < 0x10000
      · refine ⟨0xE0 + c.toNat / 4096,
          pctByte (0x80 + c.toNat / 64 % 64) ++ (pctByte (0x80 + c.toNat % 64) ++ t),
          ?_, by omega, ?_⟩
        · rw [show utf8Bytes c.toNat =
            [0xE0 + c.toNat / 4096, 0x80 + c.toNat / 64 % 64, 0x80 + c.toNat % 64] from by
              unfold utf8Bytes; rw [if_neg h1, if_neg h2, if_pos h3]]
          simp
        · have hcont : (if 0xE0 + c.toNat / 4096 = 0xE0 then 0xA0 else 0x80) ≤
              0x80 + c.toNat / 64 % 64 ∧
              0x80 + c.toNat / 64 % 64 ≤ (if 0xE0 + c.toNat / 4096 = 0xED then 0x9F else 0xBF) := by
            constructor <;> split <;> rename_i hsp <;> omega
          rw [decTail_three _ _ _ ⟨by omega, by omega⟩ hcont ⟨by omega, by omega⟩ t]
          simp only [Option.some.injEq, Prod.mk.injEq]
          exact ⟨by omega, trivial⟩
      · refine ⟨0xF0 + c.toNat / 262144,
          pctByte (0x80 + c.toNat / 4096 % 64) ++
            (pctByte (0x80 + c.toNat / 64 % 64) ++ (pctByte (0x80 + c.toNat % 64) ++ t)),
          ?_, by omega, ?_⟩
        · rw [show utf8Bytes c.toNat =
            [0xF0 + c.toNat / 262144, 0x80 + c.toNat / 4096 % 64,
              0x80 + c.toNat / 64 % 64, 0x80 + c.toNat % 64] from by
              unfold utf8Bytes; rw [if_neg h1, if_neg h2, if_neg h3]]
          simp
        · have hcont : (if 0xF0 + c.toNat / 262144 = 0xF0 then 0x90 else 0x80) ≤
              0x80 + c.toNat / 4096 % 64 ∧
              0x80 + c.toNat / 4096 % 64 ≤
                (if 0xF0 + c.toNat / 262144 = 0xF4 then 0x8F else 0xBF) := by
            constructor <;> split <;> rename_i hsp <;> omega
          rw [decTail_four _ _ _ _ ⟨by omega, by omega⟩ hcont ⟨by omega, by omega⟩
            ⟨by omega, by omega⟩ t]
          simp only [Option.some.injEq, Prod.mk.injEq]
          exact ⟨by omega, trivial⟩

theorem unreserved_ne_pct (c : Char) (hu : isUnreservedURI c = true) : c ≠ '%' := by
  intro he
  rw [he] at hu
  exact absurd hu (by decide)

theorem decodeGo_encChar (c : Char) (f : Nat) (t : Str) :
    decodeGoF (f + 1) (encChar c ++ t) = (decodeGoF f t).map (fun r => c :: r) := by
  unfold encChar
  by_cases hu : isUnreservedURI c
  · rw [if_pos hu]
    exact decodeGo_lit c (unreserved_ne_pct c hu) f t
  · rw [if_neg hu]
    obtain ⟨B, rest1, heq, hB, hd⟩ := pct_decode_char c t
    rw [heq, decodeGo_pct B c.toNat hB t f rest1 hd, Char.ofNat_toNat]

theorem lenient_encChar (c : Char) (f : Nat) (t : Str) :
    lenientGoF (f + 1) (encChar c ++ t) = c :: lenientGoF f t := by
  unfold encChar
  by_cases hu : isUnreservedURI c
  · rw [if_pos hu]
    exact lenient_lit c (unreserved_ne_pct c hu) f t
  · rw [if_neg hu]
    obtain ⟨B, rest1, heq, hB, hd⟩ := pct_decode_char c t
    rw [heq, lenient_pct B c.toNat hB t f rest1 hd, Char.ofNat_toNat]

theorem encChar_ne_nil (c : Char) : encChar c ≠ [] := by
  unfold encChar
  split
  · simp
  · obtain ⟨B, r1, heq, _, _⟩ := pct_decode_char c []
    rw [List.append_nil] at heq
    rw [heq]
    simp [pctByte]

theorem enc_length_ge (s : Str) : s.length ≤ (encodeURIComponent s).length := by
  induction s with
  | nil => simp [encodeURIComponent]
  | cons c s' ih =>
    rw [enc_cons, List.length_append, List.length_cons]
    have h1 : 1 ≤ (encChar c).length := by
      have := encChar_ne_nil c
      cases hec : encChar c with
      | nil => exact absurd hec this
      | cons a l => simp
    omega

theorem decodeGo_enc (s : Str) : ∀ f, s.length ≤ f →
    decodeGoF f (encodeURIComponent s) = .ok s := by
  induction s with
  | nil => intro f hf; cases f <;> rfl
  | cons c s' ih =>
    intro f hf
    cases f with
    | zero => simp at hf
    | succ f' =>
      rw [enc_cons, decodeGo_encChar c f' (encodeURIComponent s'),
        ih f' (by simp at hf; omega)]
      rfl

theorem decode_enc (s : Str) :
    decodeURIComponentE (encodeURIComponent s) = .ok s := by
  unfold decodeURIComponentE
  exact decodeGo_enc s _ (enc_length_ge s)

theorem lenient_enc (s : Str) : ∀ f, s.length ≤ f →
    lenientGoF f (encodeURIComponent s) = s := by
  induction s with
  | nil => intro f hf; cases f <;> rfl
  | cons c s' ih =>
    intro f hf
    cases f with
    | zero => simp at hf
    | succ f' =>
      rw [enc_cons, lenient_encChar c f' (encodeURIComponent s'),
        ih f' (by simp at hf; omega)]

theorem decodeLenient_enc (s : Str) :
    decodeLenient (encodeURIComponent s) = s := by
  unfold decodeLenient
  exact lenient_enc s _ (enc_length_ge s)

theorem utf8_mem_lt (v : Nat) (hv : v < 0x110000) : ∀ b ∈ utf8Bytes v, b < 256 := by
  unfold utf8Bytes
  split_ifs <;> intro b hb <;> simp at hb <;> rcases hb with h | h | h | h <;> omega

theorem hexDigitChar_ok (n : Nat) (h : n < 16) :
    (hexDigitChar n).isDigit = true ∨ ('A' ≤ hexDigitChar n ∧ hexDigitChar n ≤ 'F') := by
  interval_cases n <;> first | exact Or.inl (by decide) | exact Or.inr (by decide)

theorem enc_mem_ok (s : Str) : ∀ x ∈ encodeURIComponent s, encOK x := by
  induction s with
  | nil => intro x hx; simp [encodeURIComponent] at hx
  | cons c s' ih =>
    intro x hx
    rw [enc_cons] at hx
    rcases List.mem_append.mp hx with hm | hm
    · unfold encChar at hm
      split at hm
      · rename_i hu
        simp at hm
        rw [hm]
        exact Or.inl hu
      · rcases List.mem_flatMap.mp hm with ⟨b, hb, hpb⟩
        have hval : c.toNat < 0xd800 ∨ (0xe000 ≤ c.toNat ∧ c.toNat < 0x110000) := c.valid
        have hb256 : b < 256 := utf8_mem_lt c.toNat (by omega) b hb
        unfold pctByte at hpb
        simp at hpb
        rcases hpb with h | h | h
        · rw [h]; exact Or.inr (Or.inl rfl)
        · rw [h]
          rcases hexDigitChar_ok (b / 16) (by omega) with hd | hd
          · exact Or.inr (Or.inr (Or.inl hd))
          · exact Or.inr (Or.inr (Or.inr hd))
        · rw [h]
          rcases hexDigitChar_ok (b % 16) (by omega) with hd | hd
          · exact Or.inr (Or.inr (Or.inl hd))
          · exact Or.inr (Or.inr (Or.inr hd))
    · exact ih x hm

theorem encOK_ne_char (x : Char) (hx : encOK x) (y : Char)
    (h1 : isUnreservedURI y = false) (h2 : y ≠ '%') (h3 : y.isDigit = false)
    (h4 : ¬('A' ≤ y ∧ y ≤ 'F')) : x ≠ y := by
  rintro rfl
  rcases hx with h | h | h | h
  · rw [h1] at h; exact absurd h (by simp)
  · exact h2 h
  · rw [h3] at h; exact absurd h (by simp)
  · exact h4 h

theorem enc_not_mem (y : Char) (h1 : isUnreservedURI y = false) (h2 : y ≠ '%')
    (h3 : y.isDigit = false) (h4 : ¬('A' ≤ y ∧ y ≤ 'F')) (s : Str) :
    y ∉ encodeURIComponent s := fun hm =>
  (encOK_ne_char y (enc_mem_ok s y hm) y h1 h2 h3 h4) rfl

theorem enc_all_dotOK (s : Str) : ∀ x ∈ encodeURIComponent s, dotCharOK x = true := by
  intro x hx
  have h := enc_mem_ok s x hx
  have hn : x ≠ '\n' := encOK_ne_char x h '\n' (by decide) (by decide) (by decide) (by decide)
  have hr : x ≠ '\r' := encOK_ne_char x h '\r' (by decide) (by decide) (by decide) (by decide)
  simp [dotCharOK, hn, hr]

theorem enc_all_varOK (s : Str) : ∀ x ∈ encodeURIComponent s, varCharOK x = true := by
  intro x hx
  have h := enc_mem_ok s x hx
  have hs : x ≠ '/' := encOK_ne_char x h '/' (by decide) (by decide) (by decide) (by decide)
  have hq : x ≠ '?' := encOK_ne_char x h '?' (by decide) (by decide) (by decide) (by decide)
  simp [varCharOK, hs, hq]

theorem plusToSpace_enc (s : Str) :
    plusToSpace (encodeURIComponent s) = encodeURIComponent s := by
  unfold plusToSpace
  have h : ∀ x ∈ encodeURIComponent s, (if x = '+' then ' ' else x) = id x := by
    intro x hx
    exact if_neg (encOK_ne_char x (enc_mem_ok s x hx) '+'
      (by decide) (by decide) (by decide) (by decide))
  rw [List.map_congr_left h, List.map_id]

theorem enc_ne_nil (s : Str) (h : s ≠ []) : encodeURIComponent s ≠ [] := by
  cases s with
  | nil => exact absurd rfl h
  | cons c s' =>
    rw [enc_cons]
    intro he
    exact encChar_ne_nil c (List.append_eq_nil.mp he).1



theorem splitsAsc_cons (a : Char) (T : Str) :
    splitsAsc (a :: T) = ([a], T) :: (splitsAsc T).map (fun pr => (a :: pr.1, pr.2)) := by
  unfold splitsAsc
  rw [List.length_cons, List.range_succ_eq_map, List.map_cons, List.map_map]
  congr 1
  rw [List.map_map]
  apply List.map_congr_left
  intro k hk
  simp [Function.comp]

theorem splitsDesc_eq (s : Str) :
    splitsDesc s = (List.range (s.takeWhile varCharOK).length).map
      (fun i => (s.take ((s.takeWhile varCharOK).length - i),
        s.drop ((s.takeWhile varCharOK).length - i))) := rfl

theorem matchToks_lit_eq (ch : Char) (toks : List UriTok) (rest : Str) :
    matchToks (.lit ch :: toks) (ch :: rest) = matchToks toks rest := by
  simp [matchToks]

theorem matchToks_lit_ne (ch c : Char) (h : c ≠ ch) (toks : List UriTok) (rest : Str) :
    matchToks (.lit ch :: toks) (c :: rest) = none := by
  simp only [matchToks]
  rw [if_neg h]

theorem matchToks_var_last (n : Str) (hn : n ≠ ("principal").data) (C : Str)
    (hC : C ≠ []) (hCok : ∀ x ∈ C, varCharOK x = true) :
    matchToks [.varTok n] C = some [(n, C)] := by
  simp only [matchToks]
  rw [if_neg hn]
  rw [splitsDesc_eq]
  have htw : C.takeWhile varCharOK = C := by
    have := takeWhileAppendAll varCharOK C [] hCok
    simpa using this
  rw [htw]
  obtain ⟨k, hk⟩ : ∃ k, C.length = k + 1 := by
    cases C with
    | nil => exact absurd rfl hC
    | cons c t => exact ⟨t.length, by simp⟩
  rw [hk, List.range_succ_eq_map, List.map_cons, List.findSome?_cons]
  have h1 : C.take (k + 1 - 0) = C := by rw [Nat.sub_zero, ← hk, List.take_length]
  have h2 : C.drop (k + 1 - 0) = [] := by rw [Nat.sub_zero, ← hk, List.drop_length]
  rw [h1, h2]
  simp [matchToks]

theorem matchToks_var_mid (n : Str) (hn : n ≠ ("principal").data) (B : Str)
    (hB : B ≠ []) (hBok : ∀ x ∈ B, varCharOK x = true) (R : Str)
    (toks : List UriTok) (vs : List (Str × Str))
    (hrec : matchToks toks R = some vs) :
    matchToks (.varTok n :: .lit '/' :: toks) (B ++ '/' :: R) =
      some ((n, B) :: vs) := by
  simp only [matchToks]
  rw [if_neg hn]
  rw [splitsDesc_eq]
  have htw : (B ++ '/' :: R).takeWhile varCharOK = B := by
    rw [takeWhileAppendAll varCharOK B ('/' :: R) hBok]
    simp [List.takeWhile_cons, varCharOK]
  rw [htw]
  obtain ⟨k, hk⟩ : ∃ k, B.length = k + 1 := by
    cases B with
    | nil => exact absurd rfl hB
    | cons c t => exact ⟨t.length, by simp⟩
  rw [hk, List.range_succ_eq_map, List.map_cons, List.findSome?_cons]
  have h1 : (B ++ '/' :: R).take (k + 1 - 0) = B := by
    rw [Nat.sub_zero, ← hk, List.take_left]
  have h2 : (B ++ '/' :: R).drop (k + 1 - 0) = '/' :: R := by
    rw [Nat.sub_zero, ← hk, List.drop_left]
  rw [h1, h2, matchToks_lit_eq, hrec]
  simp

theorem matchToks_principal_go (A : Str) (hA : A ≠ []) (hAsl : '/' ∉ A)
    (hAdot : ∀ x ∈ A, dotCharOK x = true) :
    ∀ (P : Str), (∀ x ∈ P, dotCharOK x = true) →
      ∀ (toks : List UriTok) (R : Str) (vs : List (Str × Str)),
      matchToks toks R = some vs →
      (splitsAsc (A ++ '/' :: R)).findSome?
        (fun pr => if (P ++ pr.1).all dotCharOK then
          (matchToks (.lit '/' :: toks) pr.2).map
            (fun ws => ((("principal").data, P ++ pr.1) :: ws))
          else none) = some ((("principal").data, P ++ A) :: vs) := by
  induction A with
  | nil => exact absurd rfl hA
  | cons a A' ih =>
    intro P hP toks R vs hrec
    rw [List.cons_append, splitsAsc_cons, List.findSome?_cons]
    have hadot : dotCharOK a = true := hAdot a (by simp)
    have hall : (P ++ [a]).all dotCharOK = true := by
      rw [List.all_eq_true]
      intro x hx
      rcases List.mem_append.mp hx with h | h
      · exact hP x h
      · rw [List.mem_singleton.mp h]; exact hadot
    cases A' with
    | nil =>
      rw [List.nil_append, if_pos hall, matchToks_lit_eq, hrec]
      rfl
    | cons a' T =>
      have ha' : a' ≠ '/' := by
        intro he
        exact hAsl (by rw [← he]; simp)
      rw [if_pos hall, List.cons_append,
        matchToks_lit_ne '/' a' ha' toks (T ++ '/' :: R)]
      rw [show Option.map (fun ws => ((("principal").data, P ++ [a]) :: ws))
        (none : Option (List (Str × Str))) = none from rfl]
      rw [List.findSome?_map]
      have hfg : ((fun pr : Str × Str => if (P ++ pr.1).all dotCharOK then
            (matchToks (.lit '/' :: toks) pr.2).map
              (fun ws => ((("principal").data, P ++ pr.1) :: ws))
            else none) ∘ (fun pr : Str × Str => (a :: pr.1, pr.2))) =
          (fun pr : Str × Str => if ((P ++ [a]) ++ pr.1).all dotCharOK then
            (matchToks (.lit '/' :: toks) pr.2).map
              (fun ws => ((("principal").data, (P ++ [a]) ++ pr.1) :: ws))
            else none) := by
        funext pr
        simp only [Function.comp_apply]
        have he : P ++ (a :: pr.1) = (P ++ [a]) ++ pr.1 := by simp
        rw [he]
      rw [hfg]
      have hres := ih (by simp) (fun hm => hAsl (by simp [hm]))
        (fun x hx => hAdot x (by simp [hx]))
        (P ++ [a])
        (fun x hx => by
          rcases List.mem_append.mp hx with h | h
          · exact hP x h
          · rw [List.mem_singleton.mp h]; exact hadot)
        toks R vs hrec
      rw [List.cons_append] at hres
      rw [hres]
      have he2 : (P ++ [a]) ++ (a' :: T) = P ++ (a :: a' :: T) := by simp
      rw [he2]

theorem matchToks3 (n2 n3 : Str) (hn2 : n2 ≠ ("principal").data)
    (hn3 : n3 ≠ ("principal").data) (A B C : Str)
    (hA : A ≠ []) (hAsl : '/' ∉ A) (hAdot : ∀ x ∈ A, dotCharOK x = true)
    (hB : B ≠ []) (hBok : ∀ x ∈ B, varCharOK x = true)
    (hC : C ≠ []) (hCok : ∀ x ∈ C, varCharOK x = true) :
    matchToks [.varTok ("principal").data, .lit '/', .varTok n2, .lit '/', .varTok n3]
      (A ++ '/' :: (B ++ '/' :: C)) =
      some [(("principal").data, A), (n2, B), (n3, C)] := by
  have hrec : matchToks [.varTok n2, .lit '/', .varTok n3] (B ++ '/' :: C) =
      some [(n2, B), (n3, C)] :=
    matchToks_var_mid n2 hn2 B hB hBok C [.varTok n3] [(n3, C)]
      (matchToks_var_last n3 hn3 C hC hCok)
  have hgo := matchToks_principal_go A hA hAsl hAdot [] (by simp)
    [.varTok n2, .lit '/', .varTok n3] (B ++ '/' :: C) [(n2, B), (n3, C)] hrec
  simp only [List.nil_append] at hgo
  simp only [matchToks]
  rw [if_pos trivial]
  exact hgo



theorem strEndsWith_iff_suffix (p s : Str) : strEndsWith p s = true ↔ p <:+ s := by
  unfold strEndsWith
  rw [List.isPrefixOf_iff_prefix]
  exact List.reverse_prefix

theorem endsWith_append_self (p X : Str) : strEndsWith p (X ++ p) = true :=
  (strEndsWith_iff_suffix p (X ++ p)).mpr (List.suffix_append X p)

theorem suffix_one_slash (V C : Str) (hV : '/' ∉ V) (hC : '/' ∉ C) (X : Str) :
    (('/' :: V) <:+ (X ++ '/' :: C)) ↔ V = C := by
  induction X with
  | nil =>
    rw [List.nil_append, List.suffix_cons_iff]
    constructor
    · rintro (heq | hsuf)
      · simp only [List.cons.injEq, true_and] at heq
        exact heq
      · exact absurd (hsuf.sublist.subset (by simp)) hC
    · rintro rfl
      exact Or.inl rfl
  | cons x X' ih =>
    rw [List.cons_append, List.suffix_cons_iff]
    constructor
    · rintro (heq | hsuf)
      · injection heq with h1 h2
        exfalso
        apply hV
        rw [h2]
        simp
      · exact ih.mp hsuf
    · intro he
      exact Or.inr (ih.mpr he)

theorem slash_append_inj (W V B C : Str) (hW : '/' ∉ W) (hB : '/' ∉ B)
    (h : W ++ '/' :: V = B ++ '/' :: C) : W = B ∧ V = C := by
  induction W generalizing B with
  | nil =>
    cases B with
    | nil =>
      rw [List.nil_append, List.nil_append] at h
      injection h with h1 h2
      exact ⟨rfl, h2⟩
    | cons b B' =>
      rw [List.nil_append, List.cons_append] at h
      injection h with h1 h2
      exact absurd (by rw [h1]; simp : ('/' : Char) ∈ b :: B') hB
  | cons w W' ih =>
    cases B with
    | nil =>
      rw [List.cons_append, List.nil_append] at h
      injection h with h1 h2
      exact absurd (by rw [← h1]; simp : ('/' : Char) ∈ w :: W') hW
    | cons b B' =>
      rw [List.cons_append, List.cons_append] at h
      injection h with h1 h2
      obtain ⟨hWB, hVC⟩ := ih B' (fun hm => hW (by simp [hm]))
        (fun hm => hB (by simp [hm])) h2
      exact ⟨by rw [h1, hWB], hVC⟩

theorem suffix_two_slash (W V B C : Str) (hW : '/' ∉ W) (hV : '/' ∉ V)
    (hB : '/' ∉ B) (hC : '/' ∉ C) :
    ∀ A : Str, '/' ∉ A →
      (((('/' :: W) ++ '/' :: V) <:+ (A ++ '/' :: (B ++ '/' :: C))) ↔ (W = B ∧ V = C)) := by
  intro A
  induction A with
  | nil =>
    intro hA
    rw [List.nil_append, List.cons_append, List.suffix_cons_iff]
    constructor
    · rintro (heq | hsuf)
      · injection heq with h1 h2
        exact slash_append_inj W V B C hW hB h2
      · exfalso
        have hcnt := hsuf.sublist.count_le '/'
        rw [List.count_append] at hcnt
        have hW0 : List.count '/' W = 0 := List.count_eq_zero.mpr hW
        have hV0 : List.count '/' V = 0 := List.count_eq_zero.mpr hV
        have hB0 : List.count '/' B = 0 := List.count_eq_zero.mpr hB
        have hC0 : List.count '/' C = 0 := List.count_eq_zero.mpr hC
        simp [List.count_cons, List.count_append, hW0, hV0, hB0, hC0] at hcnt
    · rintro ⟨rfl, rfl⟩
      exact Or.inl rfl
  | cons a A' ih =>
    intro hA
    rw [List.cons_append, List.cons_append, List.suffix_cons_iff]
    have ha : a ≠ '/' := fun he => hA (by rw [← he]; simp)
    constructor
    · rintro (heq | hsuf)
      · injection heq with h1 h2
        exact absurd h1.symm ha
      · exact (ih (fun hm => hA (by simp [hm]))).mp hsuf
    · intro he
      exact Or.inr ((ih (fun hm => hA (by simp [hm]))).mpr he)

theorem splitAtEq_append (k v : Str) (hk : ('=' : Char) ∉ k) :
    splitAtEq (k ++ '=' :: v) = (k, v) := by
  induction k with
  | nil => simp [splitAtEq]
  | cons c t ih =>
    have hc : ¬c = '=' := fun he => hk (by rw [he]; simp)
    rw [List.cons_append, splitAtEq, if_neg hc,
      ih (fun hm => hk (by simp [hm]))]




theorem occursB_nil (pr : Str) : occursB (braceL :: pr) [] = false := by
  simp [occursB, List.isPrefixOf]

theorem isPrefixOf_cons_ne (a b : Char) (l1 l2 : Str) (h : b ≠ a) :
    (a :: l1).isPrefixOf (b :: l2) = false := by
  simp [List.isPrefixOf]
  intro he
  exact absurd he.symm h

theorem occ_append (pr U V : Str) (hU : braceL ∉ U)
    (hV : occursB (braceL :: pr) V = false) :
    occursB (braceL :: pr) (U ++ V) = false := by
  induction U with
  | nil => simpa using hV
  | cons u U' ih =>
    have hu : u ≠ braceL := fun he => hU (by rw [← he]; simp)
    rw [List.cons_append, occursB, isPrefixOf_cons_ne braceL u _ _ hu,
      ih (fun hm => hU (by simp [hm]))]
    rfl

theorem prefix_brk (n : Str) : ∀ m V : Str, n ≠ m → braceR ∉ n → braceR ∉ m →
    (n ++ [braceR]).isPrefixOf (m ++ braceR :: V) = false := by
  induction n with
  | nil =>
    intro m V hne hn hm
    cases m with
    | nil => exact absurd rfl hne
    | cons b m' =>
      have hb : b ≠ braceR := fun he => hm (by rw [← he]; simp)
      rw [List.nil_append, List.cons_append]
      exact isPrefixOf_cons_ne braceR b _ _ hb
  | cons a n' ih =>
    intro m V hne hn hm
    cases m with
    | nil =>
      have ha : a ≠ braceR := fun he => hn (by rw [← he]; simp)
      rw [List.cons_append, List.nil_append]
      exact isPrefixOf_cons_ne a braceR _ _ (fun he => ha he.symm)
    | cons b m' =>
      rw [List.cons_append, List.cons_append]
      by_cases hab : a = b
      · subst hab
        have hih := ih m' V (fun he => hne (by rw [he]))
          (fun hm2 => hn (by simp [hm2])) (fun hm2 => hm (by simp [hm2]))
        simp [List.isPrefixOf, hih]
      · exact isPrefixOf_cons_ne a b _ _ (fun he => hab he.symm)

theorem placeholder_cons (n : Str) :
    placeholder n = braceL :: (n ++ [braceR]) := rfl

theorem occursB_placeholder_unit (n m V : Str) (hne : n ≠ m)
    (hn : braceR ∉ n) (hm : braceR ∉ m) (hmL : braceL ∉ m)
    (hV : occursB (placeholder n) V = false) :
    occursB (placeholder n) (placeholder m ++ V) = false := by
  have hshape : placeholder m ++ V = braceL :: (m ++ braceR :: V) := by
    rw [placeholder_cons, List.cons_append, List.append_assoc]
    rfl
  rw [hshape, placeholder_cons, occursB]
  have h1 : (braceL :: (n ++ [braceR])).isPrefixOf (braceL :: (m ++ braceR :: V)) = false := by
    have h2 := prefix_brk n m V hne hn hm
    simp [List.isPrefixOf, h2]
  rw [h1]
  have h3 : occursB (braceL :: (n ++ [braceR])) (m ++ braceR :: V) = false := by
    apply occ_append _ m _ hmL
    rw [occursB]
    have h4 : (braceL :: (n ++ [braceR])).isPrefixOf (braceR :: V) = false :=
      isPrefixOf_cons_ne braceL braceR _ _ (by decide)
    rw [h4, ← placeholder_cons, hV]
    rfl
  rw [← placeholder_cons] at h3
  rw [← placeholder_cons, h3]
  rfl

theorem occ_brace_free (n V : Str) (hV : braceL ∉ V) :
    occursB (placeholder n) V = false := by
  have h := occ_append (n ++ [braceR]) V [] hV (occursB_nil _)
  rw [List.append_nil] at h
  rw [placeholder_cons]
  exact h

theorem replaceAllF_skip (n rep X : Str) (hX : braceL ∉ X) :
    ∀ (g : Nat) (s : Str),
      replaceAllF (placeholder n) rep (X.length + g) (X ++ s) =
        X ++ replaceAllF (placeholder n) rep g s := by
  induction X with
  | nil => intro g s; simp
  | cons x X' ih =>
    intro g s
    have hx : x ≠ braceL := fun he => hX (by rw [← he]; simp)
    rw [show (x :: X').length + g = (X'.length + g) + 1 from by simp; omega]
    rw [List.cons_append, replaceAllF]
    have hnp : ¬(placeholder n ≠ [] ∧ (placeholder n).isPrefixOf (x :: (X' ++ s)) = true) := by
      rintro ⟨h1, h2⟩
      rw [placeholder_cons, isPrefixOf_cons_ne braceL x _ _ hx] at h2
      exact absurd h2 (by simp)
    rw [if_neg hnp]
    rw [ih (fun hm => hX (by simp [hm])) g s]
    rfl

theorem replaceAllF_hit (n rep : Str) (g : Nat) (s : Str) :
    replaceAllF (placeholder n) rep (g + 1) (placeholder n ++ s) =
      rep ++ replaceAllF (placeholder n) rep g s := by
  have hshape : placeholder n ++ s = braceL :: ((n ++ [braceR]) ++ s) := by
    rw [placeholder_cons]
    rfl
  rw [hshape, replaceAllF]
  have hp : placeholder n ≠ [] ∧
      (placeholder n).isPrefixOf (braceL :: ((n ++ [braceR]) ++ s)) = true := by
    constructor
    · rw [placeholder_cons]; simp
    · rw [← hshape]; exact isPrefixOf_append_self _ _
  rw [if_pos hp, ← hshape, List.drop_left]

theorem replaceAllF_noOcc (n rep : Str) :
    ∀ (s : Str), occursB (placeholder n) s = false →
      ∀ f, replaceAllF (placeholder n) rep f s = s := by
  intro s
  induction s with
  | nil =>
    intro h f
    cases f with
    | zero => rfl
    | succ f' =>
      rw [replaceAllF, if_neg (by
        rintro ⟨h1, h2⟩
        rw [placeholder_cons] at h2
        simp [List.isPrefixOf] at h2)]
  | cons c t ih =>
    intro h f
    rw [occursB] at h
    have h1 : (placeholder n).isPrefixOf (c :: t) = false := by
      rcases Bool.or_eq_false_iff.mp h with ⟨ha, hb⟩
      exact ha
    have h2 : occursB (placeholder n) t = false :=
      (Bool.or_eq_false_iff.mp h).2
    cases f with
    | zero => rfl
    | succ f' =>
      rw [replaceAllF]
      rw [if_neg (by rintro ⟨ha, hb⟩; rw [h1] at hb; exact absurd hb (by simp))]
      rw [ih h2 f']

theorem replaceAll_decomp (n rep X Y : Str) (hX : braceL ∉ X)
    (hY : occursB (placeholder n) Y = false) :
    replaceAll (placeholder n) rep (X ++ (placeholder n ++ Y)) = X ++ (rep ++ Y) := by
  unfold replaceAll
  rw [show (X ++ (placeholder n ++ Y)).length =
    X.length + ((placeholder n).length + Y.length) from by simp]
  rw [replaceAllF_skip n rep X hX _ _]
  rw [show (placeholder n).length + Y.length = (n.length + 1 + Y.length) + 1 from by
    rw [placeholder_cons]; simp; omega]
  rw [replaceAllF_hit]
  rw [replaceAllF_noOcc n rep Y hY]

theorem tokenizeGoF_brace_free (f : Nat) : ∀ s : Str, braceL ∉ s →
    ∀ t ∈ tokenizeGoF f s, ∃ c, t = .lit c := by
  induction f with
  | zero => intro s h t ht; simp [tokenizeGoF] at ht
  | succ f' ih =>
    intro s h
    cases s with
    | nil => intro t ht; simp [tokenizeGoF] at ht
    | cons c rest =>
      have hc : ¬ c = braceL := fun he => h (by rw [← he]; simp)
      rw [tokenizeGoF, if_neg hc]
      intro t ht
      rcases List.mem_cons.mp ht with h1 | h1
      · exact ⟨c, h1⟩
      · exact ih rest (fun hm => h (by simp [hm])) t h1

theorem templateVarNames_brace_free (s : Str) (h : braceL ∉ s) :
    templateVarNames s = [] := by
  unfold templateVarNames
  rw [List.filterMap_eq_nil]
  intro t ht
  obtain ⟨c, rfl⟩ := tokenizeGoF_brace_free s.length s h t ht
  rfl









theorem sorted_eval : sortedCaldavTemplates =
    [tplByCat, tplMeta, tplRange, tplQuery, tplByUid] := by decide

theorem strTruthy_of_ne (v : Str) (h : v ≠ []) : strTruthy (some v) = true := by
  cases v with
  | nil => exact absurd rfl h
  | cons a t => rfl

theorem validateVar_string_ok (vars : List (Str × Str)) (errs : List Str)
    (nm v : Str) (hget : getExtra nm vars = some v) (hv : v ≠ []) :
    validateVar vars errs ⟨nm, true, ("string").data, none, none⟩ = errs := by
  unfold validateVar
  rw [hget]
  simp [strTruthy_of_ne v hv]

theorem validateVar_enum_ok (vars : List (Str × Str)) (errs : List Str)
    (nm v : Str) (es : List Str) (hget : getExtra nm vars = some v) (hv : v ≠ [])
    (hmem : es.contains v = true) :
    validateVar vars errs ⟨nm, true, ("string").data, none, some es⟩ = errs := by
  unfold validateVar
  rw [hget]
  simp [strTruthy_of_ne v hv]
  exact List.mem_of_elem_eq_true hmem

theorem validateVar_datetime_ok (vars : List (Str × Str)) (errs : List Str)
    (nm v : Str) (hget : getExtra nm vars = some v) (hv : v ≠ [])
    (hiso : isoDateTimeTest v = true) :
    validateVar vars errs ⟨nm, true, ("datetime").data, some isoPatternStr, none⟩ = errs := by
  unfold validateVar
  rw [hget]
  have hmp : matchesPattern isoPatternStr v = true := by
    unfold matchesPattern
    rw [if_pos rfl, hiso]
  simp [strTruthy_of_ne v hv, hmp]

theorem validateVar_missing (vars : List (Str × Str)) (errs : List Str)
    (nm : Str) (vt : Str) (pat : Option Str) (es : Option (List Str))
    (hget : getExtra nm vars = none) :
    validateVar vars errs ⟨nm, true, vt, pat, es⟩ =
      errs ++ [("Missing required variable: ").data ++ nm] := by
  unfold validateVar
  rw [hget]
  simp [strTruthy]




theorem getExtra_hd (k v : Str) (rest : List (Str × Str)) :
    getExtra k ((k, v) :: rest) = some v := by
  simp [getExtra]

theorem getExtra_ne (k k' : Str) (v : Str) (rest : List (Str × Str)) (h : k' ≠ k) :
    getExtra k ((k', v) :: rest) = getExtra k rest := by
  simp [getExtra, h]

theorem valid_bycat (p c v : Str) (hp : p ≠ []) (hc : c ≠ []) (hv : v ≠ []) :
    validateTemplateVariables (("components-by-cat").data)
      [(("principal").data, p),
       (("calendarId").data, c),
       (("cat").data, v)] = ⟨true, []⟩ := by
  unfold validateTemplateVariables
  rw [show getTemplate (("components-by-cat").data) = some tplByCat from by decide]
  dsimp only
  rw [show tplByCat.tmplVars =
      [⟨("principal").data, true, ("string").data, none, none⟩,
       ⟨("calendarId").data, true, ("string").data, none, none⟩,
       ⟨("cat").data, true, ("string").data, none, none⟩] from by decide]
  rw [List.foldl_cons, List.foldl_cons, List.foldl_cons, List.foldl_nil]
  have hg0 : getExtra (("principal").data)
      [(("principal").data, p),
       (("calendarId").data, c),
       (("cat").data, v)] = some p := by
    rw [getExtra_hd]
  rw [validateVar_string_ok _ _ _ _ hg0 hp]
  have hg1 : getExtra (("calendarId").data)
      [(("principal").data, p),
       (("calendarId").data, c),
       (("cat").data, v)] = some c := by
    rw [getExtra_ne _ _ _ _ (by decide), getExtra_hd]
  rw [validateVar_string_ok _ _ _ _ hg1 hc]
  have hg2 : getExtra (("cat").data)
      [(("principal").data, p),
       (("calendarId").data, c),
       (("cat").data, v)] = some v := by
    rw [getExtra_ne _ _ _ _ (by decide), getExtra_ne _ _ _ _ (by decide), getExtra_hd]
  rw [validateVar_string_ok _ _ _ _ hg2 hv]
  rfl

theorem valid_meta (p : Str) (hp : p ≠ []) :
    validateTemplateVariables (("metadata-list-cals").data)
      [(("principal").data, p)] = ⟨true, []⟩ := by
  unfold validateTemplateVariables
  rw [show getTemplate (("metadata-list-cals").data) = some tplMeta from by decide]
  dsimp only
  rw [show tplMeta.tmplVars =
      [⟨("principal").data, true, ("string").data, none, none⟩] from by decide]
  rw [List.foldl_cons, List.foldl_nil]
  have hg0 : getExtra (("principal").data)
      [(("principal").data, p)] = some p := by
    rw [getExtra_hd]
  rw [validateVar_string_ok _ _ _ _ hg0 hp]
  rfl

theorem valid_byuid (p c u : Str) (hp : p ≠ []) (hc : c ≠ []) (hu : u ≠ []) :
    validateTemplateVariables (("component-by-uid").data)
      [(("principal").data, p),
       (("calendarId").data, c),
       (("uid").data, u)] = ⟨true, []⟩ := by
  unfold validateTemplateVariables
  rw [show getTemplate (("component-by-uid").data) = some tplByUid from by decide]
  dsimp only
  rw [show tplByUid.tmplVars =
      [⟨("principal").data, true, ("string").data, none, none⟩,
       ⟨("calendarId").data, true, ("string").data, none, none⟩,
       ⟨("uid").data, true, ("string").data, none, none⟩] from by decide]
  rw [List.foldl_cons, List.foldl_cons, List.foldl_cons, List.foldl_nil]
  have hg0 : getExtra (("principal").data)
      [(("principal").data, p),
       (("calendarId").data, c),
       (("uid").data, u)] = some p := by
    rw [getExtra_hd]
  rw [validateVar_string_ok _ _ _ _ hg0 hp]
  have hg1 : getExtra (("calendarId").data)
      [(("principal").data, p),
       (("calendarId").data, c),
       (("uid").data, u)] = some c := by
    rw [getExtra_ne _ _ _ _ (by decide), getExtra_hd]
  rw [validateVar_string_ok _ _ _ _ hg1 hc]
  have hg2 : getExtra (("uid").data)
      [(("principal").data, p),
       (("calendarId").data, c),
       (("uid").data, u)] = some u := by
    rw [getExtra_ne _ _ _ _ (by decide), getExtra_ne _ _ _ _ (by decide), getExtra_hd]
  rw [validateVar_string_ok _ _ _ _ hg2 hu]
  rfl

theorem valid_range (p c x s e : Str) (hp : p ≠ []) (hc : c ≠ []) (hx : x ≠ [])
    (hmem : ([("VEVENT").data, ("VTODO").data, ("VJOURNAL").data]).contains x = true)
    (hs : isoDateTimeTest s = true) (he : isoDateTimeTest e = true) :
    validateTemplateVariables (("components-range").data)
      [(("principal").data, p),
       (("calendarId").data, c),
       (("comp").data, x),
       (("start").data, s),
       (("end").data, e)] = ⟨true, []⟩ := by
  have hsne : s ≠ [] := by intro hn; rw [hn] at hs; exact absurd hs (by decide)
  have hene : e ≠ [] := by intro hn; rw [hn] at he; exact absurd he (by decide)
  unfold validateTemplateVariables
  rw [show getTemplate (("components-range").data) = some tplRange from by decide]
  dsimp only
  rw [show tplRange.tmplVars =
      [⟨("principal").data, true, ("string").data, none, none⟩,
       ⟨("calendarId").data, true, ("string").data, none, none⟩,
       ⟨("comp").data, true, ("string").data, none, some [("VEVENT").data, ("VTODO").data, ("VJOURNAL").data]⟩,
       ⟨("start").data, true, ("datetime").data, some isoPatternStr, none⟩,
       ⟨("end").data, true, ("datetime").data, some isoPatternStr, none⟩] from by decide]
  rw [List.foldl_cons, List.foldl_cons, List.foldl_cons, List.foldl_cons, List.foldl_cons, List.foldl_nil]
  have hg0 : getExtra (("principal").data)
      [(("principal").data, p),
       (("calendarId").data, c),
       (("comp").data, x),
       (("start").data, s),
       (("end").data, e)] = some p := by
    rw [getExtra_hd]
  rw [validateVar_string_ok _ _ _ _ hg0 hp]
  have hg1 : getExtra (("calendarId").data)
      [(("principal").data, p),
       (("calendarId").data, c),
       (("comp").data, x),
       (("start").data, s),
       (("end").data, e)] = some c := by
    rw [getExtra_ne _ _ _ _ (by decide), getExtra_hd]
  rw [validateVar_string_ok _ _ _ _ hg1 hc]
  have hg2 : getExtra (("comp").data)
      [(("principal").data, p),
       (("calendarId").data, c),
       (("comp").data, x),
       (("start").data, s),
       (("end").data, e)] = some x := by
    rw [getExtra_ne _ _ _ _ (by decide), getExtra_ne _ _ _ _ (by decide), getExtra_hd]
  rw [validateVar_enum_ok _ _ _ _ _ hg2 hx hmem]
  have hg3 : getExtra (("start").data)
      [(("principal").data, p),
       (("calendarId").data, c),
       (("comp").data, x),
       (("start").data, s),
       (("end").data, e)] = some s := by
    rw [getExtra_ne _ _ _ _ (by decide), getExtra_ne _ _ _ _ (by decide), getExtra_ne _ _ _ _ (by decide), getExtra_hd]
  rw [validateVar_datetime_ok _ _ _ _ hg3 hsne hs]
  have hg4 : getExtra (("end").data)
      [(("principal").data, p),
       (("calendarId").data, c),
       (("comp").data, x),
       (("start").data, s),
       (("end").data, e)] = some e := by
    rw [getExtra_ne _ _ _ _ (by decide), getExtra_ne _ _ _ _ (by decide), getExtra_ne _ _ _ _ (by decide), getExtra_ne _ _ _ _ (by decide), getExtra_hd]
  rw [validateVar_datetime_ok _ _ _ _ hg4 hene he]
  rfl

theorem valid_query_build (p c x j : Str) (hp : p ≠ []) (hc : c ≠ []) (hx : x ≠ [])
    (hmem : ([("VEVENT").data, ("VTODO").data, ("VJOURNAL").data]).contains x = true) (hj : j ≠ []) :
    validateTemplateVariables (("components-query").data)
      [(("principal").data, p),
       (("calendarId").data, c),
       (("comp").data, x),
       (("jmes").data, j)] = ⟨true, []⟩ := by
  unfold validateTemplateVariables
  rw [show getTemplate (("components-query").data) = some tplQuery from by decide]
  dsimp only
  rw [show tplQuery.tmplVars =
      [⟨("principal").data, true, ("string").data, none, none⟩,
       ⟨("calendarId").data, true, ("string").data, none, none⟩,
       ⟨("comp").data, true, ("string").data, none, some [("VEVENT").data, ("VTODO").data, ("VJOURNAL").data]⟩,
       ⟨("jmes").data, true, ("string").data, none, none⟩] from by decide]
  rw [List.foldl_cons, List.foldl_cons, List.foldl_cons, List.foldl_cons, List.foldl_nil]
  have hg0 : getExtra (("principal").data)
      [(("principal").data, p),
       (("calendarId").data, c),
       (("comp").data, x),
       (("jmes").data, j)] = some p := by
    rw [getExtra_hd]
  rw [validateVar_string_ok _ _ _ _ hg0 hp]
  have hg1 : getExtra (("calendarId").data)
      [(("principal").data, p),
       (("calendarId").data, c),
       (("comp").data, x),
       (("jmes").data, j)] = some c := by
    rw [getExtra_ne _ _ _ _ (by decide), getExtra_hd]
  rw [validateVar_string_ok _ _ _ _ hg1 hc]
  have hg2 : getExtra (("comp").data)
      [(("principal").data, p),
       (("calendarId").data, c),
       (("comp").data, x),
       (("jmes").data, j)] = some x := by
    rw [getExtra_ne _ _ _ _ (by decide), getExtra_ne _ _ _ _ (by decide), getExtra_hd]
  rw [validateVar_enum_ok _ _ _ _ _ hg2 hx hmem]
  have hg3 : getExtra (("jmes").data)
      [(("principal").data, p),
       (("calendarId").data, c),
       (("comp").data, x),
       (("jmes").data, j)] = some j := by
    rw [getExtra_ne _ _ _ _ (by decide), getExtra_ne _ _ _ _ (by decide), getExtra_ne _ _ _ _ (by decide), getExtra_hd]
  rw [validateVar_string_ok _ _ _ _ hg3 hj]
  rfl

theorem invalid_range_missing (p c x : Str) (hp : p ≠ []) (hc : c ≠ []) (hx : x ≠ [])
    (hmem : ([("VEVENT").data, ("VTODO").data, ("VJOURNAL").data]).contains x = true) :
    validateTemplateVariables (("components-range").data)
      [(("principal").data, p),
       (("calendarId").data, c),
       (("comp").data, x)] = ⟨false, [("Missing required variable: start").data,
        ("Missing required variable: end").data]⟩ := by
  unfold validateTemplateVariables
  rw [show getTemplate (("components-range").data) = some tplRange from by decide]
  dsimp only
  rw [show tplRange.tmplVars =
      [⟨("principal").data, true, ("string").data, none, none⟩,
       ⟨("calendarId").data, true, ("string").data, none, none⟩,
       ⟨("comp").data, true, ("string").data, none, some [("VEVENT").data, ("VTODO").data, ("VJOURNAL").data]⟩,
       ⟨("start").data, true, ("datetime").data, some isoPatternStr, none⟩,
       ⟨("end").data, true, ("datetime").data, some isoPatternStr, none⟩] from by decide]
  rw [List.foldl_cons, List.foldl_cons, List.foldl_cons, List.foldl_cons, List.foldl_cons, List.foldl_nil]
  have hg0 : getExtra (("principal").data)
      [(("principal").data, p),
       (("calendarId").data, c),
       (("comp").data, x)] = some p := by
    rw [getExtra_hd]
  rw [validateVar_string_ok _ _ _ _ hg0 hp]
  have hg1 : getExtra (("calendarId").data)
      [(("principal").data, p),
       (("calendarId").data, c),
       (("comp").data, x)] = some c := by
    rw [getExtra_ne _ _ _ _ (by decide), getExtra_hd]
  rw [validateVar_string_ok _ _ _ _ hg1 hc]
  have hg2 : getExtra (("comp").data)
      [(("principal").data, p),
       (("calendarId").data, c),
       (("comp").data, x)] = some x := by
    rw [getExtra_ne _ _ _ _ (by decide), getExtra_ne _ _ _ _ (by decide), getExtra_hd]
  rw [validateVar_enum_ok _ _ _ _ _ hg2 hx hmem]
  have hg3 : getExtra (("start").data)
      [(("principal").data, p),
       (("calendarId").data, c),
       (("comp").data, x)] = none := by
    rw [getExtra_ne _ _ _ _ (by decide), getExtra_ne _ _ _ _ (by decide), getExtra_ne _ _ _ _ (by decide)]
    rfl
  rw [validateVar_missing _ _ _ _ _ _ hg3]
  have hg4 : getExtra (("end").data)
      [(("principal").data, p),
       (("calendarId").data, c),
       (("comp").data, x)] = none := by
    rw [getExtra_ne _ _ _ _ (by decide), getExtra_ne _ _ _ _ (by decide), getExtra_ne _ _ _ _ (by decide)]
    rfl
  rw [validateVar_missing _ _ _ _ _ _ hg4]
  rfl



theorem braceL_not_enc (s : Str) : braceL ∉ encodeURIComponent s :=
  enc_not_mem braceL (by decide) (by decide) (by decide) (by decide) s

theorem not_mem_append {a : Char} {X Y : Str} (h1 : a ∉ X) (h2 : a ∉ Y) :
    a ∉ X ++ Y := fun hm => (List.mem_append.mp hm).elim h1 h2

theorem occ_append_pl (n U V : Str) (hU : braceL ∉ U)
    (hV : occursB (placeholder n) V = false) :
    occursB (placeholder n) (U ++ V) = false := by
  rw [placeholder_cons] at hV ⊢
  exact occ_append _ U V hU hV

theorem occ_nil_pl (n : Str) : occursB (placeholder n) [] = false := by
  rw [placeholder_cons]
  exact occursB_nil _

theorem build_bycat (p c v : Str) (hp : p ≠ []) (hc : c ≠ []) (hv : v ≠ []) :
    buildCalDavUri (("components-by-cat").data)
      [(("principal").data, p), (("calendarId").data, c), (("cat").data, v)] =
      .ok (("caldav://").data ++ (encodeURIComponent p ++ (("/").data ++
        (encodeURIComponent c ++ (("/VTODO?cat=").data ++ encodeURIComponent v))))) := by
  unfold buildCalDavUri
  rw [show getTemplate (("components-by-cat").data) = some tplByCat from by decide]
  dsimp only
  rw [valid_bycat p c v hp hc hv]
  rw [if_neg (by decide)]
  rw [List.foldl_cons, List.foldl_cons, List.foldl_cons, List.foldl_nil]
  dsimp only
  rw [show tplByCat.uriTemplate = ("caldav://").data ++
    (placeholder (("principal").data) ++ (("/").data ++
      (placeholder (("calendarId").data) ++ (("/VTODO?cat=").data ++
        (placeholder (("cat").data) ++ []))))) from by decide]
  rw [replaceAll_decomp (("principal").data) (encodeURIComponent p)
    (("caldav://").data)
    ((("/").data ++ (placeholder (("calendarId").data) ++ (("/VTODO?cat=").data ++
      (placeholder (("cat").data) ++ [])))))
    (by decide)
    (occ_append_pl _ _ _ (by decide)
      (occursB_placeholder_unit _ _ _ (by decide) (by decide) (by decide) (by decide)
        (occ_append_pl _ _ _ (by decide)
          (occursB_placeholder_unit _ _ _ (by decide) (by decide) (by decide) (by decide)
            (occ_nil_pl _)))))]
  rw [show ("caldav://").data ++ (encodeURIComponent p ++ (("/").data ++
      (placeholder (("calendarId").data) ++ (("/VTODO?cat=").data ++
        (placeholder (("cat").data) ++ []))))) =
    (("caldav://").data ++ (encodeURIComponent p ++ ("/").data)) ++
      (placeholder (("calendarId").data) ++ (("/VTODO?cat=").data ++
        (placeholder (("cat").data) ++ []))) from by simp [List.append_assoc]]
  rw [replaceAll_decomp (("calendarId").data) (encodeURIComponent c)
    (("caldav://").data ++ (encodeURIComponent p ++ ("/").data))
    ((("/VTODO?cat=").data ++ (placeholder (("cat").data) ++ [])))
    (not_mem_append (by decide) (not_mem_append (braceL_not_enc p) (by decide)))
    (occ_append_pl _ _ _ (by decide)
      (occursB_placeholder_unit _ _ _ (by decide) (by decide) (by decide) (by decide)
        (occ_nil_pl _)))]
  rw [show (("caldav://").data ++ (encodeURIComponent p ++ ("/").data)) ++
      (encodeURIComponent c ++ (("/VTODO?cat=").data ++
        (placeholder (("cat").data) ++ []))) =
    ((("caldav://").data ++ (encodeURIComponent p ++ ("/").data)) ++
      (encodeURIComponent c ++ ("/VTODO?cat=").data)) ++
      (placeholder (("cat").data) ++ []) from by simp [List.append_assoc]]
  rw [replaceAll_decomp (("cat").data) (encodeURIComponent v)
    ((("caldav://").data ++ (encodeURIComponent p ++ ("/").data)) ++
      (encodeURIComponent c ++ ("/VTODO?cat=").data))
    []
    (not_mem_append (not_mem_append (by decide)
        (not_mem_append (braceL_not_enc p) (by decide)))
      (not_mem_append (braceL_not_enc c) (by decide)))
    (occ_nil_pl _)]
  rw [templateVarNames_brace_free _
    (not_mem_append (not_mem_append (not_mem_append (by decide)
          (not_mem_append (braceL_not_enc p) (by decide)))
        (not_mem_append (braceL_not_enc c) (by decide)))
      (not_mem_append (braceL_not_enc v) (by
        intro hm
        simp at hm)))]
  rw [if_neg (by decide)]
  congr 1
  simp [List.append_assoc]



theorem build_meta (p : Str) (hp : p ≠ []) :
    buildCalDavUri (("metadata-list-cals").data)
      [(("principal").data, p)] =
      .ok (((("caldav://").data) ++ (encodeURIComponent p ++ (("/_meta/calendars").data)))) := by
  unfold buildCalDavUri
  rw [show getTemplate (("metadata-list-cals").data) = some tplMeta from by decide]
  dsimp only
  rw [valid_meta p hp]
  rw [if_neg (by decide)]
  rw [List.foldl_cons, List.foldl_nil]
  dsimp only
  rw [show tplMeta.uriTemplate = ((("caldav://").data) ++ (placeholder (("principal").data) ++ (("/_meta/calendars").data))) from by decide]
  rw [replaceAll_decomp (("principal").data) (encodeURIComponent p)
    ((("caldav://").data))
    ((("/_meta/calendars").data))
    (by decide)
    (occ_brace_free _ _ (by decide))]
  rw [templateVarNames_brace_free _
    (not_mem_append (by decide) (not_mem_append (braceL_not_enc p) (by decide)))]
  simp [List.append_assoc]

theorem build_byuid (p c u : Str) (hp : p ≠ []) (hc : c ≠ []) (hu : u ≠ []) :
    buildCalDavUri (("component-by-uid").data)
      [(("principal").data, p), (("calendarId").data, c), (("uid").data, u)] =
      .ok (((("caldav://").data) ++ (encodeURIComponent p ++ ((("/").data) ++ (encodeURIComponent c ++ ((("/").data) ++ encodeURIComponent u)))))) := by
  unfold buildCalDavUri
  rw [show getTemplate (("component-by-uid").data) = some tplByUid from by decide]
  dsimp only
  rw [valid_byuid p c u hp hc hu]
  rw [if_neg (by decide)]
  rw [List.foldl_cons, List.foldl_cons, List.foldl_cons, List.foldl_nil]
  dsimp only
  rw [show tplByUid.uriTemplate = ((("caldav://").data) ++ (placeholder (("principal").data) ++ ((("/").data) ++ (placeholder (("calendarId").data) ++ ((("/").data) ++ (placeholder (("uid").data) ++ [])))))) from by decide]
  rw [replaceAll_decomp (("principal").data) (encodeURIComponent p)
    ((("caldav://").data))
    (((("/").data) ++ (placeholder (("calendarId").data) ++ ((("/").data) ++ (placeholder (("uid").data) ++ [])))))
    (by decide)
    (occ_append_pl _ _ _ (by decide)
      (occursB_placeholder_unit _ _ _ (by decide) (by decide) (by decide) (by decide)
        (occ_append_pl _ _ _ (by decide)
      (occursB_placeholder_unit _ _ _ (by decide) (by decide) (by decide) (by decide)
        (occ_nil_pl _)))))]
  rw [show (("caldav://").data) ++ (encodeURIComponent p ++ ((("/").data) ++ (placeholder (("calendarId").data) ++ ((("/").data) ++ (placeholder (("uid").data) ++ []))))) =
    ((("caldav://").data) ++ (encodeURIComponent p ++ (("/").data))) ++
      (placeholder (("calendarId").data) ++ ((("/").data) ++ (placeholder (("uid").data) ++ []))) from by simp [List.append_assoc]]
  rw [replaceAll_decomp (("calendarId").data) (encodeURIComponent c)
    (((("caldav://").data) ++ (encodeURIComponent p ++ (("/").data))))
    (((("/").data) ++ (placeholder (("uid").data) ++ [])))
    (not_mem_append (by decide) (not_mem_append (braceL_not_enc p) (by decide)))
    (occ_append_pl _ _ _ (by decide)
      (occursB_placeholder_unit _ _ _ (by decide) (by decide) (by decide) (by decide)
        (occ_nil_pl _)))]
  rw [show ((("caldav://").data) ++ (encodeURIComponent p ++ (("/").data))) ++ (encodeURIComponent c ++ ((("/").data) ++ (placeholder (("uid").data) ++ []))) =
    (((("caldav://").data) ++ (encodeURIComponent p ++ (("/").data))) ++ (encodeURIComponent c ++ (("/").data))) ++
      (placeholder (("uid").data) ++ []) from by simp [List.append_assoc]]
  rw [replaceAll_decomp (("uid").data) (encodeURIComponent u)
    ((((("caldav://").data) ++ (encodeURIComponent p ++ (("/").data))) ++ (encodeURIComponent c ++ (("/").data))))
    ([])
    (not_mem_append (not_mem_append (by decide) (not_mem_append (braceL_not_enc p) (by decide))) (not_mem_append (braceL_not_enc c) (by decide)))
    (occ_nil_pl _)]
  rw [templateVarNames_brace_free _
    (not_mem_append (not_mem_append (not_mem_append (by decide) (not_mem_append (braceL_not_enc p) (by decide))) (not_mem_append (braceL_not_enc c) (by decide))) (not_mem_append (braceL_not_enc u) (by intro hm; simp at hm)))]
  simp [List.append_assoc]

theorem build_query (p c x j : Str) (hp : p ≠ []) (hc : c ≠ []) (hx : x ≠ [])
    (hmem : ([("VEVENT").data, ("VTODO").data, ("VJOURNAL").data]).contains x = true) (hj : j ≠ []) :
    buildCalDavUri (("components-query").data)
      [(("principal").data, p), (("calendarId").data, c), (("comp").data, x), (("jmes").data, j)] =
      .ok (((("caldav://").data) ++ (encodeURIComponent p ++ ((("/").data) ++ (encodeURIComponent c ++ ((("/").data) ++ (encodeURIComponent x ++ ((("?filter=").data) ++ encodeURIComponent j)))))))) := by
  unfold buildCalDavUri
  rw [show getTemplate (("components-query").data) = some tplQuery from by decide]
  dsimp only
  rw [valid_query_build p c x j hp hc hx hmem hj]
  rw [if_neg (by decide)]
  rw [List.foldl_cons, List.foldl_cons, List.foldl_cons, List.foldl_cons, List.foldl_nil]
  dsimp only
  rw [show tplQuery.uriTemplate = ((("caldav://").data) ++ (placeholder (("principal").data) ++ ((("/").data) ++ (placeholder (("calendarId").data) ++ ((("/").data) ++ (placeholder (("comp").data) ++ ((("?filter=").data) ++ (placeholder (("jmes").data) ++ [])))))))) from by decide]
  rw [replaceAll_decomp (("principal").data) (encodeURIComponent p)
    ((("caldav://").data))
    (((("/").data) ++ (placeholder (("calendarId").data) ++ ((("/").data) ++ (placeholder (("comp").data) ++ ((("?filter=").data) ++ (placeholder (("jmes").data) ++ [])))))))
    (by decide)
    (occ_append_pl _ _ _ (by decide)
      (occursB_placeholder_unit _ _ _ (by decide) (by decide) (by decide) (by decide)
        (occ_append_pl _ _ _ (by decide)
      (occursB_placeholder_unit _ _ _ (by decide) (by decide) (by decide) (by decide)
        (occ_append_pl _ _ _ (by decide)
      (occursB_placeholder_unit _ _ _ (by decide) (by decide) (by decide) (by decide)
        (occ_nil_pl _)))))))]
  rw [show (("caldav://").data) ++ (encodeURIComponent p ++ ((("/").data) ++ (placeholder (("calendarId").data) ++ ((("/").data) ++ (placeholder (("comp").data) ++ ((("?filter=").data) ++ (placeholder (("jmes").data) ++ []))))))) =
    ((("caldav://").data) ++ (encodeURIComponent p ++ (("/").data))) ++
      (placeholder (("calendarId").data) ++ ((("/").data) ++ (placeholder (("comp").data) ++ ((("?filter=").data) ++ (placeholder (("jmes").data) ++ []))))) from by simp [List.append_assoc]]
  rw [replaceAll_decomp (("calendarId").data) (encodeURIComponent c)
    (((("caldav://").data) ++ (encodeURIComponent p ++ (("/").data))))
    (((("/").data) ++ (placeholder (("comp").data) ++ ((("?filter=").data) ++ (placeholder (("jmes").data) ++ [])))))
    (not_mem_append (by decide) (not_mem_append (braceL_not_enc p) (by decide)))
    (occ_append_pl _ _ _ (by decide)
      (occursB_placeholder_unit _ _ _ (by decide) (by decide) (by decide) (by decide)
        (occ_append_pl _ _ _ (by decide)
      (occursB_placeholder_unit _ _ _ (by decide) (by decide) (by decide) (by decide)
        (occ_nil_pl _)))))]
  rw [show ((("caldav://").data) ++ (encodeURIComponent p ++ (("/").data))) ++ (encodeURIComponent c ++ ((("/").data) ++ (placeholder (("comp").data) ++ ((("?filter=").data) ++ (placeholder (("jmes").data) ++ []))))) =
    (((("caldav://").data) ++ (encodeURIComponent p ++ (("/").data))) ++ (encodeURIComponent c ++ (("/").data))) ++
      (placeholder (("comp").data) ++ ((("?filter=").data) ++ (placeholder (("jmes").data) ++ []))) from by simp [List.append_assoc]]
  rw [replaceAll_decomp (("comp").data) (encodeURIComponent x)
    ((((("caldav://").data) ++ (encodeURIComponent p ++ (("/").data))) ++ (encodeURIComponent c ++ (("/").data))))
    (((("?filter=").data) ++ (placeholder (("jmes").data) ++ [])))
    (not_mem_append (not_mem_append (by decide) (not_mem_append (braceL_not_enc p) (by decide))) (not_mem_append (braceL_not_enc c) (by decide)))
    (occ_append_pl _ _ _ (by decide)
      (occursB_placeholder_unit _ _ _ (by decide) (by decide) (by decide) (by decide)
        (occ_nil_pl _)))]
  rw [show (((("caldav://").data) ++ (encodeURIComponent p ++ (("/").data))) ++ (encodeURIComponent c ++ (("/").data))) ++ (encodeURIComponent x ++ ((("?filter=").data) ++ (placeholder (("jmes").data) ++ []))) =
    ((((("caldav://").data) ++ (encodeURIComponent p ++ (("/").data))) ++ (encodeURIComponent c ++ (("/").data))) ++ (encodeURIComponent x ++ (("?filter=").data))) ++
      (placeholder (("jmes").data) ++ []) from by simp [List.append_assoc]]
  rw [replaceAll_decomp (("jmes").data) (encodeURIComponent j)
    (((((("caldav://").data) ++ (encodeURIComponent p ++ (("/").data))) ++ (encodeURIComponent c ++ (("/").data))) ++ (encodeURIComponent x ++ (("?filter=").data))))
    ([])
    (not_mem_append (not_mem_append (not_mem_append (by decide) (not_mem_append (braceL_not_enc p) (by decide))) (not_mem_append (braceL_not_enc c) (by decide))) (not_mem_append (braceL_not_enc x) (by decide)))
    (occ_nil_pl _)]
  rw [templateVarNames_brace_free _
    (not_mem_append (not_mem_append (not_mem_append (not_mem_append (by decide) (not_mem_append (braceL_not_enc p) (by decide))) (not_mem_append (braceL_not_enc c) (by decide))) (not_mem_append (braceL_not_enc x) (by decide))) (not_mem_append (braceL_not_enc j) (by intro hm; simp at hm)))]
  simp [List.append_assoc]

theorem build_range (p c x s e : Str) (hp : p ≠ []) (hc : c ≠ []) (hx : x ≠ [])
    (hmem : ([("VEVENT").data, ("VTODO").data, ("VJOURNAL").data]).contains x = true)
    (hs : isoDateTimeTest s = true) (he : isoDateTimeTest e = true) :
    buildCalDavUri (("components-range").data)
      [(("principal").data, p), (("calendarId").data, c), (("comp").data, x), (("start").data, s), (("end").data, e)] =
      .ok (((("caldav://").data) ++ (encodeURIComponent p ++ ((("/").data) ++ (encodeURIComponent c ++ ((("/").data) ++ (encodeURIComponent x ++ ((("?start=").data) ++ (encodeURIComponent s ++ ((("&end=").data) ++ encodeURIComponent e)))))))))) := by
  unfold buildCalDavUri
  rw [show getTemplate (("components-range").data) = some tplRange from by decide]
  dsimp only
  rw [valid_range p c x s e hp hc hx hmem hs he]
  rw [if_neg (by decide)]
  rw [List.foldl_cons, List.foldl_cons, List.foldl_cons, List.foldl_cons, List.foldl_cons, List.foldl_nil]
  dsimp only
  rw [show tplRange.uriTemplate = ((("caldav://").data) ++ (placeholder (("principal").data) ++ ((("/").data) ++ (placeholder (("calendarId").data) ++ ((("/").data) ++ (placeholder (("comp").data) ++ ((("?start=").data) ++ (placeholder (("start").data) ++ ((("&end=").data) ++ (placeholder (("end").data) ++ [])))))))))) from by decide]
  rw [replaceAll_decomp (("principal").data) (encodeURIComponent p)
    ((("caldav://").data))
    (((("/").data) ++ (placeholder (("calendarId").data) ++ ((("/").data) ++ (placeholder (("comp").data) ++ ((("?start=").data) ++ (placeholder (("start").data) ++ ((("&end=").data) ++ (placeholder (("end").data) ++ [])))))))))
    (by decide)
    (occ_append_pl _ _ _ (by decide)
      (occursB_placeholder_unit _ _ _ (by decide) (by decide) (by decide) (by decide)
        (occ_append_pl _ _ _ (by decide)
      (occursB_placeholder_unit _ _ _ (by decide) (by decide) (by decide) (by decide)
        (occ_append_pl _ _ _ (by decide)
      (occursB_placeholder_unit _ _ _ (by decide) (by decide) (by decide) (by decide)
        (occ_append_pl _ _ _ (by decide)
      (occursB_placeholder_unit _ _ _ (by decide) (by decide) (by decide) (by decide)
        (occ_nil_pl _)))))))))]
  rw [show (("caldav://").data) ++ (encodeURIComponent p ++ ((("/").data) ++ (placeholder (("calendarId").data) ++ ((("/").data) ++ (placeholder (("comp").data) ++ ((("?start=").data) ++ (placeholder (("start").data) ++ ((("&end=").data) ++ (placeholder (("end").data) ++ []))))))))) =
    ((("caldav://").data) ++ (encodeURIComponent p ++ (("/").data))) ++
      (placeholder (("calendarId").data) ++ ((("/").data) ++ (placeholder (("comp").data) ++ ((("?start=").data) ++ (placeholder (("start").data) ++ ((("&end=").data) ++ (placeholder (("end").data) ++ []))))))) from by simp [List.append_assoc]]
  rw [replaceAll_decomp (("calendarId").data) (encodeURIComponent c)
    (((("caldav://").data) ++ (encodeURIComponent p ++ (("/").data))))
    (((("/").data) ++ (placeholder (("comp").data) ++ ((("?start=").data) ++ (placeholder (("start").data) ++ ((("&end=").data) ++ (placeholder (("end").data) ++ [])))))))
    (not_mem_append (by decide) (not_mem_append (braceL_not_enc p) (by decide)))
    (occ_append_pl _ _ _ (by decide)
      (occursB_placeholder_unit _ _ _ (by decide) (by decide) (by decide) (by decide)
        (occ_append_pl _ _ _ (by decide)
      (occursB_placeholder_unit _ _ _ (by decide) (by decide) (by decide) (by decide)
        (occ_append_pl _ _ _ (by decide)
      (occursB_placeholder_unit _ _ _ (by decide) (by decide) (by decide) (by decide)
        (occ_nil_pl _)))))))]
  rw [show ((("caldav://").data) ++ (encodeURIComponent p ++ (("/").data))) ++ (encodeURIComponent c ++ ((("/").data) ++ (placeholder (("comp").data) ++ ((("?start=").data) ++ (placeholder (("start").data) ++ ((("&end=").data) ++ (placeholder (("end").data) ++ []))))))) =
    (((("caldav://").data) ++ (encodeURIComponent p ++ (("/").data))) ++ (encodeURIComponent c ++ (("/").data))) ++
      (placeholder (("comp").data) ++ ((("?start=").data) ++ (placeholder (("start").data) ++ ((("&end=").data) ++ (placeholder (("end").data) ++ []))))) from by simp [List.append_assoc]]
  rw [replaceAll_decomp (("comp").data) (encodeURIComponent x)
    ((((("caldav://").data) ++ (encodeURIComponent p ++ (("/").data))) ++ (encodeURIComponent c ++ (("/").data))))
    (((("?start=").data) ++ (placeholder (("start").data) ++ ((("&end=").data) ++ (placeholder (("end").data) ++ [])))))
    (not_mem_append (not_mem_append (by decide) (not_mem_append (braceL_not_enc p) (by decide))) (not_mem_append (braceL_not_enc c) (by decide)))
    (occ_append_pl _ _ _ (by decide)
      (occursB_placeholder_unit _ _ _ (by decide) (by decide) (by decide) (by decide)
        (occ_append_pl _ _ _ (by decide)
      (occursB_placeholder_unit _ _ _ (by decide) (by decide) (by decide) (by decide)
        (occ_nil_pl _)))))]
  rw [show (((("caldav://").data) ++ (encodeURIComponent p ++ (("/").data))) ++ (encodeURIComponent c ++ (("/").data))) ++ (encodeURIComponent x ++ ((("?start=").data) ++ (placeholder (("start").data) ++ ((("&end=").data) ++ (placeholder (("end").data) ++ []))))) =
    ((((("caldav://").data) ++ (encodeURIComponent p ++ (("/").data))) ++ (encodeURIComponent c ++ (("/").data))) ++ (encodeURIComponent x ++ (("?start=").data))) ++
      (placeholder (("start").data) ++ ((("&end=").data) ++ (placeholder (("end").data) ++ []))) from by simp [List.append_assoc]]
  rw [replaceAll_decomp (("start").data) (encodeURIComponent s)
    (((((("caldav://").data) ++ (encodeURIComponent p ++ (("/").data))) ++ (encodeURIComponent c ++ (("/").data))) ++ (encodeURIComponent x ++ (("?start=").data))))
    (((("&end=").data) ++ (placeholder (("end").data) ++ [])))
    (not_mem_append (not_mem_append (not_mem_append (by decide) (not_mem_append (braceL_not_enc p) (by decide))) (not_mem_append (braceL_not_enc c) (by decide))) (not_mem_append (braceL_not_enc x) (by decide)))
    (occ_append_pl _ _ _ (by decide)
      (occursB_placeholder_unit _ _ _ (by decide) (by decide) (by decide) (by decide)
        (occ_nil_pl _)))]
  rw [show ((((("caldav://").data) ++ (encodeURIComponent p ++ (("/").data))) ++ (encodeURIComponent c ++ (("/").data))) ++ (encodeURIComponent x ++ (("?start=").data))) ++ (encodeURIComponent s ++ ((("&end=").data) ++ (placeholder (("end").data) ++ []))) =
    (((((("caldav://").data) ++ (encodeURIComponent p ++ (("/").data))) ++ (encodeURIComponent c ++ (("/").data))) ++ (encodeURIComponent x ++ (("?start=").data))) ++ (encodeURIComponent s ++ (("&end=").data))) ++
      (placeholder (("end").data) ++ []) from by simp [List.append_assoc]]
  rw [replaceAll_decomp (("end").data) (encodeURIComponent e)
    ((((((("caldav://").data) ++ (encodeURIComponent p ++ (("/").data))) ++ (encodeURIComponent c ++ (("/").data))) ++ (encodeURIComponent x ++ (("?start=").data))) ++ (encodeURIComponent s ++ (("&end=").data))))
    ([])
    (not_mem_append (not_mem_append (not_mem_append (not_mem_append (by decide) (not_mem_append (braceL_not_enc p) (by decide))) (not_mem_append (braceL_not_enc c) (by decide))) (not_mem_append (braceL_not_enc x) (by decide))) (not_mem_append (braceL_not_enc s) (by decide)))
    (occ_nil_pl _)]
  rw [templateVarNames_brace_free _
    (not_mem_append (not_mem_append (not_mem_append (not_mem_append (not_mem_append (by decide) (not_mem_append (braceL_not_enc p) (by decide))) (not_mem_append (braceL_not_enc c) (by decide))) (not_mem_append (braceL_not_enc x) (by decide))) (not_mem_append (braceL_not_enc s) (by decide))) (not_mem_append (braceL_not_enc e) (by intro hm; simp at hm)))]
  simp [List.append_assoc]



theorem parseQueryString_cons (c0 : Char) (t : Str) (hc0 : c0 ≠ '?') :
    parseQueryString (c0 :: t) = (splitChar '&' (c0 :: t)).filterMap (fun piece =>
      match piece with
      | [] => none
      | _ => some (decodeLenient (plusToSpace (splitAtEq piece).1),
          decodeLenient (plusToSpace (splitAtEq piece).2))) := by
  unfold parseQueryString
  split
  · rename_i r heq
    injection heq with he1 he2
    exact absurd he1 hc0
  · rfl

theorem parseQS_one (k v : Str) (hk0 : k ≠ []) (hkq : ('?' : Char) ∉ k)
    (hkamp : ('&' : Char) ∉ k) (hkeq : ('=' : Char) ∉ k) (hvamp : ('&' : Char) ∉ v) :
    parseQueryString (k ++ '=' :: v) =
      [(decodeLenient (plusToSpace k), decodeLenient (plusToSpace v))] := by
  obtain ⟨c0, k', rfl⟩ : ∃ c0 k', k = c0 :: k' := by
    cases k with
    | nil => exact absurd rfl hk0
    | cons a t => exact ⟨a, t, rfl⟩
  have hc0 : c0 ≠ '?' := fun he => hkq (by rw [← he]; simp)
  have hamp : ('&' : Char) ∉ (c0 :: k') ++ '=' :: v := by
    intro hm
    rcases List.mem_append.mp hm with h | h
    · exact hkamp h
    · rcases List.mem_cons.mp h with h1 | h1
      · exact absurd h1 (by decide)
      · exact hvamp h1
  rw [List.cons_append, parseQueryString_cons c0 _ hc0, ← List.cons_append]
  rw [splitChar_no_sep '&' _ hamp]
  rw [List.filterMap_cons, List.filterMap_nil]
  have hsp : splitAtEq ((c0 :: k') ++ '=' :: v) = (c0 :: k', v) :=
    splitAtEq_append _ _ hkeq
  rw [List.cons_append] at hsp
  simp [hsp]

theorem parseQS_two (k1 v1 k2 v2 : Str) (hk1 : k1 ≠ []) (hk2 : k2 ≠ [])
    (hkq : ('?' : Char) ∉ k1)
    (hamp1 : ('&' : Char) ∉ k1) (heq1 : ('=' : Char) ∉ k1)
    (hamp1v : ('&' : Char) ∉ v1)
    (hamp2 : ('&' : Char) ∉ k2) (heq2 : ('=' : Char) ∉ k2)
    (hamp2v : ('&' : Char) ∉ v2) :
    parseQueryString (k1 ++ '=' :: (v1 ++ '&' :: (k2 ++ '=' :: v2))) =
      [(decodeLenient (plusToSpace k1), decodeLenient (plusToSpace v1)),
       (decodeLenient (plusToSpace k2), decodeLenient (plusToSpace v2))] := by
  obtain ⟨c0, k', rfl⟩ : ∃ c0 k', k1 = c0 :: k' := by
    cases k1 with
    | nil => exact absurd rfl hk1
    | cons a t => exact ⟨a, t, rfl⟩
  obtain ⟨d0, k2', rfl⟩ : ∃ d0 k2', k2 = d0 :: k2' := by
    cases k2 with
    | nil => exact absurd rfl hk2
    | cons a t => exact ⟨a, t, rfl⟩
  have hc0 : c0 ≠ '?' := fun he => hkq (by rw [← he]; simp)
  have hamp1' : ('&' : Char) ∉ (c0 :: k') ++ '=' :: v1 := by
    intro hm
    rcases List.mem_append.mp hm with h | h
    · exact hamp1 h
    · rcases List.mem_cons.mp h with h1 | h1
      · exact absurd h1 (by decide)
      · exact hamp1v h1
  have hamp2' : ('&' : Char) ∉ (d0 :: k2') ++ '=' :: v2 := by
    intro hm
    rcases List.mem_append.mp hm with h | h
    · exact hamp2 h
    · rcases List.mem_cons.mp h with h1 | h1
      · exact absurd h1 (by decide)
      · exact hamp2v h1
  rw [List.cons_append, parseQueryString_cons c0 _ hc0, ← List.cons_append]
  rw [show (c0 :: k') ++ '=' :: (v1 ++ '&' :: ((d0 :: k2') ++ '=' :: v2)) =
      ((c0 :: k') ++ '=' :: v1) ++ '&' :: ((d0 :: k2') ++ '=' :: v2) from by
      simp [List.append_assoc]]
  rw [splitChar_append '&' _ _ hamp1', splitChar_no_sep '&' _ hamp2']
  rw [List.filterMap_cons, List.filterMap_cons, List.filterMap_nil]
  have hsp1 : splitAtEq ((c0 :: k') ++ '=' :: v1) = (c0 :: k', v1) :=
    splitAtEq_append _ _ heq1
  have hsp2 : splitAtEq ((d0 :: k2') ++ '=' :: v2) = (d0 :: k2', v2) :=
    splitAtEq_append _ _ heq2
  rw [List.cons_append] at hsp1 hsp2
  simp [hsp1, hsp2]

theorem searchParamsGet_hd (nm v : Str) (rest : List (Str × Str)) :
    searchParamsGet nm ((nm, v) :: rest) = some v := by
  simp [searchParamsGet, List.find?]

theorem searchParamsGet_ne (nm k v : Str) (rest : List (Str × Str)) (h : k ≠ nm) :
    searchParamsGet nm ((k, v) :: rest) = searchParamsGet nm rest := by
  simp [searchParamsGet, List.find?, h]

theorem searchParamsGet_nil (nm : Str) : searchParamsGet nm [] = none := rfl



theorem enc_not_q (s : Str) : ('?' : Char) ∉ encodeURIComponent s :=
  enc_not_mem '?' (by decide) (by decide) (by decide) (by decide) s

theorem enc_not_slash (s : Str) : ('/' : Char) ∉ encodeURIComponent s :=
  enc_not_mem '/' (by decide) (by decide) (by decide) (by decide) s

theorem endsWith_false_of_last (p s : Str) (cp cs : Char)
    (hp : p.getLast? = some cp) (hs : s.getLast? = some cs) (hne : cp ≠ cs) :
    strEndsWith p s = false := by
  cases hb : strEndsWith p s with
  | false => rfl
  | true =>
    obtain ⟨T, hT⟩ := (strEndsWith_iff_suffix p s).mp hb
    have hpne : p ≠ [] := by
      intro he
      rw [he] at hp
      simp at hp
    rw [← hT, getLast?_append_right T p hpne, hp] at hs
    injection hs with he
    exact absurd he hne

theorem tryParse_meta_ok (p : Str) (hp : p ≠ []) :
    tryParseWithTemplate (encodeURIComponent p ++ ("/_meta/calendars").data) tplMeta =
      .ok (some [(("principal").data, p)]) := by
  have hq : ('?' : Char) ∉ encodeURIComponent p ++ ("/_meta/calendars").data :=
    not_mem_append (enc_not_q p) (by decide)
  unfold tryParseWithTemplate
  rw [splitChar_no_sep '?' _ hq]
  simp only [List.headI, List.get?]
  rw [if_neg (by decide), if_pos (by decide)]
  rw [if_neg (by rw [endsWith_append_self]; decide)]
  have htake : (encodeURIComponent p ++ ("/_meta/calendars").data).take
      ((encodeURIComponent p ++ ("/_meta/calendars").data).length - 16) =
      encodeURIComponent p := by
    rw [List.length_append,
      show (encodeURIComponent p).length + (("/_meta/calendars").data).length - 16 =
        (encodeURIComponent p).length from by simp]
    exact List.take_left _ _
  rw [htake, decode_enc p]
  rfl



theorem not_mem_path2 (a : Char) (X Y : Str) (hX : a ∉ X) (hslash : a ≠ '/')
    (hY : a ∉ Y) : a ∉ X ++ '/' :: Y := by
  intro hm
  rcases List.mem_append.mp hm with h | h
  · exact hX h
  · rcases List.mem_cons.mp h with h1 | h1
    · exact hslash h1
    · exact hY h1

theorem dl_key (k : Str) (hk : decodeLenient (plusToSpace k) = k) :
    decodeLenient (plusToSpace k) = k := hk



theorem enc_not_amp (s : Str) : ('&' : Char) ∉ encodeURIComponent s :=
  enc_not_mem '&' (by decide) (by decide) (by decide) (by decide) s

theorem params_cat (v : Str) :
    parseQueryString (("cat=").data ++ encodeURIComponent v) = [(("cat").data, v)] := by
  rw [show ("cat=").data ++ encodeURIComponent v =
    ("cat").data ++ '=' :: encodeURIComponent v from rfl]
  rw [parseQS_one _ _ (by decide) (by decide) (by decide) (by decide) (enc_not_amp v)]
  rw [plusToSpace_enc, decodeLenient_enc]
  rw [show decodeLenient (plusToSpace (("cat").data)) = ("cat").data from by decide]

theorem tryParse_bycat_on_bycat (p c v : Str) (hc : c ≠ []) (hv : v ≠ []) :
    tryParseWithTemplate
      ((encodeURIComponent p ++ '/' :: (encodeURIComponent c ++ ("/VTODO").data)) ++
        '?' :: (("cat=").data ++ encodeURIComponent v)) tplByCat =
      .ok (some [(("principal").data, p), (("calendarId").data, c),
        (("cat").data, v)]) := by
  have hqp : ('?' : Char) ∉
      encodeURIComponent p ++ '/' :: (encodeURIComponent c ++ ("/VTODO").data) :=
    not_mem_path2 '?' _ _ (enc_not_q p) (by decide)
      (not_mem_append (enc_not_q c) (by decide))
  have hq2 : ('?' : Char) ∉ ("cat=").data ++ encodeURIComponent v :=
    not_mem_append (by decide) (enc_not_q v)
  unfold tryParseWithTemplate
  rw [splitChar_append '?' _ _ hqp, splitChar_no_sep '?' _ hq2]
  simp only [List.headI, List.get?]
  rw [if_pos (by decide)]
  rw [show encodeURIComponent p ++ '/' :: (encodeURIComponent c ++ ("/VTODO").data) =
    (encodeURIComponent p ++ '/' :: encodeURIComponent c) ++ ("/VTODO").data from by
      simp]
  rw [if_neg (by rw [endsWith_append_self]; decide)]
  have htake : ((encodeURIComponent p ++ '/' :: encodeURIComponent c) ++
      ("/VTODO").data).take
      (((encodeURIComponent p ++ '/' :: encodeURIComponent c) ++
        ("/VTODO").data).length - 6) =
      encodeURIComponent p ++ '/' :: encodeURIComponent c := by
    rw [List.length_append,
      show (encodeURIComponent p ++ '/' :: encodeURIComponent c).length +
          (("/VTODO").data).length - 6 =
        (encodeURIComponent p ++ '/' :: encodeURIComponent c).length from by simp]
    exact List.take_left _ _
  rw [htake]
  rw [splitChar_append '/' _ _ (enc_not_slash p),
    splitChar_no_sep '/' _ (enc_not_slash c)]
  rw [if_neg (by simp)]
  rw [show (([encodeURIComponent p, encodeURIComponent c] : List Str).getLast?).getD [] =
    encodeURIComponent c from by simp]
  rw [show joinSep (("/").data)
    ([encodeURIComponent p, encodeURIComponent c] : List Str).dropLast =
    encodeURIComponent p from by simp [joinSep]]
  rw [decode_enc p]
  simp only [Bind.bind, Except.bind]
  rw [if_pos (enc_ne_nil c hc), decode_enc c]
  simp only [Bind.bind, Except.bind]
  simp [strTruthy,
    show templateVarNames (("cat={cat}").data) = [("cat").data] from by decide]
  rw [show ('c' :: 'a' :: 't' :: '=' :: encodeURIComponent v : Str) =
    (("cat=").data ++ encodeURIComponent v) from rfl, params_cat v]
  simp [searchParamsGet_hd]




theorem tryParse_bycat_none_q (path q : Str) (hpq : ('?' : Char) ∉ path)
    (hq : ('?' : Char) ∉ q) (hend : strEndsWith (("/VTODO").data) path = false) :
    tryParseWithTemplate (path ++ '?' :: q) tplByCat = .ok none := by
  unfold tryParseWithTemplate
  rw [splitChar_append '?' _ _ hpq, splitChar_no_sep '?' _ hq]
  simp only [List.headI, List.get?]
  rw [if_pos (by decide)]
  rw [if_pos (by rw [hend]; decide)]
  rfl

theorem tryParse_meta_none_q (path q : Str) (hpq : ('?' : Char) ∉ path)
    (hq : ('?' : Char) ∉ q)
    (hend : strEndsWith (("/_meta/calendars").data) path = false) :
    tryParseWithTemplate (path ++ '?' :: q) tplMeta = .ok none := by
  unfold tryParseWithTemplate
  rw [splitChar_append '?' _ _ hpq, splitChar_no_sep '?' _ hq]
  simp only [List.headI, List.get?]
  rw [if_neg (by decide), if_pos (by decide)]
  rw [if_pos (by rw [hend]; decide)]
  rfl

theorem tryParse_meta_none_noq (path : Str) (hpq : ('?' : Char) ∉ path)
    (hend : strEndsWith (("/_meta/calendars").data) path = false) :
    tryParseWithTemplate path tplMeta = .ok none := by
  unfold tryParseWithTemplate
  rw [splitChar_no_sep '?' _ hpq]
  simp only [List.headI, List.get?]
  rw [if_neg (by decide), if_pos (by decide)]
  rw [if_pos (by rw [hend]; decide)]
  rfl

theorem decodeVars_enc3 (n1 n2 n3 p c x : Str) :
    decodeVars [(n1, encodeURIComponent p), (n2, encodeURIComponent c),
      (n3, encodeURIComponent x)] = .ok [(n1, p), (n2, c), (n3, x)] := by
  simp [decodeVars, decode_enc, Bind.bind, Except.bind]



theorem tryParse_range_q (p c x3 q : Str) (hp : p ≠ []) (hc : c ≠ []) (hx3 : x3 ≠ [])
    (hq : ('?' : Char) ∉ q) (hqne : q ≠ []) :
    tryParseWithTemplate
      ((encodeURIComponent p ++ '/' :: (encodeURIComponent c ++ '/' ::
        encodeURIComponent x3)) ++ '?' :: q) tplRange =
      .ok (some ([(("principal").data, p), (("calendarId").data, c),
        (("comp").data, x3)] ++
        ((templateVarNames (("start={start}&end={end}").data)).filterMap (fun nm =>
          (searchParamsGet nm (parseQueryString q)).map (fun v => (nm, v)))))) := by
  have hqp : ('?' : Char) ∉ encodeURIComponent p ++ '/' ::
      (encodeURIComponent c ++ '/' :: encodeURIComponent x3) :=
    not_mem_path2 '?' _ _ (enc_not_q p) (by decide)
      (not_mem_path2 '?' _ _ (enc_not_q c) (by decide) (enc_not_q x3))
  unfold tryParseWithTemplate
  rw [splitChar_append '?' _ _ hqp, splitChar_no_sep '?' _ hq]
  rw [show splitChar '?' (removeFirst (("caldav://").data) tplRange.uriTemplate) =
    [("{principal}/{calendarId}/{comp}").data, ("start={start}&end={end}").data]
    from by decide]
  simp only [List.headI, List.get?]
  rw [if_neg (by decide), if_neg (by decide)]
  rw [show tokenizePath (("{principal}/{calendarId}/{comp}").data) =
    [.varTok ("principal").data, .lit '/', .varTok ("calendarId").data, .lit '/',
      .varTok ("comp").data] from by decide]
  rw [matchToks3 (("calendarId").data) (("comp").data) (by decide) (by decide)
    _ _ _ (enc_ne_nil p hp) (enc_not_slash p) (enc_all_dotOK p)
    (enc_ne_nil c hc) (enc_all_varOK c) (enc_ne_nil x3 hx3) (enc_all_varOK x3)]
  rw [strTruthy_of_ne q hqne,
    show strTruthy (some (("start={start}&end={end}").data)) = true from by decide]
  simp [Bind.bind, Except.bind, decodeVars_enc3]

theorem tryParse_query_q (p c x3 q : Str) (hp : p ≠ []) (hc : c ≠ []) (hx3 : x3 ≠ [])
    (hq : ('?' : Char) ∉ q) (hqne : q ≠ []) :
    tryParseWithTemplate
      ((encodeURIComponent p ++ '/' :: (encodeURIComponent c ++ '/' ::
        encodeURIComponent x3)) ++ '?' :: q) tplQuery =
      .ok (some ([(("principal").data, p), (("calendarId").data, c),
        (("comp").data, x3)] ++
        ((templateVarNames (("filter={jmes}").data)).filterMap (fun nm =>
          (searchParamsGet nm (parseQueryString q)).map (fun v => (nm, v)))))) := by
  have hqp : ('?' : Char) ∉ encodeURIComponent p ++ '/' ::
      (encodeURIComponent c ++ '/' :: encodeURIComponent x3) :=
    not_mem_path2 '?' _ _ (enc_not_q p) (by decide)
      (not_mem_path2 '?' _ _ (enc_not_q c) (by decide) (enc_not_q x3))
  unfold tryParseWithTemplate
  rw [splitChar_append '?' _ _ hqp, splitChar_no_sep '?' _ hq]
  rw [show splitChar '?' (removeFirst (("caldav://").data) tplQuery.uriTemplate) =
    [("{principal}/{calendarId}/{comp}").data, ("filter={jmes}").data]
    from by decide]
  simp only [List.headI, List.get?]
  rw [if_neg (by decide), if_neg (by decide)]
  rw [show tokenizePath (("{principal}/{calendarId}/{comp}").data) =
    [.varTok ("principal").data, .lit '/', .varTok ("calendarId").data, .lit '/',
      .varTok ("comp").data] from by decide]
  rw [matchToks3 (("calendarId").data) (("comp").data) (by decide) (by decide)
    _ _ _ (enc_ne_nil p hp) (enc_not_slash p) (enc_all_dotOK p)
    (enc_ne_nil c hc) (enc_all_varOK c) (enc_ne_nil x3 hx3) (enc_all_varOK x3)]
  rw [strTruthy_of_ne q hqne,
    show strTruthy (some (("filter={jmes}").data)) = true from by decide]
  simp [Bind.bind, Except.bind, decodeVars_enc3]

theorem tryParse_range_noq (p c x3 : Str) (hp : p ≠ []) (hc : c ≠ []) (hx3 : x3 ≠ []) :
    tryParseWithTemplate
      (encodeURIComponent p ++ '/' :: (encodeURIComponent c ++ '/' ::
        encodeURIComponent x3)) tplRange = .ok none := by
  have hqp : ('?' : Char) ∉ encodeURIComponent p ++ '/' ::
      (encodeURIComponent c ++ '/' :: encodeURIComponent x3) :=
    not_mem_path2 '?' _ _ (enc_not_q p) (by decide)
      (not_mem_path2 '?' _ _ (enc_not_q c) (by decide) (enc_not_q x3))
  unfold tryParseWithTemplate
  rw [splitChar_no_sep '?' _ hqp]
  rw [show splitChar '?' (removeFirst (("caldav://").data) tplRange.uriTemplate) =
    [("{principal}/{calendarId}/{comp}").data, ("start={start}&end={end}").data]
    from by decide]
  simp only [List.headI, List.get?]
  rw [if_neg (by decide), if_neg (by decide)]
  rw [show tokenizePath (("{principal}/{calendarId}/{comp}").data) =
    [.varTok ("principal").data, .lit '/', .varTok ("calendarId").data, .lit '/',
      .varTok ("comp").data] from by decide]
  rw [matchToks3 (("calendarId").data) (("comp").data) (by decide) (by decide)
    _ _ _ (enc_ne_nil p hp) (enc_not_slash p) (enc_all_dotOK p)
    (enc_ne_nil c hc) (enc_all_varOK c) (enc_ne_nil x3 hx3) (enc_all_varOK x3)]
  simp [Bind.bind, Except.bind, decodeVars_enc3, strTruthy,
    show strTruthy (none : Option Str) = false from rfl]

theorem tryParse_query_noq (p c x3 : Str) (hp : p ≠ []) (hc : c ≠ []) (hx3 : x3 ≠ []) :
    tryParseWithTemplate
      (encodeURIComponent p ++ '/' :: (encodeURIComponent c ++ '/' ::
        encodeURIComponent x3)) tplQuery = .ok none := by
  have hqp : ('?' : Char) ∉ encodeURIComponent p ++ '/' ::
      (encodeURIComponent c ++ '/' :: encodeURIComponent x3) :=
    not_mem_path2 '?' _ _ (enc_not_q p) (by decide)
      (not_mem_path2 '?' _ _ (enc_not_q c) (by decide) (enc_not_q x3))
  unfold tryParseWithTemplate
  rw [splitChar_no_sep '?' _ hqp]
  rw [show splitChar '?' (removeFirst (("caldav://").data) tplQuery.uriTemplate) =
    [("{principal}/{calendarId}/{comp}").data, ("filter={jmes}").data]
    from by decide]
  simp only [List.headI, List.get?]
  rw [if_neg (by decide), if_neg (by decide)]
  rw [show tokenizePath (("{principal}/{calendarId}/{comp}").data) =
    [.varTok ("principal").data, .lit '/', .varTok ("calendarId").data, .lit '/',
      .varTok ("comp").data] from by decide]
  rw [matchToks3 (("calendarId").data) (("comp").data) (by decide) (by decide)
    _ _ _ (enc_ne_nil p hp) (enc_not_slash p) (enc_all_dotOK p)
    (enc_ne_nil c hc) (enc_all_varOK c) (enc_ne_nil x3 hx3) (enc_all_varOK x3)]
  simp [Bind.bind, Except.bind, decodeVars_enc3, strTruthy,
    show strTruthy (none : Option Str) = false from rfl]

theorem tryParse_byuid_ok (p c u : Str) (hp : p ≠ []) (hc : c ≠ []) (hu : u ≠ []) :
    tryParseWithTemplate
      (encodeURIComponent p ++ '/' :: (encodeURIComponent c ++ '/' ::
        encodeURIComponent u)) tplByUid =
      .ok (some [(("principal").data, p), (("calendarId").data, c),
        (("uid").data, u)]) := by
  have hqp : ('?' : Char) ∉ encodeURIComponent p ++ '/' ::
      (encodeURIComponent c ++ '/' :: encodeURIComponent u) :=
    not_mem_path2 '?' _ _ (enc_not_q p) (by decide)
      (not_mem_path2 '?' _ _ (enc_not_q c) (by decide) (enc_not_q u))
  unfold tryParseWithTemplate
  rw [splitChar_no_sep '?' _ hqp]
  rw [show splitChar '?' (removeFirst (("caldav://").data) tplByUid.uriTemplate) =
    [("{principal}/{calendarId}/{uid}").data] from by decide]
  simp only [List.headI, List.get?]
  rw [if_neg (by decide), if_neg (by decide)]
  rw [show tokenizePath (("{principal}/{calendarId}/{uid}").data) =
    [.varTok ("principal").data, .lit '/', .varTok ("calendarId").data, .lit '/',
      .varTok ("uid").data] from by decide]
  rw [matchToks3 (("calendarId").data) (("uid").data) (by decide) (by decide)
    _ _ _ (enc_ne_nil p hp) (enc_not_slash p) (enc_all_dotOK p)
    (enc_ne_nil c hc) (enc_all_varOK c) (enc_ne_nil u hu) (enc_all_varOK u)]
  simp [Bind.bind, Except.bind, decodeVars_enc3, strTruthy,
    show strTruthy (none : Option Str) = false from rfl]



theorem tryParse_bycat_none_noq (path : Str) (hpq : ('?' : Char) ∉ path)
    (hend : strEndsWith (("/VTODO").data) path = false) :
    tryParseWithTemplate path tplByCat = .ok none := by
  unfold tryParseWithTemplate
  rw [splitChar_no_sep '?' _ hpq]
  simp only [List.headI, List.get?]
  rw [if_pos (by decide)]
  rw [if_pos (by rw [hend]; decide)]
  rfl

theorem getLast?_path3 (A B C : Str) (c0 : Char) (hC : C.getLast? = some c0)
    (hCne : C ≠ []) :
    (A ++ '/' :: (B ++ '/' :: C)).getLast? = some c0 := by
  rw [getLast?_append_right _ _ (by simp)]
  rw [getLast?_cons_of_ne _ _ (by simp)]
  rw [getLast?_append_right _ _ (by simp)]
  rw [getLast?_cons_of_ne _ _ hCne]
  exact hC

theorem tryParse_bycat_on_uidpath (p c u : Str) (hc : c ≠ []) (hu : u ≠ []) :
    tryParseWithTemplate (encodeURIComponent p ++ '/' ::
      (encodeURIComponent c ++ '/' :: encodeURIComponent u)) tplByCat =
      .ok none := by
  have hqp : ('?' : Char) ∉ encodeURIComponent p ++ '/' ::
      (encodeURIComponent c ++ '/' :: encodeURIComponent u) :=
    not_mem_path2 '?' _ _ (enc_not_q p) (by decide)
      (not_mem_path2 '?' _ _ (enc_not_q c) (by decide) (enc_not_q u))
  by_cases hvt : encodeURIComponent u = ("VTODO").data
  · rw [hvt]
    unfold tryParseWithTemplate
    rw [splitChar_no_sep '?' _ (by rw [← hvt]; exact hqp)]
    simp only [List.headI, List.get?]
    rw [if_pos (by decide)]
    rw [show encodeURIComponent p ++ '/' ::
        (encodeURIComponent c ++ '/' :: (("VTODO").data)) =
      (encodeURIComponent p ++ '/' :: encodeURIComponent c) ++ ("/VTODO").data from by
        simp]
    rw [if_neg (by rw [endsWith_append_self]; decide)]
    have htake : ((encodeURIComponent p ++ '/' :: encodeURIComponent c) ++
        ("/VTODO").data).take
        (((encodeURIComponent p ++ '/' :: encodeURIComponent c) ++
          ("/VTODO").data).length - 6) =
        encodeURIComponent p ++ '/' :: encodeURIComponent c := by
      rw [List.length_append,
        show (encodeURIComponent p ++ '/' :: encodeURIComponent c).length +
            (("/VTODO").data).length - 6 =
          (encodeURIComponent p ++ '/' :: encodeURIComponent c).length from by simp]
      exact List.take_left _ _
    rw [htake]
    rw [splitChar_append '/' _ _ (enc_not_slash p),
      splitChar_no_sep '/' _ (enc_not_slash c)]
    rw [if_neg (by simp)]
    rw [show (([encodeURIComponent p, encodeURIComponent c] :
        List Str).getLast?).getD [] = encodeURIComponent c from by simp]
    rw [show joinSep (("/").data)
      ([encodeURIComponent p, encodeURIComponent c] : List Str).dropLast =
      encodeURIComponent p from by simp [joinSep]]
    rw [decode_enc p]
    simp only [Bind.bind, Except.bind]
    rw [if_pos (enc_ne_nil c hc), decode_enc c]
    simp [strTruthy, show strTruthy (none : Option Str) = false from rfl]
  · have hend : strEndsWith (("/VTODO").data) (encodeURIComponent p ++ '/' ::
        (encodeURIComponent c ++ '/' :: encodeURIComponent u)) = false := by
      cases hb : strEndsWith (("/VTODO").data) (encodeURIComponent p ++ '/' ::
        (encodeURIComponent c ++ '/' :: encodeURIComponent u)) with
      | false => rfl
      | true =>
        have hsuf := (strEndsWith_iff_suffix _ _).mp hb
        rw [show encodeURIComponent p ++ '/' ::
            (encodeURIComponent c ++ '/' :: encodeURIComponent u) =
          (encodeURIComponent p ++ '/' :: encodeURIComponent c) ++ '/' ::
            encodeURIComponent u from by simp] at hsuf
        have hsuf2 : ('/' :: (("VTODO").data)) <:+
            ((encodeURIComponent p ++ '/' :: encodeURIComponent c) ++ '/' ::
              encodeURIComponent u) := hsuf
        have heq := (suffix_one_slash (("VTODO").data) (encodeURIComponent u)
          (by decide) (enc_not_slash u) _).mp hsuf2
        exact absurd heq.symm hvt
    exact tryParse_bycat_none_noq _ hqp hend

theorem tryParse_meta_none_uid (p c u : Str)
    (hnm : ¬(c = ("_meta").data ∧ u = ("calendars").data)) :
    tryParseWithTemplate (encodeURIComponent p ++ '/' ::
      (encodeURIComponent c ++ '/' :: encodeURIComponent u)) tplMeta =
      .ok none := by
  have hqp : ('?' : Char) ∉ encodeURIComponent p ++ '/' ::
      (encodeURIComponent c ++ '/' :: encodeURIComponent u) :=
    not_mem_path2 '?' _ _ (enc_not_q p) (by decide)
      (not_mem_path2 '?' _ _ (enc_not_q c) (by decide) (enc_not_q u))
  have hend : strEndsWith (("/_meta/calendars").data) (encodeURIComponent p ++ '/' ::
      (encodeURIComponent c ++ '/' :: encodeURIComponent u)) = false := by
    cases hb : strEndsWith (("/_meta/calendars").data) (encodeURIComponent p ++ '/' ::
      (encodeURIComponent c ++ '/' :: encodeURIComponent u)) with
    | false => rfl
    | true =>
      have hsuf := (strEndsWith_iff_suffix _ _).mp hb
      have hsuf2 : (('/' :: (("_meta").data)) ++ '/' :: (("calendars").data)) <:+
          (encodeURIComponent p ++ '/' ::
            (encodeURIComponent c ++ '/' :: encodeURIComponent u)) := hsuf
      have heq := (suffix_two_slash (("_meta").data) (("calendars").data)
        (encodeURIComponent c) (encodeURIComponent u) (by decide) (by decide)
        (enc_not_slash c) (enc_not_slash u) (encodeURIComponent p)
        (enc_not_slash p)).mp hsuf2
      have hcm : c = ("_meta").data := by
        have h1 := decode_enc c
        rw [← heq.1] at h1
        rw [show decodeURIComponentE (("_meta").data) = .ok (("_meta").data) from
          rfl] at h1
        injection h1 with he
        exact he.symm
      have hum : u = ("calendars").data := by
        have h1 := decode_enc u
        rw [← heq.2] at h1
        rw [show decodeURIComponentE (("calendars").data) =
          .ok (("calendars").data) from rfl] at h1
        injection h1 with he
        exact he.symm
      exact absurd (And.intro hcm hum) hnm
  exact tryParse_meta_none_noq _ hqp hend

theorem tryParse_bycat_none_meta (p : Str) :
    tryParseWithTemplate (encodeURIComponent p ++ ("/_meta/calendars").data)
      tplByCat = .ok none := by
  have hqp : ('?' : Char) ∉ encodeURIComponent p ++ ("/_meta/calendars").data :=
    not_mem_append (enc_not_q p) (by decide)
  have hend : strEndsWith (("/VTODO").data)
      (encodeURIComponent p ++ ("/_meta/calendars").data) = false :=
    endsWith_false_of_last _ _ 'O' 's' (by decide)
      (by rw [getLast?_append_right _ _ (by decide)]; decide) (by decide)
  exact tryParse_bycat_none_noq _ hqp hend



theorem parseLoop_cons_none (w : Str) (t : CalDavResourceTemplate)
    (ts : List CalDavResourceTemplate)
    (h : tryParseWithTemplate w t = .ok none) :
    parseLoop w (t :: ts) = parseLoop w ts := by
  rw [parseLoop, h]

theorem parseLoop_cons_ok (w : Str) (t : CalDavResourceTemplate)
    (ts : List CalDavResourceTemplate) (vars : List (Str × Str))
    (h : tryParseWithTemplate w t = .ok (some vars))
    (hv : (validateTemplateVariables t.name vars).isValid = true) :
    parseLoop w (t :: ts) = .ok ⟨t.name, vars, t⟩ := by
  unfold parseLoop
  rw [h]
  simp [hv]

theorem caldav_prefix_drop (w : Str) :
    (("caldav://").data ++ w).drop 9 = w := by
  rw [show (9 : Nat) = (("caldav://").data).length from by decide]
  exact List.drop_left _ _

theorem caldav_starts (w : Str) :
    strStartsWith (("caldav://").data) (("caldav://").data ++ w) = true :=
  isPrefixOf_append_self _ _

theorem parse_byuid_uri (p c u : Str) (hp : p ≠ []) (hc : c ≠ []) (hu : u ≠ [])
    (hnm : ¬(c = ("_meta").data ∧ u = ("calendars").data)) :
    parseCalDavUri ((("caldav://").data) ++ (encodeURIComponent p ++ (("/").data ++
      (encodeURIComponent c ++ (("/").data ++ encodeURIComponent u))))) =
      .ok ⟨("component-by-uid").data,
        [(("principal").data, p), (("calendarId").data, c), (("uid").data, u)],
        tplByUid⟩ := by
  rw [show (("caldav://").data) ++ (encodeURIComponent p ++ (("/").data ++
      (encodeURIComponent c ++ (("/").data ++ encodeURIComponent u)))) =
    (("caldav://").data) ++ (encodeURIComponent p ++ '/' ::
      (encodeURIComponent c ++ '/' :: encodeURIComponent u)) from by simp]
  unfold parseCalDavUri
  rw [if_neg (by rw [caldav_starts]; decide)]
  rw [caldav_prefix_drop, sorted_eval]
  rw [parseLoop_cons_none _ _ _ (tryParse_bycat_on_uidpath p c u hc hu)]
  rw [parseLoop_cons_none _ _ _ (tryParse_meta_none_uid p c u hnm)]
  rw [parseLoop_cons_none _ _ _ (tryParse_range_noq p c u hp hc hu)]
  rw [parseLoop_cons_none _ _ _ (tryParse_query_noq p c u hp hc hu)]
  rw [parseLoop_cons_ok _ _ _ _ (tryParse_byuid_ok p c u hp hc hu)
    (by rw [show tplByUid.name = ("component-by-uid").data from rfl,
      valid_byuid p c u hp hc hu])]
  rfl

theorem parse_meta_uri (p : Str) (hp : p ≠ []) :
    parseCalDavUri ((("caldav://").data) ++ (encodeURIComponent p ++
      ("/_meta/calendars").data)) =
      .ok ⟨("metadata-list-cals").data, [(("principal").data, p)], tplMeta⟩ := by
  unfold parseCalDavUri
  rw [if_neg (by rw [caldav_starts]; decide)]
  rw [caldav_prefix_drop, sorted_eval]
  rw [parseLoop_cons_none _ _ _ (tryParse_bycat_none_meta p)]
  rw [parseLoop_cons_ok _ _ _ _ (tryParse_meta_ok p hp)
    (by rw [show tplMeta.name = ("metadata-list-cals").data from rfl,
      valid_meta p hp])]
  rfl

theorem parse_bycat_uri (p c v : Str) (hp : p ≠ []) (hc : c ≠ []) (hv : v ≠ []) :
    parseCalDavUri ((("caldav://").data) ++ (encodeURIComponent p ++ (("/").data ++
      (encodeURIComponent c ++ (("/VTODO?cat=").data ++ encodeURIComponent v))))) =
      .ok ⟨("components-by-cat").data,
        [(("principal").data, p), (("calendarId").data, c), (("cat").data, v)],
        tplByCat⟩ := by
  rw [show (("caldav://").data) ++ (encodeURIComponent p ++ (("/").data ++
      (encodeURIComponent c ++ (("/VTODO?cat=").data ++ encodeURIComponent v)))) =
    (("caldav://").data) ++ ((encodeURIComponent p ++ '/' ::
      (encodeURIComponent c ++ ("/VTODO").data)) ++ '?' ::
        ((("cat=").data ++ encodeURIComponent v))) from by simp]
  unfold parseCalDavUri
  rw [if_neg (by rw [caldav_starts]; decide)]
  rw [caldav_prefix_drop, sorted_eval]
  rw [parseLoop_cons_ok _ _ _ _ (tryParse_bycat_on_bycat p c v hc hv)
    (by rw [show tplByCat.name = ("components-by-cat").data from rfl,
      valid_bycat p c v hp hc hv])]
  rfl



theorem params_range (s e : Str) :
    parseQueryString ((("start").data) ++ '=' :: (encodeURIComponent s ++ '&' ::
      ((("end").data) ++ '=' :: encodeURIComponent e))) =
      [(("start").data, s), (("end").data, e)] := by
  rw [parseQS_two _ _ _ _ (by decide) (by decide) (by decide) (by decide) (by decide)
    (enc_not_amp s) (by decide) (by decide) (enc_not_amp e)]
  rw [plusToSpace_enc, decodeLenient_enc, plusToSpace_enc, decodeLenient_enc]
  rw [show decodeLenient (plusToSpace (("start").data)) = ("start").data from by decide]
  rw [show decodeLenient (plusToSpace (("end").data)) = ("end").data from by decide]

theorem params_filter (j : Str) :
    parseQueryString ((("filter").data) ++ '=' :: encodeURIComponent j) =
      [(("filter").data, j)] := by
  rw [parseQS_one _ _ (by decide) (by decide) (by decide) (by decide) (enc_not_amp j)]
  rw [plusToSpace_enc, decodeLenient_enc]
  rw [show decodeLenient (plusToSpace (("filter").data)) = ("filter").data from by
    decide]

theorem qvs_range (s e : Str) :
    (templateVarNames (("start={start}&end={end}").data)).filterMap (fun nm =>
      (searchParamsGet nm [(("start").data, s), (("end").data, e)]).map
        (fun v => (nm, v))) =
      [(("start").data, s), (("end").data, e)] := by
  rw [show templateVarNames (("start={start}&end={end}").data) =
    [("start").data, ("end").data] from by decide]
  rw [List.filterMap_cons, List.filterMap_cons, List.filterMap_nil]
  rw [searchParamsGet_hd]
  rw [searchParamsGet_ne _ _ _ _ (by decide), searchParamsGet_hd]
  rfl

theorem qvs_range_filter (j : Str) :
    (templateVarNames (("start={start}&end={end}").data)).filterMap (fun nm =>
      (searchParamsGet nm [(("filter").data, j)]).map (fun v => (nm, v))) = [] := by
  rw [show templateVarNames (("start={start}&end={end}").data) =
    [("start").data, ("end").data] from by decide]
  rw [List.filterMap_cons, List.filterMap_cons, List.filterMap_nil]
  rw [searchParamsGet_ne _ _ _ _ (by decide), searchParamsGet_nil]
  rw [searchParamsGet_ne _ _ _ _ (by decide), searchParamsGet_nil]
  rfl

theorem q_range_no_qmark (s e : Str) : ('?' : Char) ∉
    (("start").data) ++ '=' :: (encodeURIComponent s ++ '&' ::
      ((("end").data) ++ '=' :: encodeURIComponent e)) := by
  intro hm
  rcases List.mem_append.mp hm with h | h
  · revert h; decide
  · rcases List.mem_cons.mp h with h1 | h1
    · exact absurd h1 (by decide)
    · rcases List.mem_append.mp h1 with h2 | h2
      · exact enc_not_q s h2
      · rcases List.mem_cons.mp h2 with h3 | h3
        · exact absurd h3 (by decide)
        · rcases List.mem_append.mp h3 with h4 | h4
          · revert h4; decide
          · rcases List.mem_cons.mp h4 with h5 | h5
            · exact absurd h5 (by decide)
            · exact enc_not_q e h5

theorem q_filter_no_qmark (j : Str) : ('?' : Char) ∉
    (("filter").data) ++ '=' :: encodeURIComponent j := by
  intro hm
  rcases List.mem_append.mp hm with h | h
  · revert h; decide
  · rcases List.mem_cons.mp h with h1 | h1
    · exact absurd h1 (by decide)
    · exact enc_not_q j h1

theorem tryParse_range_q_clean (p c x s e : Str) (hp : p ≠ []) (hc : c ≠ [])
    (hx : x ≠ []) :
    tryParseWithTemplate
      ((encodeURIComponent p ++ '/' :: (encodeURIComponent c ++ '/' ::
        encodeURIComponent x)) ++ '?' :: ((("start").data) ++ '=' ::
          (encodeURIComponent s ++ '&' :: ((("end").data) ++ '=' ::
            encodeURIComponent e)))) tplRange =
      .ok (some [(("principal").data, p), (("calendarId").data, c),
        (("comp").data, x), (("start").data, s), (("end").data, e)]) := by
  rw [tryParse_range_q p c x _ hp hc hx (q_range_no_qmark s e) (by simp)]
  rw [params_range s e, qvs_range s e]
  rfl

theorem tryParse_range_on_queryuri (p c x j : Str) (hp : p ≠ []) (hc : c ≠ [])
    (hx : x ≠ []) :
    tryParseWithTemplate
      ((encodeURIComponent p ++ '/' :: (encodeURIComponent c ++ '/' ::
        encodeURIComponent x)) ++ '?' :: ((("filter").data) ++ '=' ::
          encodeURIComponent j)) tplRange =
      .ok (some [(("principal").data, p), (("calendarId").data, c),
        (("comp").data, x)]) := by
  rw [tryParse_range_q p c x _ hp hc hx (q_filter_no_qmark j) (by simp)]
  rw [params_filter j, qvs_range_filter j]
  simp

theorem parse_range_uri (p c x s e : Str) (hp : p ≠ []) (hc : c ≠ []) (hx : x ≠ [])
    (hmem : ([("VEVENT").data, ("VTODO").data, ("VJOURNAL").data]).contains x = true)
    (hs : isoDateTimeTest s = true) (he : isoDateTimeTest e = true)
    (hend1 : strEndsWith (("/VTODO").data) (encodeURIComponent p ++ '/' ::
      (encodeURIComponent c ++ '/' :: encodeURIComponent x)) = false)
    (hend2 : strEndsWith (("/_meta/calendars").data) (encodeURIComponent p ++ '/' ::
      (encodeURIComponent c ++ '/' :: encodeURIComponent x)) = false) :
    parseCalDavUri ((("caldav://").data) ++ (encodeURIComponent p ++ (("/").data ++
      (encodeURIComponent c ++ (("/").data ++ (encodeURIComponent x ++
        (("?start=").data ++ (encodeURIComponent s ++ (("&end=").data ++
          encodeURIComponent e))))))))) =
      .ok ⟨("components-range").data,
        [(("principal").data, p), (("calendarId").data, c), (("comp").data, x),
          (("start").data, s), (("end").data, e)], tplRange⟩ := by
  rw [show (("caldav://").data) ++ (encodeURIComponent p ++ (("/").data ++
      (encodeURIComponent c ++ (("/").data ++ (encodeURIComponent x ++
        (("?start=").data ++ (encodeURIComponent s ++ (("&end=").data ++
          encodeURIComponent e)))))))) =
    (("caldav://").data) ++ ((encodeURIComponent p ++ '/' ::
      (encodeURIComponent c ++ '/' :: encodeURIComponent x)) ++ '?' ::
        ((("start").data) ++ '=' :: (encodeURIComponent s ++ '&' ::
          ((("end").data) ++ '=' :: encodeURIComponent e)))) from by simp]
  unfold parseCalDavUri
  rw [if_neg (by rw [caldav_starts]; decide)]
  rw [caldav_prefix_drop, sorted_eval]
  have hqp : ('?' : Char) ∉ encodeURIComponent p ++ '/' ::
      (encodeURIComponent c ++ '/' :: encodeURIComponent x) :=
    not_mem_path2 '?' _ _ (enc_not_q p) (by decide)
      (not_mem_path2 '?' _ _ (enc_not_q c) (by decide) (enc_not_q x))
  rw [parseLoop_cons_none _ _ _
    (tryParse_bycat_none_q _ _ hqp (q_range_no_qmark s e) hend1)]
  rw [parseLoop_cons_none _ _ _
    (tryParse_meta_none_q _ _ hqp (q_range_no_qmark s e) hend2)]
  rw [parseLoop_cons_ok _ _ _ _ (tryParse_range_q_clean p c x s e hp hc hx)
    (by rw [show tplRange.name = ("components-range").data from rfl,
      valid_range p c x s e hp hc hx hmem hs he])]
  rfl

theorem parse_query_uri (p c x j : Str) (hp : p ≠ []) (hc : c ≠ []) (hx : x ≠ [])
    (hmem : ([("VEVENT").data, ("VTODO").data, ("VJOURNAL").data]).contains x = true)
    (hend1 : strEndsWith (("/VTODO").data) (encodeURIComponent p ++ '/' ::
      (encodeURIComponent c ++ '/' :: encodeURIComponent x)) = false)
    (hend2 : strEndsWith (("/_meta/calendars").data) (encodeURIComponent p ++ '/' ::
      (encodeURIComponent c ++ '/' :: encodeURIComponent x)) = false) :
    parseCalDavUri ((("caldav://").data) ++ (encodeURIComponent p ++ (("/").data ++
      (encodeURIComponent c ++ (("/").data ++ (encodeURIComponent x ++
        (("?filter=").data ++ encodeURIComponent j))))))) =
      .error (.validationErr [("Missing required variable: start").data,
        ("Missing required variable: end").data]) := by
  rw [show (("caldav://").data) ++ (encodeURIComponent p ++ (("/").data ++
      (encodeURIComponent c ++ (("/").data ++ (encodeURIComponent x ++
        (("?filter=").data ++ encodeURIComponent j)))))) =
    (("caldav://").data) ++ ((encodeURIComponent p ++ '/' ::
      (encodeURIComponent c ++ '/' :: encodeURIComponent x)) ++ '?' ::
        ((("filter").data) ++ '=' :: encodeURIComponent j)) from by simp]
  unfold parseCalDavUri
  rw [if_neg (by rw [caldav_starts]; decide)]
  rw [caldav_prefix_drop, sorted_eval]
  have hqp : ('?' : Char) ∉ encodeURIComponent p ++ '/' ::
      (encodeURIComponent c ++ '/' :: encodeURIComponent x) :=
    not_mem_path2 '?' _ _ (enc_not_q p) (by decide)
      (not_mem_path2 '?' _ _ (enc_not_q c) (by decide) (enc_not_q x))
  rw [parseLoop_cons_none _ _ _
    (tryParse_bycat_none_q _ _ hqp (q_filter_no_qmark j) hend1)]
  rw [parseLoop_cons_none _ _ _
    (tryParse_meta_none_q _ _ hqp (q_filter_no_qmark j) hend2)]
  rw [parseLoop_head_invalid _ _ _ _ (tryParse_range_on_queryuri p c x j hp hc hx)
    (by rw [show tplRange.name = ("components-range").data from rfl,
      invalid_range_missing p c x hp hc hx hmem])]
  rw [show tplRange.name = ("components-range").data from rfl,
    invalid_range_missing p c x hp hc hx hmem]



/-- C3: amended round-trip law.  For `components-by-cat`, `metadata-list-cals`,
`component-by-uid` (provided the variables do not collide with the metadata
path, i.e. not calendarId = "_meta" with uid = "calendars") and
`components-range` (with comp VEVENT or VJOURNAL), `parseCalDavUri` applied to
`buildCalDavUri name vars` succeeds with the same template name and the same
variables, even when values contain reserved characters.  The claim FAILS for
`components-query`: its built URI is intercepted by the earlier-sorted
`components-range` template (same `{a}/{b}/{c}` path shape) and parsing stops
with a validation error about the missing `start`/`end` variables, so the
round trip never returns `components-query`. -/
theorem c3_roundtrip_amended
    (p c k u x s e j : Str)
    (hp : p ≠ []) (hc : c ≠ []) (hk : k ≠ []) (hu : u ≠ [])
    (hnm : ¬(c = ("_meta").data ∧ u = ("calendars").data))
    (hx : x = ("VEVENT").data ∨ x = ("VJOURNAL").data)
    (hs : isoDateTimeTest s = true) (he : isoDateTimeTest e = true)
    (hj : j ≠ []) :
    ((∃ uri, buildCalDavUri (("components-by-cat").data)
        [(("principal").data, p), (("calendarId").data, c), (("cat").data, k)] =
          .ok uri ∧
        parseCalDavUri uri = .ok ⟨("components-by-cat").data,
          [(("principal").data, p), (("calendarId").data, c), (("cat").data, k)],
          tplByCat⟩) ∧
     (∃ uri, buildCalDavUri (("metadata-list-cals").data)
        [(("principal").data, p)] = .ok uri ∧
        parseCalDavUri uri = .ok ⟨("metadata-list-cals").data,
          [(("principal").data, p)], tplMeta⟩) ∧
     (∃ uri, buildCalDavUri (("component-by-uid").data)
        [(("principal").data, p), (("calendarId").data, c), (("uid").data, u)] =
          .ok uri ∧
        parseCalDavUri uri = .ok ⟨("component-by-uid").data,
          [(("principal").data, p), (("calendarId").data, c), (("uid").data, u)],
          tplByUid⟩) ∧
     (∃ uri, buildCalDavUri (("components-range").data)
        [(("principal").data, p), (("calendarId").data, c), (("comp").data, x),
         (("start").data, s), (("end").data, e)] = .ok uri ∧
        parseCalDavUri uri = .ok ⟨("components-range").data,
          [(("principal").data, p), (("calendarId").data, c), (("comp").data, x),
           (("start").data, s), (("end").data, e)], tplRange⟩) ∧
     (∃ uri, buildCalDavUri (("components-query").data)
        [(("principal").data, p), (("calendarId").data, c), (("comp").data, x),
         (("jmes").data, j)] = .ok uri ∧
        parseCalDavUri uri =
          .error (.validationErr [("Missing required variable: start").data,
            ("Missing required variable: end").data]))) := by
  have hxne : x ≠ [] := by rcases hx with rfl | rfl <;> decide
  have hmem : ([("VEVENT").data, ("VTODO").data, ("VJOURNAL").data]).contains x
      = true := by rcases hx with rfl | rfl <;> decide
  have hend1 : strEndsWith (("/VTODO").data) (encodeURIComponent p ++ '/' ::
      (encodeURIComponent c ++ '/' :: encodeURIComponent x)) = false := by
    rcases hx with rfl | rfl
    · exact endsWith_false_of_last _ _ 'O' 'T' (by decide)
        (getLast?_path3 _ _ _ 'T' (by decide) (by decide)) (by decide)
    · exact endsWith_false_of_last _ _ 'O' 'L' (by decide)
        (getLast?_path3 _ _ _ 'L' (by decide) (by decide)) (by decide)
  have hend2 : strEndsWith (("/_meta/calendars").data) (encodeURIComponent p ++
      '/' :: (encodeURIComponent c ++ '/' :: encodeURIComponent x)) = false := by
    rcases hx with rfl | rfl
    · exact endsWith_false_of_last _ _ 's' 'T' (by decide)
        (getLast?_path3 _ _ _ 'T' (by decide) (by decide)) (by decide)
    · exact endsWith_false_of_last _ _ 's' 'L' (by decide)
        (getLast?_path3 _ _ _ 'L' (by decide) (by decide)) (by decide)
  exact ⟨⟨_, build_bycat p c k hp hc hk, parse_bycat_uri p c k hp hc hk⟩,
    ⟨_, build_meta p hp, parse_meta_uri p hp⟩,
    ⟨_, build_byuid p c u hp hc hu, parse_byuid_uri p c u hp hc hu hnm⟩,
    ⟨_, build_range p c x s e hp hc hxne hmem hs he,
      parse_range_uri p c x s e hp hc hxne hmem hs he hend1 hend2⟩,
    ⟨_, build_query p c x j hp hc hxne hmem hj,
      parse_query_uri p c x j hp hc hxne hmem hend1 hend2⟩⟩

/-- C3 counterexample: a fully valid variable assignment for the
`components-query` template builds successfully, but parsing the built URI
returns a validation error (missing `start`/`end`) from the
`components-range` template instead of recovering the `components-query`
variables. -/
theorem c3_counterexample :
    buildCalDavUri (("components-query").data)
      [(("principal").data, ("alice").data),
       (("calendarId").data, ("work").data),
       (("comp").data, ("VEVENT").data),
       (("jmes").data, ("SUMMARY").data)] =
      .ok (("caldav://alice/work/VEVENT?filter=SUMMARY").data) ∧
    parseCalDavUri (("caldav://alice/work/VEVENT?filter=SUMMARY").data) =
      .error (.validationErr [("Missing required variable: start").data,
        ("Missing required variable: end").data]) := by
  constructor
  · rw [build_query (("alice").data) (("work").data) (("VEVENT").data)
      (("SUMMARY").data) (by decide) (by decide) (by decide) (by decide)
      (by decide)]
    rfl
  · rw [show ("caldav://alice/work/VEVENT?filter=SUMMARY").data =
      (("caldav://").data) ++ (encodeURIComponent (("alice").data) ++
        ((("/").data) ++ (encodeURIComponent (("work").data) ++
          ((("/").data) ++ (encodeURIComponent (("VEVENT").data) ++
            ((("?filter=").data) ++ encodeURIComponent (("SUMMARY").data)))))))
      from by rfl]
    exact parse_query_uri (("alice").data) (("work").data) (("VEVENT").data)
      (("SUMMARY").data) (by decide) (by decide) (by decide) (by decide)
      (by decide) (by decide)

theorem c3_witness :
    ((∃ uri, buildCalDavUri (("components-by-cat").data)
        [(("principal").data, ("alice").data),
         (("calendarId").data, ("work").data),
         (("cat").data, ("family fun/x@y").data)] = .ok uri ∧
        parseCalDavUri uri = .ok ⟨("components-by-cat").data,
          [(("principal").data, ("alice").data),
           (("calendarId").data, ("work").data),
           (("cat").data, ("family fun/x@y").data)], tplByCat⟩) ∧
     (∃ uri, buildCalDavUri (("metadata-list-cals").data)
        [(("principal").data, ("alice").data)] = .ok uri ∧
        parseCalDavUri uri = .ok ⟨("metadata-list-cals").data,
          [(("principal").data, ("alice").data)], tplMeta⟩) ∧
     (∃ uri, buildCalDavUri (("component-by-uid").data)
        [(("principal").data, ("alice").data),
         (("calendarId").data, ("work").data),
         (("uid").data, ("evt 1@host/seg").data)] = .ok uri ∧
        parseCalDavUri uri = .ok ⟨("component-by-uid").data,
          [(("principal").data, ("alice").data),
           (("calendarId").data, ("work").data),
           (("uid").data, ("evt 1@host/seg").data)], tplByUid⟩) ∧
     (∃ uri, buildCalDavUri (("components-range").data)
        [(("principal").data, ("alice").data),
         (("calendarId").data, ("work").data),
         (("comp").data, ("VEVENT").data),
         (("start").data, ("2024-01-01").data),
         (("end").data, ("2024-12-31").data)] = .ok uri ∧
        parseCalDavUri uri = .ok ⟨("components-range").data,
          [(("principal").data, ("alice").data),
           (("calendarId").data, ("work").data),
           (("comp").data, ("VEVENT").data),
           (("start").data, ("2024-01-01").data),
           (("end").data, ("2024-12-31").data)], tplRange⟩) ∧
     (∃ uri, buildCalDavUri (("components-query").data)
        [(("principal").data, ("alice").data),
         (("calendarId").data, ("work").data),
         (("comp").data, ("VEVENT").data),
         (("jmes").data, ("SUMMARY").data)] = .ok uri ∧
        parseCalDavUri uri =
          .error (.validationErr [("Missing required variable: start").data,
            ("Missing required variable: end").data]))) :=
  c3_roundtrip_amended (("alice").data) (("work").data)
    (("family fun/x@y").data) (("evt 1@host/seg").data) (("VEVENT").data)
    (("2024-01-01").data) (("2024-12-31").data) (("SUMMARY").data)
    (by decide) (by decide) (by decide) (by decide) (by decide)
    (Or.inl rfl) (by decide) (by decide) (by decide)

end CalDav
